import Mathlib

/-!
Telegraf input plugins: burrow (consumer-group level), nginx_upstream_check, filebeat
and logstash.

A shallow embedding of `plugins/inputs/burrow/burrow_group.go`, of
`plugins/inputs/nginx_upstream_check/nginx_upstream_check.go`, of `NewFilebeat` in
`plugins/inputs/filebeat/filebeat.go` and of `Gather` and the four gathering functions in
`plugins/inputs/logstash/logstash.go`, followed by the properties established about them.

Conventions.
* Go strings are Lean `String`s; Go `int`, `int32`, `int64` values are `Int`s
  (no arithmetic is performed on them, they are only copied and printed), and the
  `uint8` result of `statusCode` is a `Nat`.
* A Go `map[string]T` is an association list with unique keys, built by `setKey`
  in the order of the source text; statements about maps speak about lookups and
  about the key list up to permutation.
* The accumulator (`api.acc`, `accumulator`) is the list of records added so far,
  oldest first; a function that adds records maps an accumulator to an accumulator.
* `gatherGroupStats` and `fetchGroup` are the lists of channel, goroutine and wait-group
  operations that their goroutine performs, in program order (`Op`); `Pool`, `stepMain`
  and `stepWorker` run such a list together with the workers it starts, under every
  interleaving.
* What lies outside a plugin (`url.Parse`, the HTTP client, the JSON decoder) is a parameter
  of its functions; an `error` result is `none` for nil and the text of the error otherwise.
* `Gather` of nginx_upstream_check starts goroutines: `stepMain` and `stepGoroutine` are the
  steps of the method and of the goroutines it starts, and `Gather` runs them under a schedule.
* In logstash the addresses requested by `gatherJsonData` are recorded in a list that the
  gathering functions pass on.
* `burrow.go` is not among the sources: `whitelistSlice`, `remapStatus` and the worker
  loop `withAPICall` follow the specification, and the response and client types carry
  the members that `burrow_group.go` reads.
-/

namespace Burrow

/-! ## Data model -/

/-- A value stored in a field map (`interface{}` holding a string or an integer). -/
inductive FieldValue where
  | str (s : String)
  | int (i : Int)
  deriving DecidableEq, Repr

/-- Assignment `m[k] = v` on a map kept as an association list with unique keys. -/
def setKey {β : Type} (m : List (String × β)) (k : String) (v : β) : List (String × β) :=
  match m with
  | [] => [(k, v)]
  | (k0, v0) :: rest => if k0 = k then (k, v) :: rest else (k0, v0) :: setKey rest k v

/-- A map literal: the entries are assigned one after the other. -/
def mapLit {β : Type} (entries : List (String × β)) : List (String × β) :=
  entries.foldl (fun m kv => setKey m kv.1 kv.2) []

/-- The keys of a map. -/
def keys {β : Type} (m : List (String × β)) : List String := m.map Prod.fst

/-- One record handed to `acc.AddFields(name, fields, tags)`. -/
structure Metric where
  name : String
  fields : List (String × FieldValue)
  tags : List (String × String)
  deriving DecidableEq, Repr

/-- The records added to the accumulator so far, oldest first. -/
abbrev Accumulator := List Metric

/-- The method `acc.AddFields`. -/
def AddFields (acc : Accumulator) (name : String) (fields : List (String × FieldValue))
    (tags : List (String × String)) : Accumulator :=
  acc ++ [⟨name, fields, tags⟩]

/-- The `Start` / `End` sub-structure of a lag item (used as `.Offset`, `.Timestamp`, `.Lag`). -/
structure apiStatusResponseLagItem where
  Offset : Int
  Timestamp : Int
  Lag : Int
  deriving DecidableEq, Repr

/-- One lag entry: an element of `res.Status.Partitions`, or `*res.Status.Maxlag`. -/
structure apiStatusResponseLag where
  Topic : String
  Partition : Int
  Status : String
  Start : apiStatusResponseLagItem
  End : apiStatusResponseLagItem
  deriving DecidableEq, Repr

/-- The value of `res.Status`; `Maxlag` is a pointer, `none` when it is nil. -/
structure apiStatusResponse where
  Cluster : String
  Group : String
  Status : String
  Maxlag : Option apiStatusResponseLag
  Partitions : List apiStatusResponseLag
  deriving DecidableEq, Repr

/-- The value of `res.Request`. -/
structure apiRequest where
  Cluster : String
  Group : String
  deriving DecidableEq, Repr

/-- The decoded response, with the members read by `burrow_group.go`. -/
structure apiResponse where
  Request : apiRequest
  Groups : List String
  Status : apiStatusResponse
  deriving DecidableEq, Repr

/-- The client configuration, with the members read by `burrow_group.go`
(the accumulator `api.acc` is passed separately, as explicit state). -/
structure apiClient where
  apiPrefix : String
  workerCount : Int
  limitGroups : List String
  disableGroupSummary : Bool
  disableGroupTopics : Bool
  deriving DecidableEq, Repr

/-- A client with everything enabled and two workers. -/
def exampleClient : apiClient :=
  { apiPrefix := "http://burrow:8000/v2/kafka", workerCount := 2, limitGroups := [],
    disableGroupSummary := false, disableGroupTopics := false }

/-- A lag entry as in the `group1` test data. -/
def exampleLag : apiStatusResponseLag :=
  { Topic := "topicA", Partition := 0, Status := "WARN",
    Start := { Offset := 823889, Timestamp := 1432423256000, Lag := 20 },
    End := { Offset := 824743, Timestamp := 1432423796001, Lag := 25 } }

/-- A group response as in the `group1` test data. -/
def exampleResponse : apiResponse :=
  { Request := { Cluster := "clustername1", Group := "group1" },
    Groups := [],
    Status := { Cluster := "clustername1", Group := "group1", Status := "WARN",
                Maxlag := some exampleLag, Partitions := [exampleLag] } }

/-! ## Helpers declared in burrow.go -/

/-- Modelled from the spec: `whitelistSlice` is defined in burrow.go, which is not among
the sources. Spec 4.1: if `allowed` is empty, `candidates` is returned unchanged; otherwise
the candidates are walked in order and one is kept when it is present in `allowed`. -/
def whitelistSlice (candidates allowed : List String) : List String :=
  match allowed with
  | [] => candidates
  | _ :: _ => go candidates
where
  /-- The walk over the candidates. -/
  go : List String → List String
    | [] => []
    | c :: rest => if allowed.contains c then c :: go rest else go rest

/-- Modelled from the spec: `remapStatus` is defined in burrow.go, which is not among the
sources. Spec 3 and 4.2: a total, exact-match map from the status vocabulary
(`"OK"`, `"NOT_EXIST"`, `"WARN"`, `"ERR"`) to the codes ok = 1, not-exist/warning = 2..3,
error = 4, with 0 for every other string; the tests in burrow_test.go fix
`"OK"` to 1, `"WARN"` to 3 and `"ERR"` to 4. -/
def remapStatus (src : String) : Int :=
  if src = "OK" then 1
  else if src = "NOT_EXIST" then 2
  else if src = "WARN" then 3
  else if src = "ERR" then 4
  else 0

/-- The status strings `remapStatus` knows. -/
def statusVocabulary : List String := ["OK", "NOT_EXIST", "WARN", "ERR"]

/-! ## Standard-library functions used by burrow_group.go -/

/-- The digits of `n` in base ten, least significant first (`fuel` bounds the length). -/
def decDigits : Nat → Nat → List Nat
  | 0, _ => []
  | fuel + 1, n => if n < 10 then [n] else (n % 10) :: decDigits fuel (n / 10)

/-- The character of a decimal digit. -/
def digitChar (d : Nat) : Char := Char.ofNat (48 + d)

/-- The base-ten rendering of a natural number, most significant digit first. -/
def formatNat (n : Nat) : List Char := ((decDigits (n + 1) n).map digitChar).reverse

/-- Go `strconv.FormatInt(i, 10)`: the decimal rendering, with a leading `-` when negative. -/
def FormatInt (i : Int) : String :=
  match i with
  | Int.ofNat n => String.mk (formatNat n)
  | Int.negSucc n => String.mk ('-' :: formatNat (n + 1))

/-- The number denoted by a list of digits, least significant first. -/
def valDigits : List Nat → Nat
  | [] => 0
  | d :: ds => d + 10 * valDigits ds

/-- The digit of a decimal character. -/
def charDigit (c : Char) : Nat := c.toNat - 48

/-- The field keys that `publishGroupSummary` adds when `Maxlag` is present. -/
def maxlagKeys : List String :=
  ["maxlag.topic", "maxlag.parittion", "maxlag.status", "maxlag.status_code",
   "maxlag.start.offset", "maxlag.start.timestamp", "maxlag.start.lag",
   "maxlag.end.offset", "maxlag.end.timestamp", "maxlag.end.lag"]

/-- The field keys of a `burrow_group_topic` record. -/
def topicKeys : List String :=
  ["start.offset", "start.lag", "start.timestamp", "end.offset", "end.lag", "end.timestamp",
   "status", "status_code"]

/-- Whether the key `k` begins with `pre`. -/
def hasPrefix (pre k : String) : Bool := pre.toList.isPrefixOf k.toList

/-- The bytes of a character in UTF-8: a Go string is the byte sequence of its text. -/
def utf8Bytes (c : Char) : List Nat :=
  let v := c.toNat
  if v < 0x80 then [v]
  else if v < 0x800 then [0xC0 + v / 0x40, 0x80 + v % 0x40]
  else if v < 0x10000 then [0xE0 + v / 0x1000, 0x80 + (v / 0x40) % 0x40, 0x80 + v % 0x40]
  else [0xF0 + v / 0x40000, 0x80 + (v / 0x1000) % 0x40, 0x80 + (v / 0x40) % 0x40,
        0x80 + v % 0x40]

/-- Go `net/url`, `shouldEscape(c, encodePathSegment)`: letters, digits and `- _ . ~` are
kept, of the reserved characters `$ & + , / : ; = ? @` the four `/ ; , ?` are escaped, and
every other byte is escaped. -/
def shouldEscape (c : Nat) : Bool :=
  if (97 ≤ c ∧ c ≤ 122) ∨ (65 ≤ c ∧ c ≤ 90) ∨ (48 ≤ c ∧ c ≤ 57) then false
  else if c = 45 ∨ c = 95 ∨ c = 46 ∨ c = 126 then false
  else if c = 36 ∨ c = 38 ∨ c = 43 ∨ c = 44 ∨ c = 47 ∨ c = 58 ∨ c = 59 ∨ c = 61 ∨ c = 63
      ∨ c = 64 then
    decide (c = 47 ∨ c = 59 ∨ c = 44 ∨ c = 63)
  else true

/-- The upper-case hexadecimal digit `"0123456789ABCDEF"[d]`. -/
def upperhex (d : Nat) : Char := "0123456789ABCDEF".toList.getD d '0'

/-- The output of Go `net/url` `escape` for one byte: `%XX` when it must be escaped. -/
def escapeByte (c : Nat) : List Char :=
  if shouldEscape c then ['%', upperhex (c / 16), upperhex (c % 16)] else [Char.ofNat c]

/-- Go `url.PathEscape`: percent-escaping of a string for use as one path segment. -/
def PathEscape (s : String) : String :=
  String.mk ((s.toList.flatMap utf8Bytes).flatMap escapeByte)

/-! ## burrow_group.go: orchestration

`gatherGroupStats` and `fetchGroup` are each run by one goroutine. They are embedded as the
sequence of channel, goroutine and wait-group operations that this goroutine performs, in
program order. -/

/-- The function a worker applies to a fetched response. -/
inductive Handler where
  /-- The function `fetchGroup`. -/
  | fetchGroup
  /-- The closure `publishGroupSummary; publishGroupTopic`. -/
  | publishGroup
  deriving DecidableEq, Repr

/-- One operation of an orchestrating goroutine. -/
inductive Op where
  /-- The statement `producerChan := make(chan string, cap)`. -/
  | makeProducer (cap : Nat)
  /-- The statement `doneChan := make(chan bool, cap)`. -/
  | makeDone (cap : Nat)
  /-- The statement `go withAPICall(api, producerChan, doneChan, h)`. -/
  | spawn (h : Handler)
  /-- The statement `producerChan <- addr`. -/
  | send (addr : String)
  /-- The statement `<-doneChan`. -/
  | recvDone
  /-- The statement `close(producerChan)`. -/
  | closeProducer
  /-- The call `wg.Done()`. -/
  | wgDone
  deriving DecidableEq, Repr

/-- The number of iterations of `for i := 0; i < n; i++`. -/
def loopCount (n : Int) : Nat := n.toNat

/-- The address built in `gatherGroupStats`: `fmt.Sprintf("%s/%s/consumer", apiPrefix, escaped)`. -/
def consumerAddress (apiPrefix cluster : String) : String :=
  apiPrefix ++ "/" ++ PathEscape cluster ++ "/consumer"

/-- The address built in `fetchGroup`: `fmt.Sprintf("%s/%s/lag", uri, escaped)`. -/
def lagAddress (uri group : String) : String :=
  uri ++ "/" ++ PathEscape group ++ "/lag"

/-- Function `gatherGroupStats` ("fetch consumer groups"). The deferred `wg.Done()` is the
last operation on both paths; with both statistics disabled the function returns at once. -/
def gatherGroupStats (api : apiClient) (clusterList : List String) : List Op :=
  (if api.disableGroupSummary = true ∧ api.disableGroupTopics = true then []
   else
    [Op.makeProducer clusterList.length, Op.makeDone clusterList.length]
      ++ List.replicate (loopCount api.workerCount) (Op.spawn Handler.fetchGroup)
      ++ clusterList.map (fun cluster => Op.send (consumerAddress api.apiPrefix cluster))
      ++ List.replicate clusterList.length Op.recvDone
      ++ [Op.closeProducer])
    ++ [Op.wgDone]

/-- Function `fetchGroup` ("fetch consumer status"). -/
def fetchGroup (api : apiClient) (res : apiResponse) (uri : String) : List Op :=
  let groupList := whitelistSlice res.Groups api.limitGroups
  [Op.makeProducer groupList.length, Op.makeDone groupList.length]
    ++ List.replicate (loopCount api.workerCount) (Op.spawn Handler.publishGroup)
    ++ groupList.map (fun group => Op.send (lagAddress uri group))
    ++ List.replicate groupList.length Op.recvDone
    ++ [Op.closeProducer]

/-- The common shape of the two functions: a pool of `workerCount` workers over the
addresses `addrs`. Both channels are made, the workers are started, every address is sent,
one completion signal per address is received, and the producer channel is closed. -/
def poolOps (workerCount : Int) (h : Handler) (addrs : List String) : List Op :=
  [Op.makeProducer addrs.length, Op.makeDone addrs.length]
    ++ List.replicate (loopCount workerCount) (Op.spawn h)
    ++ addrs.map Op.send
    ++ List.replicate addrs.length Op.recvDone
    ++ [Op.closeProducer]

/-- The addresses sent by a sequence of operations, in order. -/
def sentAddresses (ops : List Op) : List String :=
  ops.filterMap (fun o => match o with | Op.send a => some a | _ => none)

/-- The capacities of the producer channels made by a sequence of operations. -/
def producerCaps (ops : List Op) : List Nat :=
  ops.filterMap (fun o => match o with | Op.makeProducer c => some c | _ => none)

/-- The capacities of the completion channels made by a sequence of operations. -/
def doneCaps (ops : List Op) : List Nat :=
  ops.filterMap (fun o => match o with | Op.makeDone c => some c | _ => none)

/-- A client with both group statistics disabled. -/
def disabledClient : apiClient :=
  { apiPrefix := "http://burrow:8000/v2/kafka", workerCount := 2, limitGroups := [],
    disableGroupSummary := true, disableGroupTopics := true }

/-! ## Execution of a pool

The operations of the orchestrating goroutine are interleaved with the steps of the workers
it has started. A buffered channel is a queue with a capacity: a send needs room, a receive
needs an element (or, for a worker, a closed and drained channel). -/

/-- The state of one worker goroutine. -/
inductive Worker where
  /-- The worker is at the receive from the producer channel. -/
  | idle
  /-- The worker has received `uri` and is about to call the API and the handler. -/
  | busy (uri : String)
  /-- The worker is about to send its completion signal. -/
  | signalling
  /-- The worker has returned. -/
  | exited
  deriving DecidableEq, Repr

/-- The state of an orchestrating goroutine, its two channels and its workers. The members
`sent`, `received` and `handled` record what has happened so far. -/
structure Pool where
  script : List Op
  producer : List String
  producerCap : Nat
  closed : Bool
  done : Nat
  doneCap : Nat
  workers : List Worker
  sent : List String
  received : Nat
  handled : List String
  acc : Accumulator
  wg : Nat
  deriving DecidableEq, Repr

/-- The state in which the orchestrating goroutine starts on `script`. -/
def initPool (script : List Op) (acc : Accumulator) : Pool :=
  { script := script, producer := [], producerCap := 0, closed := false, done := 0,
    doneCap := 0, workers := [], sent := [], received := 0, handled := [], acc := acc,
    wg := 0 }

/-- One operation of the orchestrating goroutine; `none` when it is finished or blocked. -/
def stepMain (s : Pool) : Option Pool :=
  match s.script with
  | [] => none
  | Op.makeProducer c :: rest => some { s with script := rest, producerCap := c }
  | Op.makeDone c :: rest => some { s with script := rest, doneCap := c }
  | Op.spawn _ :: rest => some { s with script := rest, workers := s.workers ++ [Worker.idle] }
  | Op.send a :: rest =>
    if s.producer.length < s.producerCap then
      some { s with script := rest, producer := s.producer ++ [a], sent := s.sent ++ [a] }
    else none
  | Op.recvDone :: rest =>
    if 0 < s.done then
      some { s with script := rest, done := s.done - 1, received := s.received + 1 }
    else none
  | Op.closeProducer :: rest => some { s with script := rest, closed := true }
  | Op.wgDone :: rest => some { s with script := rest, wg := s.wg + 1 }

/-- Modelled from the spec: `withAPICall` is defined in burrow.go, which is not among the
sources. Spec 4.3: each worker pulls an item from the queue, fetches it and invokes the
handler, and signals completion on the completion queue; a worker that finds the queue empty
exits once it is closed. `handle uri` is the effect on the accumulator of fetching `uri` and
applying the handler to the response. One step of worker `i`; `none` when it cannot move. -/
def stepWorker (handle : String → Accumulator → Accumulator) (s : Pool) (i : Nat) :
    Option Pool :=
  match s.workers[i]? with
  | none => none
  | some Worker.idle =>
    match s.producer with
    | uri :: rest => some { s with producer := rest, workers := s.workers.set i (Worker.busy uri) }
    | [] => if s.closed = true then some { s with workers := s.workers.set i Worker.exited }
            else none
  | some (Worker.busy uri) =>
    some { s with workers := s.workers.set i Worker.signalling,
                  handled := s.handled ++ [uri], acc := handle uri s.acc }
  | some Worker.signalling =>
    if s.done < s.doneCap then
      some { s with done := s.done + 1, workers := s.workers.set i Worker.idle }
    else none
  | some Worker.exited => none

/-- Which goroutine moves next. -/
inductive Event where
  | main
  | worker (i : Nat)
  deriving DecidableEq, Repr

/-- One step of the goroutine named by the event. -/
def step (handle : String → Accumulator → Accumulator) (s : Pool) (e : Event) : Option Pool :=
  match e with
  | Event.main => stepMain s
  | Event.worker i => stepWorker handle s i

/-- The steps of a schedule, one after the other. -/
def runSchedule (handle : String → Accumulator → Accumulator) :
    List Event → Pool → Option Pool
  | [], s => some s
  | e :: es, s => (step handle s e).bind (runSchedule handle es)

/-- Some goroutine can take `s` to `t`. -/
def Step (handle : String → Accumulator → Accumulator) (s t : Pool) : Prop :=
  ∃ e, step handle s e = some t

/-- The state `t` can be reached from `s`. -/
def Reachable (handle : String → Accumulator → Accumulator) (s t : Pool) : Prop :=
  Relation.ReflTransGen (Step handle) s t

/-- No goroutine can move: every one of them has finished or is blocked for ever. -/
def Terminal (handle : String → Accumulator → Accumulator) (s : Pool) : Prop :=
  ∀ t, ¬ Step handle s t

/-- The weight of a worker in the termination measure. -/
def workerWeight : Worker → Nat
  | Worker.idle => 1
  | Worker.busy _ => 3
  | Worker.signalling => 2
  | Worker.exited => 0

/-- A bound on the number of steps still possible. -/
def measure (s : Pool) : Nat :=
  4 * s.script.length + 3 * s.producer.length + (s.workers.map workerWeight).sum

/-- The number of items a worker holds (received and not yet signalled). -/
def workerLoad : Worker → Nat
  | Worker.idle => 0
  | Worker.busy _ => 1
  | Worker.signalling => 1
  | Worker.exited => 0

/-- The number of items held by the workers. -/
def inflight (ws : List Worker) : Nat := (ws.map workerLoad).sum

/-- The operations that remain in a pool when `w` workers are still to be started, the
addresses `as` still to be sent and `r` completion signals still to be received. -/
def block (h : Handler) (w : Nat) (as : List String) (r : Nat) (tail : List Op) : List Op :=
  List.replicate w (Op.spawn h) ++ (as.map Op.send ++
    (List.replicate r Op.recvDone ++ Op.closeProducer :: tail))

/-- The bookkeeping that every step of every goroutine keeps true: each address sent is in
the producer queue, held by a worker, signalled and not yet received, or signalled and
received; and no worker exits before the producer channel is closed. -/
structure Balanced (s : Pool) : Prop where
  conservation :
    s.sent.length = s.producer.length + inflight s.workers + s.done + s.received
  noExit : s.closed = false → Worker.exited ∉ s.workers

/-- Where the orchestrating goroutine stands in a pool over `addrs` with `W` workers that is
followed by `t` calls of `wg.Done()`, and what has happened up to there. -/
inductive Phase (W : Nat) (h : Handler) (addrs : List String) (t : Nat) (s : Pool) : Prop where
  /-- Nothing has been done yet. -/
  | start
      (script : s.script = Op.makeProducer addrs.length :: Op.makeDone addrs.length ::
        block h W addrs addrs.length (List.replicate t Op.wgDone))
      (workers : s.workers = []) (sent : s.sent = []) (received : s.received = 0)
      (closed : s.closed = false) (wg : s.wg = 0)
  /-- The producer channel has been made. -/
  | made
      (script : s.script = Op.makeDone addrs.length ::
        block h W addrs addrs.length (List.replicate t Op.wgDone))
      (producerCap : s.producerCap = addrs.length)
      (workers : s.workers = []) (sent : s.sent = []) (received : s.received = 0)
      (closed : s.closed = false) (wg : s.wg = 0)
  /-- Both channels exist; `w` workers are still to be started, the addresses `as` still to
  be sent and `r` completion signals still to be received. -/
  | running (w : Nat) (as : List String) (r : Nat)
      (script : s.script = block h w as r (List.replicate t Op.wgDone))
      (spawnFirst : 0 < w → as = addrs)
      (sendFirst : as ≠ [] → r = addrs.length)
      (workers : s.workers.length + w = W)
      (sent : s.sent ++ as = addrs)
      (received : s.received + r = addrs.length)
      (producerCap : s.producerCap = addrs.length) (doneCap : s.doneCap = addrs.length)
      (closed : s.closed = false) (wg : s.wg = 0)
  /-- The producer channel has been closed; `j` calls of `wg.Done()` remain. -/
  | closing (j : Nat)
      (script : s.script = List.replicate j Op.wgDone)
      (wg : s.wg + j = t)
      (closed : s.closed = true)
      (sent : s.sent = addrs)
      (received : s.received = addrs.length)
      (workers : s.workers.length = W)
      (producerCap : s.producerCap = addrs.length) (doneCap : s.doneCap = addrs.length)

/-- The invariant of a running pool. -/
def PoolInv (W : Nat) (h : Handler) (addrs : List String) (t : Nat) (s : Pool) : Prop :=
  Balanced s ∧ Phase W h addrs t s

/-- The invariant of an orchestrating goroutine that only calls `wg.Done()`: it has no
worker, has sent nothing, and nothing has been handled or added to the accumulator. -/
structure IdleInv (t : Nat) (acc0 : Accumulator) (s : Pool) : Prop where
  script : ∃ j, s.script = List.replicate j Op.wgDone ∧ s.wg + j = t
  workers : s.workers = []
  sent : s.sent = []
  handled : s.handled = []
  acc : s.acc = acc0
  producer : s.producer = []

/-- The operations `ops` make both channels with capacity `K`, send exactly `K` addresses and
receive exactly `K` completion signals, and they close the producer channel once, after all
these sends and receives. -/
def CompletionCount (K : Nat) (ops : List Op) : Prop :=
  producerCaps ops = [K] ∧ doneCaps ops = [K] ∧
  (sentAddresses ops).length = K ∧ ops.count Op.recvDone = K ∧
  ∃ pre post, ops = pre ++ Op.closeProducer :: post ∧
    (sentAddresses pre).length = K ∧ pre.count Op.recvDone = K ∧ Op.closeProducer ∉ pre ∧
    sentAddresses post = [] ∧ post.count Op.recvDone = 0 ∧ Op.closeProducer ∉ post

/-- A handler that records the address it was applied to as a record name. -/
def exampleHandle (uri : String) (acc : Accumulator) : Accumulator :=
  acc ++ [⟨uri, [], []⟩]

/-! ## burrow_group.go: metric emission -/

/-- Function `publishGroupSummary` ("publish consumer status"). -/
def publishGroupSummary (api : apiClient) (res : apiResponse) (_uri : String)
    (acc : Accumulator) : Accumulator :=
  if api.disableGroupSummary = true then acc
  else
    let statusCode := remapStatus res.Status.Status
    let tags := mapLit [("cluster", res.Status.Cluster), ("group", res.Status.Group)]
    let fields := mapLit [("status", FieldValue.str res.Status.Status),
                          ("status_code", FieldValue.int statusCode)]
    let fields :=
      match res.Status.Maxlag with
      | none => fields
      | some maxlag =>
        let fields := setKey fields "maxlag.topic" (FieldValue.str maxlag.Topic)
        let fields := setKey fields "maxlag.parittion" (FieldValue.int maxlag.Partition)
        let fields := setKey fields "maxlag.status" (FieldValue.str maxlag.Status)
        let fields := setKey fields "maxlag.status_code" (FieldValue.int (remapStatus maxlag.Status))
        let fields := setKey fields "maxlag.start.offset" (FieldValue.int maxlag.Start.Offset)
        let fields := setKey fields "maxlag.start.timestamp" (FieldValue.int maxlag.Start.Timestamp)
        let fields := setKey fields "maxlag.start.lag" (FieldValue.int maxlag.Start.Lag)
        let fields := setKey fields "maxlag.end.offset" (FieldValue.int maxlag.End.Offset)
        let fields := setKey fields "maxlag.end.timestamp" (FieldValue.int maxlag.End.Timestamp)
        setKey fields "maxlag.end.lag" (FieldValue.int maxlag.End.Lag)
    AddFields acc "burrow_group_summary" fields tags

/-- The body of the loop of `publishGroupTopic`: the record added for one partition. -/
def publishGroupTopicStep (res : apiResponse) (acc : Accumulator)
    (partition : apiStatusResponseLag) : Accumulator :=
  let statusCode := remapStatus partition.Status
  let tags := mapLit [("cluster", res.Request.Cluster),
                      ("group", res.Request.Group),
                      ("topic", partition.Topic),
                      ("partition", FormatInt partition.Partition)]
  AddFields acc "burrow_group_topic"
    (mapLit [("start.offset", FieldValue.int partition.Start.Offset),
             ("start.lag", FieldValue.int partition.Start.Lag),
             ("start.timestamp", FieldValue.int partition.Start.Timestamp),
             ("end.offset", FieldValue.int partition.End.Offset),
             ("end.lag", FieldValue.int partition.End.Lag),
             ("end.timestamp", FieldValue.int partition.End.Timestamp),
             ("status", FieldValue.str partition.Status),
             ("status_code", FieldValue.int statusCode)])
    tags

/-- Function `publishGroupTopic`. -/
def publishGroupTopic (api : apiClient) (res : apiResponse) (_uri : String)
    (acc : Accumulator) : Accumulator :=
  if api.disableGroupTopics = true then acc
  else res.Status.Partitions.foldl (publishGroupTopicStep res) acc

/-- The per-item handler that `fetchGroup` hands to its workers. -/
def groupHandler (api : apiClient) (res : apiResponse) (uri : String)
    (acc : Accumulator) : Accumulator :=
  publishGroupTopic api res uri (publishGroupSummary api res uri acc)

end Burrow

namespace NginxUpstreamCheck

/-- Function `statusCode` of nginx_upstream_check.go; the result is a `uint8`. -/
def statusCode (status : String) : Nat :=
  if status = "up" then 1
  else if status = "down" then 2
  else 0

end NginxUpstreamCheck

namespace Burrow

/-- The address a worker holds while its handler has not yet run. -/
def workerUri : Worker → List String
  | Worker.busy uri => [uri]
  | _ => []

/-- The addresses held by workers whose handler has not yet run. -/
def busyUris (ws : List Worker) : List String := ws.flatMap workerUri

/-- Whether a worker is about to send its completion signal (1) or not (0). -/
def workerSignal : Worker → Nat
  | Worker.signalling => 1
  | _ => 0

/-- The number of workers about to send their completion signal. -/
def signalCount (ws : List Worker) : Nat := (ws.map workerSignal).sum

/-- What the log of handled addresses says in every state of a run that starts with the
accumulator `acc0`: every address sent has been handled, is held by a worker or is still in
the producer queue, each as often as it was sent; every handled address has its completion
signal on the way, in the queue or received; and the accumulator is `acc0` after the handler
effects of the handled addresses, in order. -/
structure HandledInv (handle : String → Accumulator → Accumulator) (acc0 : Accumulator)
    (s : Pool) : Prop where
  perm : (s.handled ++ (busyUris s.workers ++ s.producer)).Perm s.sent
  count : s.handled.length = signalCount s.workers + s.done + s.received
  acc : s.acc = s.handled.foldl (fun a uri => handle uri a) acc0

end Burrow

namespace NginxUpstreamCheck

/-! ## nginx_upstream_check.go -/

/-- The struct `NginxUpstreamCheckServer`; its unsigned integers are naturals (they are only
copied and printed). -/
structure NginxUpstreamCheckServer where
  Index : Nat
  Upstream : String
  Name : String
  Status : String
  Rise : Nat
  Fall : Nat
  Type' : String
  Port : Nat
  deriving DecidableEq, Repr

/-- The member `Servers` of `NginxUpstreamCheckData`. -/
structure NginxUpstreamCheckServers where
  Total : Nat
  Generation : Nat
  Server : List NginxUpstreamCheckServer
  deriving DecidableEq, Repr

/-- The struct `NginxUpstreamCheckData`. -/
structure NginxUpstreamCheckData where
  Servers : NginxUpstreamCheckServers
  deriving DecidableEq, Repr

/-- A parsed address (`*url.URL`); the code uses only its `String()`. -/
structure URL where
  text : String
  deriving DecidableEq, Repr

/-- An HTTP response, with the members that `gatherURL` reads; `ContentType` is
`response.Header.Get("Content-Type")`. -/
structure Response where
  StatusCode : Int
  Status : String
  ContentType : String
  Body : String
  deriving DecidableEq, Repr

/-- The collaborators outside the plugin: `url.Parse` (the parsed address, or the text of
its error), `ClientConfig.TLSConfig` as used by `createHTTPClient`, `client.Get` (the
response, or the text of the error) and the decoding of a body by `encoding/json` into
`NginxUpstreamCheckData` (`none` when `Decode` returns an error). -/
structure World where
  parse : String → Except String URL
  tlsConfig : Except String Unit
  get : String → Except String Response
  decode : String → Option NginxUpstreamCheckData

/-- Modelled from the spec: the accumulator is the external sink of spec 6 and 7; it keeps
the records added by `AddFields` and the errors added by `AddError`, oldest first. -/
structure Accumulator where
  metrics : List Burrow.Metric
  errors : List String
  deriving DecidableEq, Repr

/-- The method `accumulator.AddFields`. -/
def AddFields (acc : Accumulator) (name : String) (fields : List (String × Burrow.FieldValue))
    (tags : List (String × String)) : Accumulator :=
  { acc with metrics := acc.metrics ++ [⟨name, fields, tags⟩] }

/-- Modelled from the spec: the method `accumulator.AddError` records an error; a nil error
is no error and records nothing. -/
def AddError (acc : Accumulator) (err : Option String) : Accumulator :=
  match err with
  | none => acc
  | some e => { acc with errors := acc.errors ++ [e] }

/-- Go `strings.Split(s, ";")[0]`: the part of `s` before its first `;`, all of `s` when it
has none. -/
def beforeSemicolon (s : String) : String :=
  String.mk (s.toList.takeWhile (fun c => c != ';'))

/-- Go `fmt` with the verb `%s` on a `*url.URL`: its `String()`, and `<nil>` for a nil
pointer. -/
def formatURL (address : Option URL) : String :=
  match address with
  | none => "<nil>"
  | some u => u.text

/-- Function `getFields`. -/
def getFields (server : NginxUpstreamCheckServer) : List (String × Burrow.FieldValue) :=
  Burrow.mapLit [("status", Burrow.FieldValue.str server.Status),
                 ("status_code", Burrow.FieldValue.int (statusCode server.Status)),
                 ("rise", Burrow.FieldValue.int server.Rise),
                 ("fall", Burrow.FieldValue.int server.Fall)]

/-- Function `getTags`; `fmt.Sprintf("%d", server.Port)` is the decimal rendering. -/
def getTags (server : NginxUpstreamCheckServer) (address : URL) : List (String × String) :=
  Burrow.mapLit [("upstream", server.Upstream),
                 ("type", server.Type'),
                 ("name", server.Name),
                 ("port", String.mk (Burrow.formatNat server.Port)),
                 ("url", address.text)]

/-- Function `gatherStatusURL`: the returned error (`none` for nil) and the accumulator. -/
def gatherStatusURL (w : World) (body : String) (address : URL) (acc : Accumulator) :
    Option String × Accumulator :=
  match w.decode body with
  | none => (some "Error while decoding JSON response", acc)
  | some checkData =>
    (none, checkData.Servers.Server.foldl
      (fun acc server =>
        AddFields acc "nginx_upstream_check" (getFields server) (getTags server address))
      acc)

/-- Method `gatherURL`: the returned error (`none` for nil) and the accumulator. -/
def gatherURL (w : World) (address : URL) (acc : Accumulator) : Option String × Accumulator :=
  match w.get address.text with
  | Except.error err =>
    (some ("error making HTTP request to " ++ address.text ++ ": " ++ err), acc)
  | Except.ok response =>
    if response.StatusCode ≠ 200 then
      (some (address.text ++ " returned HTTP status " ++ response.Status), acc)
    else
      let contentType := beforeSemicolon response.ContentType
      if contentType = "application/json" then
        gatherStatusURL w response.Body address acc
      else
        (some (address.text ++ " returned unexpected content type " ++ contentType), acc)

set_option linter.dupNamespace false in
/-- The receiver of `Gather`, with what `Gather` reads of it: the configured addresses and
whether `check.client` is set. -/
structure NginxUpstreamCheck where
  Urls : List String
  hasClient : Bool
  deriving DecidableEq, Repr

/-- The empty accumulator. -/
def emptyAccumulator : Accumulator := ⟨[], []⟩

/-- A goroutine that `Gather` has started for a parsed address; its body is
`defer waitGroup.Done(); accumulator.AddError(check.gatherURL(address, accumulator))`. -/
inductive Goroutine where
  /-- It is about to call `check.gatherURL(address, accumulator)`. -/
  | called (address : URL)
  /-- The call of `gatherURL` has made its request and read the answer: it still has to add
  the records `pending`, with one `AddFields` each, and then returns `err`, which
  `accumulator.AddError` takes. -/
  | adding (pending : List Burrow.Metric) (err : Option String)
  /-- The error has been handed to `AddError`; the deferred `waitGroup.Done()` is next. -/
  | reported
  /-- The goroutine has ended. -/
  | ended
  deriving DecidableEq, Repr

/-- Where the goroutine that runs `Gather` stands. -/
inductive Main where
  /-- At the statement `if check.client == nil`. -/
  | guard
  /-- In the loop, with the addresses `urls` still to visit; with none left, at
  `waitGroup.Wait()`. -/
  | loop (urls : List String)
  /-- It has returned `err` (`none` for nil). -/
  | returned (err : Option String)
  deriving DecidableEq, Repr

/-- The state of one call of `Gather`: the goroutine that runs it, the goroutines it has
started, in the order of their start, the counter of `waitGroup`, the addresses on which
`gatherURL` has been called, in the order of the calls, and the accumulator. -/
structure Run where
  main : Main
  goroutines : List Goroutine
  waitGroup : Nat
  invoked : List URL
  acc : Accumulator
  deriving DecidableEq, Repr

/-- The state in which `Gather` is called. -/
def initRun (acc : Accumulator) : Run :=
  { main := Main.guard, goroutines := [], waitGroup := 0, invoked := [], acc := acc }

/-- One step of method `Gather` itself; `none` when it has returned or is blocked in
`waitGroup.Wait()`. In the body of the loop the result of `url.Parse` is bound to a new
variable `address`, which hides the configured string: in the error message `address` is the
nil result of the failed parse. The statement `go func(address *url.URL) {...}(address)`
starts a goroutine and does not wait for it. -/
def stepMain (w : World) (check : NginxUpstreamCheck) (s : Run) : Option Run :=
  match s.main with
  | Main.guard =>
    if check.hasClient = false then
      match w.tlsConfig with
      | Except.error err => some { s with main := Main.returned (some err) }
      | Except.ok _ => some { s with main := Main.loop check.Urls }
    else some { s with main := Main.loop check.Urls }
  | Main.loop (address :: rest) =>
    match w.parse address with
    | Except.error err =>
      some { s with
        main := Main.loop rest,
        acc := AddError s.acc
          (some ("Unable to parse address '" ++ formatURL none ++ "': " ++ err)) }
    | Except.ok address =>
      some { s with
        main := Main.loop rest,
        waitGroup := s.waitGroup + 1,
        goroutines := s.goroutines ++ [Goroutine.called address] }
  | Main.loop [] =>
    if s.waitGroup = 0 then some { s with main := Main.returned none } else none
  | Main.returned _ => none

/-- One step of the goroutine number `i`; `none` when there is no such goroutine or it has
ended. A call of `gatherURL` uses the accumulator only to add its records, one after the
other, and what it adds and returns does not depend on what the accumulator holds: the
records and the error are those of `gatherURL` on the empty accumulator, and each `AddFields`
is a step of its own, between which other goroutines may add theirs. -/
def stepGoroutine (w : World) (s : Run) (i : Nat) : Option Run :=
  match s.goroutines[i]? with
  | none => none
  | some (Goroutine.called address) =>
    let r := gatherURL w address emptyAccumulator
    some { s with
      goroutines := s.goroutines.set i (Goroutine.adding r.2.metrics r.1),
      invoked := s.invoked ++ [address] }
  | some (Goroutine.adding (m :: pending) err) =>
    some { s with
      goroutines := s.goroutines.set i (Goroutine.adding pending err),
      acc := AddFields s.acc m.name m.fields m.tags }
  | some (Goroutine.adding [] err) =>
    some { s with
      goroutines := s.goroutines.set i Goroutine.reported,
      acc := AddError s.acc err }
  | some Goroutine.reported =>
    some { s with
      goroutines := s.goroutines.set i Goroutine.ended,
      waitGroup := s.waitGroup - 1 }
  | some Goroutine.ended => none

/-- Which goroutine moves next. -/
inductive Event where
  | main
  | goroutine (i : Nat)
  deriving DecidableEq, Repr

/-- One step of the goroutine named by the event. -/
def step (w : World) (check : NginxUpstreamCheck) (s : Run) (e : Event) : Option Run :=
  match e with
  | Event.main => stepMain w check s
  | Event.goroutine i => stepGoroutine w s i

/-- The steps of a schedule, one after the other; `none` when one of them is not possible. -/
def runSchedule (w : World) (check : NginxUpstreamCheck) : List Event → Run → Option Run
  | [], s => some s
  | e :: es, s => (step w check s e).bind (runSchedule w check es)

/-- Method `Gather`, under a schedule of its goroutines: the state that the steps of the
schedule lead to from the call, `none` when the schedule asks for a step that is not
possible. The runs of `Gather` are the schedules with a result; `Gather` has returned in the
states whose `main` is `Main.returned`. -/
def Gather (w : World) (check : NginxUpstreamCheck) (acc : Accumulator)
    (schedule : List Event) : Option Run :=
  runSchedule w check schedule (initRun acc)

/-- The parsed form of a configured address, when it parses. -/
def parsed (w : World) (address : String) : Option URL :=
  match w.parse address with
  | Except.ok u => some u
  | Except.error _ => none

/-- The error that one configured address contributes to the accumulator, if any: the
message about the failed parse, or else the error returned by `gatherURL`. -/
def recordedError (w : World) (address : String) : Option String :=
  match w.parse address with
  | Except.error err => some ("Unable to parse address '<nil>': " ++ err)
  | Except.ok u => (gatherURL w u emptyAccumulator).1

/-- The records that one configured address contributes to the accumulator: those that
`gatherURL` adds for its parsed form, none when it does not parse. -/
def gatheredRecords (w : World) (address : String) : List Burrow.Metric :=
  match w.parse address with
  | Except.error _ => []
  | Except.ok u => (gatherURL w u emptyAccumulator).2.metrics

/-- The number of steps that a goroutine has still to take. -/
def Goroutine.weight (w : World) : Goroutine → Nat
  | Goroutine.called address => (gatherURL w address emptyAccumulator).2.metrics.length + 3
  | Goroutine.adding pending _ => pending.length + 2
  | Goroutine.reported => 1
  | Goroutine.ended => 0

/-- The number of steps that the visit of the loop to `address` leads to. -/
def visitWeight (w : World) (address : String) : Nat :=
  match w.parse address with
  | Except.error _ => 1
  | Except.ok u => 1 + Goroutine.weight w (Goroutine.called u)

/-- A bound on the number of steps that the goroutine of `Gather` has still to take or to
start. -/
def Main.weight (w : World) (check : NginxUpstreamCheck) : Main → Nat
  | Main.guard => 2 + (check.Urls.map (visitWeight w)).sum
  | Main.loop urls => 1 + (urls.map (visitWeight w)).sum
  | Main.returned _ => 0

/-- A bound on the number of steps still possible. -/
def measure (w : World) (check : NginxUpstreamCheck) (s : Run) : Nat :=
  Main.weight w check s.main + (s.goroutines.map (Goroutine.weight w)).sum

/-- The address on which a goroutine has still to call `gatherURL`. -/
def Goroutine.toInvoke : Goroutine → List URL
  | Goroutine.called address => [address]
  | _ => []

/-- The records that a goroutine has still to add. -/
def Goroutine.toAdd (w : World) : Goroutine → List Burrow.Metric
  | Goroutine.called address => (gatherURL w address emptyAccumulator).2.metrics
  | Goroutine.adding pending _ => pending
  | _ => []

/-- The error that a goroutine has still to record. -/
def Goroutine.toReport (w : World) : Goroutine → List String
  | Goroutine.called address => (gatherURL w address emptyAccumulator).1.toList
  | Goroutine.adding _ err => err.toList
  | _ => []

/-- What a goroutine counts for in `waitGroup`: one until its `waitGroup.Done()`. -/
def Goroutine.live : Goroutine → Nat
  | Goroutine.ended => 0
  | _ => 1

/-- The configured addresses that the loop has still to visit. -/
def Main.urls (check : NginxUpstreamCheck) : Main → List String
  | Main.guard => check.Urls
  | Main.loop urls => urls
  | Main.returned _ => []

/-- The bookkeeping that every step keeps true in a call of `Gather` that gets past the
creation of the client: the counter of `waitGroup` is the number of goroutines that have not
ended, and every configured address is still to be visited or has led to exactly what it
contributes: a call of `gatherURL` made or still to make, its records added or still to add,
its error recorded or still to record. `Gather` returns nil, and only when the counter is
zero. -/
structure RunInv (w : World) (check : NginxUpstreamCheck) (acc0 : Accumulator) (s : Run) :
    Prop where
  waitGroup : s.waitGroup = (s.goroutines.map Goroutine.live).sum
  invoked :
    (s.invoked ++ s.goroutines.flatMap Goroutine.toInvoke
        ++ (s.main.urls check).filterMap (parsed w)).Perm
      (check.Urls.filterMap (parsed w))
  errors : ∃ new, s.acc.errors = acc0.errors ++ new ∧
    (new ++ s.goroutines.flatMap (Goroutine.toReport w)
        ++ (s.main.urls check).filterMap (recordedError w)).Perm
      (check.Urls.filterMap (recordedError w))
  metrics : ∃ new, s.acc.metrics = acc0.metrics ++ new ∧
    (new ++ s.goroutines.flatMap (Goroutine.toAdd w)
        ++ (s.main.urls check).flatMap (gatheredRecords w)).Perm
      (check.Urls.flatMap (gatheredRecords w))
  returned : ∀ err, s.main = Main.returned err → err = none ∧ s.waitGroup = 0

/-- Whether the text `t` occurs in `s`. -/
def containsText (s t : String) : Bool := decide (t.toList <:+: s.toList)

/-- A server entry of a status page. -/
def exampleServer : NginxUpstreamCheckServer :=
  { Index := 0, Upstream := "upstream-1", Name := "127.0.0.1:8081", Status := "up",
    Rise := 1000, Fall := 0, Type' := "http", Port := 0 }

/-- A world in which `http://localhost/status?format=json` answers with one server, the
address `:foo#bar` does not parse (Go reports `parse :foo: missing protocol scheme`, naming
the part before the fragment), and TLS set-up succeeds. -/
def exampleWorld : World :=
  { parse := fun a =>
      if a = ":foo#bar" then Except.error "parse :foo: missing protocol scheme"
      else Except.ok ⟨a⟩
    tlsConfig := Except.ok ()
    get := fun a =>
      if a = "http://localhost/status?format=json" then
        Except.ok ⟨200, "200 OK", "application/json; charset=utf-8", "body"⟩
      else Except.error "connection refused"
    decode := fun b =>
      if b = "body" then some ⟨⟨1, 1, [exampleServer]⟩⟩ else none }

/-- Three configured addresses: one that refuses the connection, one that does not parse and
the status page. -/
def exampleCheck : NginxUpstreamCheck :=
  { Urls := ["http://x", ":foo#bar", "http://localhost/status?format=json"],
    hasClient := false }

/-- A run of `Gather` on `exampleCheck`: the loop visits the three addresses and starts two
goroutines before either of them moves; the goroutine of the status page calls `gatherURL`
first and adds its record, then the goroutine of `http://x` calls it and reports its error;
both end, and `Gather` returns. -/
def exampleSchedule : List Event :=
  [Event.main, Event.main, Event.main, Event.main,
   Event.goroutine 1, Event.goroutine 1, Event.goroutine 0, Event.goroutine 0,
   Event.goroutine 1, Event.goroutine 0, Event.goroutine 1, Event.main]

/-- The world `exampleWorld` with a TLS set-up that fails. -/
def brokenTLSWorld : World :=
  { exampleWorld with tlsConfig := Except.error "could not load keypair" }

end NginxUpstreamCheck

namespace Burrow

/-- A group response whose `request` part names another cluster and group than its
`status` part. -/
def mismatchResponse : apiResponse :=
  { Request := { Cluster := "clusterA", Group := "groupA" },
    Groups := [],
    Status := { Cluster := "clusterB", Group := "groupB", Status := "OK",
                Maxlag := none, Partitions := [exampleLag] } }

/-- The client `exampleClient` without a worker. -/
def noWorkerClient : apiClient :=
  { exampleClient with workerCount := 0 }

/-- A response that lists two consumer groups. -/
def groupsResponse : apiResponse :=
  { exampleResponse with Groups := ["group1", "group2"] }

/-- A response that lists a consumer group twice. -/
def repeatedGroupsResponse : apiResponse :=
  { exampleResponse with Groups := ["group1", "group1"] }

end Burrow

namespace Filebeat

/-! ## filebeat.go -/

/-- Go `time.Second`, a `time.Duration` counted in nanoseconds. -/
def Second : Int := 1000000000

set_option linter.dupNamespace false in
/-- The struct `Filebeat`, with the members that `NewFilebeat` sets; `Timeout` is the
`Duration` of its `internal.Duration`. -/
structure Filebeat where
  URL : String
  CollectBeatStats : Bool
  CollectLibbeatStats : Bool
  CollectSystemStats : Bool
  CollectFilebeatStats : Bool
  Timeout : Int
  deriving DecidableEq, Repr

/-- Function `NewFilebeat`. -/
def NewFilebeat : Filebeat :=
  { URL := "http://127.0.0.1:5066",
    CollectBeatStats := true,
    CollectLibbeatStats := true,
    CollectSystemStats := true,
    CollectFilebeatStats := true,
    Timeout := Second * 5 }

/-- The settings that the constant `sampleConfig` shows: its lines that are not comments,
as key and value. -/
def sampleConfigSettings : List (String × String) :=
  [("url", "\"http://127.0.0.1:5066\""),
   ("collect_beat_stats", "true"),
   ("collect_libbeat_stats", "true"),
   ("collect_system_stats", "false"),
   ("collect_filebeat_stats", "true"),
   ("timeout", "\"5s\"")]

end Filebeat

namespace Logstash

/-! ## logstash.go -/

/-- A `float64` decoded from JSON; such values are only copied into records, never computed
with, and are represented by the number they denote. -/
abbrev Float64 := Rat

/-- A value decoded by `encoding/json` into an `interface{}`: nil, a bool, a float64, a
string, a slice of such values or a map from strings to such values. A map is the list of
its entries, in the order in which a `range` visits them. -/
inductive Json where
  | null
  | bool (b : Bool)
  | num (x : Float64)
  | str (s : String)
  | arr (items : List Json)
  | obj (members : List (String × Json))

/-- The key of a part `k` of the value under the key `fieldname`: the two joined by `_`. -/
def joinKey (fieldname k : String) : String :=
  if fieldname = "" then k else fieldname ++ "_" ++ k

mutual
/-- The flattening of one value under the key `fieldname`, added to `fields`: a number
becomes a field, strings, booleans and nil are ignored, and the parts of a slice or a map
are flattened under keys extended by their index or name. -/
def flattenValue (fieldname : String) :
    Json → List (String × Float64) → Except String (List (String × Float64))
  | Json.null, fields => Except.ok fields
  | Json.bool _, fields => Except.ok fields
  | Json.str _, fields => Except.ok fields
  | Json.num x, fields => Except.ok (Burrow.setKey fields fieldname x)
  | Json.arr items, fields => flattenItems fieldname 0 items fields
  | Json.obj members, fields => flattenMembers fieldname members fields
/-- The flattening of the elements of a slice, from index `i` on. -/
def flattenItems (fieldname : String) (i : Nat) :
    List Json → List (String × Float64) → Except String (List (String × Float64))
  | [], fields => Except.ok fields
  | v :: rest, fields =>
    match flattenValue (joinKey fieldname (String.mk (Burrow.formatNat i))) v fields with
    | Except.error e => Except.error e
    | Except.ok fields => flattenItems fieldname (i + 1) rest fields
/-- The flattening of the entries of a map. -/
def flattenMembers (fieldname : String) :
    List (String × Json) → List (String × Float64) → Except String (List (String × Float64))
  | [], fields => Except.ok fields
  | (k, v) :: rest, fields =>
    match flattenValue (joinKey fieldname k) v fields with
    | Except.error e => Except.error e
    | Except.ok fields => flattenMembers fieldname rest fields
end

/-- Modelled from the spec: `JSONFlattener.FlattenJSON` lives in plugins/parsers/json, which
is not among the sources. It is the "JSON to flat key/value transformation" of spec 1, which
the callers describe as "parse Json, ignoring strings and booleans": the numbers of a decoded
value become fields under keys joined by `_`; its error is for a value that is not of a JSON
type, which a decoded value never is. The result is the error or the field map. -/
def FlattenJSON (fieldname : String) (v : Json) : Except String (List (String × Float64)) :=
  flattenValue fieldname v []

/-- One record handed to `accumulator.AddFields`. -/
structure Metric where
  name : String
  fields : List (String × Float64)
  tags : List (String × String)
  deriving DecidableEq, Repr

/-- The struct `PluginEvents`. -/
structure PluginEvents where
  QueuePushDurationInMillis : Float64
  DurationInMillis : Float64
  In : Float64
  Out : Float64
  deriving DecidableEq, Repr

/-- The struct `Plugin`. -/
structure Plugin where
  ID : String
  Events : PluginEvents
  Name : String
  deriving DecidableEq, Repr

/-- The struct `PipelinePlugins`. -/
structure PipelinePlugins where
  Inputs : List Plugin
  Filters : List Plugin
  Outputs : List Plugin
  deriving DecidableEq, Repr

/-- The struct `Pipeline`, with the members that the gathering functions read. -/
structure Pipeline where
  Events : Json
  Plugins : PipelinePlugins

/-- The struct `PipelinesStats`; the map `Pipelines` is the list of its entries, in the
order in which the `range` of `gatherPipelinesStats` visits them. -/
structure PipelinesStats where
  ID : String
  Pipelines : List (String × Pipeline)
  Name : String
  Host : String
  Version : String

set_option linter.dupNamespace false in
/-- The struct `Logstash`, with its configuration members. -/
structure Logstash where
  URL : String
  MultiPipeline : Bool
  CollectProcessStats : Bool
  CollectJVMStats : Bool
  CollectPipelinesStats : Bool
  CollectPluginsStats : Bool
  deriving DecidableEq, Repr

/-- The fields of the record of an input plugin. -/
def inputFields (plugin : Plugin) : List (String × Float64) :=
  Burrow.mapLit [("queue_push_duration_in_millis", plugin.Events.QueuePushDurationInMillis),
                 ("duration_in_millis", plugin.Events.DurationInMillis),
                 ("in", plugin.Events.In),
                 ("out", plugin.Events.Out)]

/-- The fields of the record of a filter plugin or of an output plugin. -/
def filterFields (plugin : Plugin) : List (String × Float64) :=
  Burrow.mapLit [("duration_in_millis", plugin.Events.DurationInMillis),
                 ("in", plugin.Events.In),
                 ("out", plugin.Events.Out)]

/-- The tags of a plugin record in `gatherPipelinesStats`. -/
def pluginTags (stats : PipelinesStats) (pipelineName : String) (plugin : Plugin)
    (pluginType : String) : List (String × String) :=
  Burrow.mapLit [("node_id", stats.ID),
                 ("node_name", stats.Name),
                 ("node_host", stats.Host),
                 ("node_version", stats.Version),
                 ("pipeline", pipelineName),
                 ("plugin_name", plugin.Name),
                 ("plugin_id", plugin.ID),
                 ("plugin_type", pluginType)]

/-- The three plugin loops of `gatherPipelinesStats` for one pipeline. -/
def addPlugins (stats : PipelinesStats) (pipelineName : String) (pipeline : Pipeline)
    (acc : List Metric) : List Metric :=
  let acc := pipeline.Plugins.Inputs.foldl
    (fun acc plugin =>
      acc ++ [⟨"logstash_plugins", inputFields plugin,
               pluginTags stats pipelineName plugin "input"⟩]) acc
  let acc := pipeline.Plugins.Filters.foldl
    (fun acc plugin =>
      acc ++ [⟨"logstash_plugins", filterFields plugin,
               pluginTags stats pipelineName plugin "filter"⟩]) acc
  pipeline.Plugins.Outputs.foldl
    (fun acc plugin =>
      acc ++ [⟨"logstash_plugins", filterFields plugin,
               pluginTags stats pipelineName plugin "output"⟩]) acc

/-- The loop of `gatherPipelinesStats` over the pipelines: the returned error (`none` for
nil) and the accumulator. The inner loop over `stats` has the single entry `events`. -/
def pipelinesLoop (logstash : Logstash) (stats : PipelinesStats) :
    List (String × Pipeline) → List Metric → Option String × List Metric
  | [], acc => (none, acc)
  | (pipelineName, pipeline) :: rest, acc =>
    let tags := Burrow.mapLit [("node_id", stats.ID),
                               ("node_name", stats.Name),
                               ("node_host", stats.Host),
                               ("node_version", stats.Version),
                               ("pipeline", pipelineName)]
    match FlattenJSON "" pipeline.Events with
    | Except.error err => (some err, acc)
    | Except.ok fields =>
      let acc := acc ++ [⟨"logstash_" ++ "events", fields, tags⟩]
      let acc := if logstash.CollectPluginsStats = true then
          addPlugins stats pipelineName pipeline acc
        else acc
      pipelinesLoop logstash stats rest acc

/-- Method `gatherJsonData`, the only function of the plugin that sends a request. It sends
one request to `url` in every case; `fetch url` is what the request and the decoding of the
answer into the target give: the decoded response, or the error of the request or of the
decoding. The result is this outcome and the addresses requested so far, oldest first. -/
def gatherJsonData {α : Type} (fetch : String → Except String α) (url : String)
    (requests : List String) : Except String α × List String :=
  (fetch url, requests ++ [url])

/-- Method `gatherPipelinesStats`; `fetch` is what a request and the decoding into
`PipelinesStats` give. The result is the returned error (`none` for nil), the addresses
requested so far and the accumulator. -/
def gatherPipelinesStats (fetch : String → Except String PipelinesStats)
    (logstash : Logstash) (url : String) (requests : List String) (acc : List Metric) :
    Option String × List String × List Metric :=
  match gatherJsonData fetch url requests with
  | (Except.error err, requests) => (some err, requests, acc)
  | (Except.ok stats, requests) =>
    let r := pipelinesLoop logstash stats stats.Pipelines acc
    (r.1, requests, r.2)

/-- The plugin records of one pipeline, in the order in which they are added. -/
def pluginRecords (stats : PipelinesStats) (entry : String × Pipeline) : List Metric :=
  entry.2.Plugins.Inputs.map
      (fun plugin => ⟨"logstash_plugins", inputFields plugin,
        pluginTags stats entry.1 plugin "input"⟩)
    ++ entry.2.Plugins.Filters.map
      (fun plugin => ⟨"logstash_plugins", filterFields plugin,
        pluginTags stats entry.1 plugin "filter"⟩)
    ++ entry.2.Plugins.Outputs.map
      (fun plugin => ⟨"logstash_plugins", filterFields plugin,
        pluginTags stats entry.1 plugin "output"⟩)

/-- A plugin. -/
def examplePlugin (id : String) : Plugin :=
  { ID := id, Name := "beats", Events := ⟨1, 2, 3, 4⟩ }

/-- A response with two pipelines. -/
def exampleStats : PipelinesStats :=
  { ID := "node-1", Name := "node", Host := "host", Version := "6.4.2",
    Pipelines :=
      [("main", { Events := Json.obj [("in", Json.num 10), ("out", Json.num 9)],
                  Plugins := { Inputs := [examplePlugin "i1"],
                               Filters := [examplePlugin "f1", examplePlugin "f2"],
                               Outputs := [examplePlugin "o1"] } }),
       ("second", { Events := Json.obj [("in", Json.num 1)],
                    Plugins := { Inputs := [examplePlugin "i2"], Filters := [],
                                 Outputs := [] } })] }

/-- A configuration like that of `NewLogstash`. -/
def exampleLogstash : Logstash :=
  { URL := "http://127.0.0.1:9600", MultiPipeline := true, CollectProcessStats := true,
    CollectJVMStats := true, CollectPipelinesStats := true, CollectPluginsStats := true }

end Logstash

namespace Logstash

/-! ## logstash.go: `Gather` and its stages -/

/-- The constant `jvmStats`. -/
def jvmStats : String := "/_node/stats/jvm"

/-- The constant `processStats`. -/
def processStats : String := "/_node/stats/process"

/-- The constant `pipelineStats`. -/
def pipelineStats : String := "/_node/stats/pipeline"

/-- The constant `pipelinesStats`. -/
def pipelinesStats : String := "/_node/stats/pipelines"

/-- The struct `JVMStats`. -/
structure JVMStats where
  ID : String
  JVM : Json
  Name : String
  Host : String
  Version : String

/-- The struct `ProcessStats`. -/
structure ProcessStats where
  ID : String
  Process : Json
  Name : String
  Host : String
  Version : String

/-- The struct `PipelineStats`. -/
structure PipelineStats where
  ID : String
  Pipeline : Pipeline
  Name : String
  Host : String
  Version : String

/-- A `*url.URL` that `url.Parse` returned; `text` is what its method `String` renders. -/
structure URL where
  text : String
  deriving DecidableEq, Repr

/-- Method `String` of a `*url.URL`. -/
def URL.String (u : URL) : String := u.text

/-- What lies outside the plugin: the error of `ClientConfig.TLSConfig` (`none` for nil),
`url.Parse`, and for each of the four response types what a request to an address and the
decoding of the answer give: the decoded response, or the error of the request or of the
decoding. -/
structure World where
  tlsConfig : Option String
  parse : String → Except String URL
  jvm : String → Except String JVMStats
  process : String → Except String ProcessStats
  pipeline : String → Except String PipelineStats
  pipelines : String → Except String PipelinesStats

/-- The error returned by method `createHTTPClient` (`none` for nil): that of the TLS
configuration, the only step of it that can fail. -/
def createHTTPClient (world : World) : Option String :=
  match world.tlsConfig with
  | some err => some err
  | none => none

/-- Method `gatherJVMStats`; `fetch` is what a request and the decoding into `JVMStats` give.
The result is the returned error (`none` for nil), the addresses requested so far and the
accumulator. The loop over `stats` has the single entry `jvm`. -/
def gatherJVMStats (fetch : String → Except String JVMStats) (url : String)
    (requests : List String) (acc : List Metric) :
    Option String × List String × List Metric :=
  match gatherJsonData fetch url requests with
  | (Except.error err, requests) => (some err, requests, acc)
  | (Except.ok stats, requests) =>
    let tags := Burrow.mapLit [("node_id", stats.ID),
                               ("node_name", stats.Name),
                               ("node_host", stats.Host),
                               ("node_version", stats.Version)]
    match FlattenJSON "" stats.JVM with
    | Except.error err => (some err, requests, acc)
    | Except.ok fields => (none, requests, acc ++ [⟨"logstash_" ++ "jvm", fields, tags⟩])

/-- Method `gatherProcessStats`; `fetch` is what a request and the decoding into
`ProcessStats` give. The loop over `stats` has the single entry `process`. -/
def gatherProcessStats (fetch : String → Except String ProcessStats) (url : String)
    (requests : List String) (acc : List Metric) :
    Option String × List String × List Metric :=
  match gatherJsonData fetch url requests with
  | (Except.error err, requests) => (some err, requests, acc)
  | (Except.ok stats, requests) =>
    let tags := Burrow.mapLit [("node_id", stats.ID),
                               ("node_name", stats.Name),
                               ("node_host", stats.Host),
                               ("node_version", stats.Version)]
    match FlattenJSON "" stats.Process with
    | Except.error err => (some err, requests, acc)
    | Except.ok fields => (none, requests, acc ++ [⟨"logstash_" ++ "process", fields, tags⟩])

/-- The tags of a plugin record in `gatherPipelineStats`. -/
def pipelinePluginTags (stats : PipelineStats) (plugin : Plugin) (pluginType : String) :
    List (String × String) :=
  Burrow.mapLit [("node_id", stats.ID),
                 ("node_name", stats.Name),
                 ("node_host", stats.Host),
                 ("node_version", stats.Version),
                 ("plugin_name", plugin.Name),
                 ("plugin_id", plugin.ID),
                 ("plugin_type", pluginType)]

/-- The three plugin loops of `gatherPipelineStats`. -/
def addPipelinePlugins (stats : PipelineStats) (acc : List Metric) : List Metric :=
  let acc := stats.Pipeline.Plugins.Inputs.foldl
    (fun acc plugin =>
      acc ++ [⟨"logstash_plugins", inputFields plugin,
               pipelinePluginTags stats plugin "input"⟩]) acc
  let acc := stats.Pipeline.Plugins.Filters.foldl
    (fun acc plugin =>
      acc ++ [⟨"logstash_plugins", filterFields plugin,
               pipelinePluginTags stats plugin "filter"⟩]) acc
  stats.Pipeline.Plugins.Outputs.foldl
    (fun acc plugin =>
      acc ++ [⟨"logstash_plugins", filterFields plugin,
               pipelinePluginTags stats plugin "output"⟩]) acc

/-- Method `gatherPipelineStats`; `fetch` is what a request and the decoding into
`PipelineStats` give. The loop over `stats` has the single entry `events`. -/
def gatherPipelineStats (fetch : String → Except String PipelineStats)
    (logstash : Logstash) (url : String) (requests : List String) (acc : List Metric) :
    Option String × List String × List Metric :=
  match gatherJsonData fetch url requests with
  | (Except.error err, requests) => (some err, requests, acc)
  | (Except.ok stats, requests) =>
    let tags := Burrow.mapLit [("node_id", stats.ID),
                               ("node_name", stats.Name),
                               ("node_host", stats.Host),
                               ("node_version", stats.Version)]
    match FlattenJSON "" stats.Pipeline.Events with
    | Except.error err => (some err, requests, acc)
    | Except.ok fields =>
      let acc := acc ++ [⟨"logstash_" ++ "events", fields, tags⟩]
      let acc := if logstash.CollectPluginsStats = true then addPipelinePlugins stats acc
        else acc
      (none, requests, acc)

/-- What a call of `Gather` did: the error it returned (`none` for nil), the addresses that
`gatherJsonData` requested, oldest first, and the accumulator. -/
structure GatherResult where
  err : Option String
  fetched : List String
  acc : List Metric
  deriving DecidableEq, Repr

/-- Method `Gather`; `client` tells whether the member `client` is set when it is called.
Each of the three `if` statements yields the error that it makes `Gather` return (`none`
when control goes on to the next statement), the addresses requested so far and the
accumulator. -/
def Gather (world : World) (logstash : Logstash) (client : Bool) (acc : List Metric) :
    GatherResult :=
  match (if client = false then createHTTPClient world else none) with
  | some err => ⟨some err, [], acc⟩
  | none =>
    match (if logstash.CollectJVMStats = true then
        match world.parse (logstash.URL ++ jvmStats) with
        | Except.error err => (⟨some err, [], acc⟩ : GatherResult)
        | Except.ok jvmUrl =>
          let r := gatherJVMStats world.jvm jvmUrl.String [] acc
          ⟨r.1, r.2.1, r.2.2⟩
      else ⟨none, [], acc⟩) with
    | ⟨some err, fetched, acc⟩ => ⟨some err, fetched, acc⟩
    | ⟨none, fetched, acc⟩ =>
      match (if logstash.CollectProcessStats = true then
          match world.parse (logstash.URL ++ processStats) with
          | Except.error err => (⟨some err, fetched, acc⟩ : GatherResult)
          | Except.ok processUrl =>
            let r := gatherProcessStats world.process processUrl.String fetched acc
            ⟨r.1, r.2.1, r.2.2⟩
        else ⟨none, fetched, acc⟩) with
      | ⟨some err, fetched, acc⟩ => ⟨some err, fetched, acc⟩
      | ⟨none, fetched, acc⟩ =>
        if logstash.CollectPipelinesStats = true then
          if logstash.MultiPipeline = true then
            match world.parse (logstash.URL ++ pipelinesStats) with
            | Except.error err => ⟨some err, fetched, acc⟩
            | Except.ok pipelinesUrl =>
              let r := gatherPipelinesStats world.pipelines logstash pipelinesUrl.String
                fetched acc
              ⟨r.1, r.2.1, r.2.2⟩
          else
            match world.parse (logstash.URL ++ pipelineStats) with
            | Except.error err => ⟨some err, fetched, acc⟩
            | Except.ok pipelineUrl =>
              let r := gatherPipelineStats world.pipeline logstash pipelineUrl.String
                fetched acc
              ⟨r.1, r.2.1, r.2.2⟩
        else ⟨none, fetched, acc⟩

/-! ### The description of a stage

What follows is not taken from `Gather`: it describes, stage by stage, what the server is
asked and what its answer leads to, for `Gather` to be compared with. -/

/-- A stage of `Gather`: one of its three `if` statements, in the order of the text. -/
inductive Stage where
  | jvm
  | process
  | pipelines
  deriving DecidableEq, Repr

/-- Whether the configuration enables the stage. -/
def Stage.enabled (logstash : Logstash) : Stage → Bool
  | Stage.jvm => logstash.CollectJVMStats
  | Stage.process => logstash.CollectProcessStats
  | Stage.pipelines => logstash.CollectPipelinesStats

/-- The path of the endpoint that the stage asks. -/
def Stage.path (logstash : Logstash) : Stage → String
  | Stage.jvm => "/_node/stats/jvm"
  | Stage.process => "/_node/stats/process"
  | Stage.pipelines =>
    if logstash.MultiPipeline = true then "/_node/stats/pipelines" else "/_node/stats/pipeline"

/-- The fields that a decoded value gives. -/
def flattened (v : Json) : List (String × Float64) :=
  match FlattenJSON "" v with
  | Except.ok fields => fields
  | Except.error _ => []

/-- The tags that name the node. -/
def nodeTags (id name host version : String) : List (String × String) :=
  [("node_id", id), ("node_name", name), ("node_host", host), ("node_version", version)]

/-- The record of a plugin of the single pipeline. -/
def pipelinePluginRecord (stats : PipelineStats) (pluginType : String)
    (fields : Plugin → List (String × Float64)) (plugin : Plugin) : Metric :=
  ⟨"logstash_plugins", fields plugin,
   nodeTags stats.ID stats.Name stats.Host stats.Version
     ++ [("plugin_name", plugin.Name), ("plugin_id", plugin.ID), ("plugin_type", pluginType)]⟩

/-- The records that the answer to the request of a stage leads to: one record of the
flattened statistics for the JVM stage and for the process stage; for the pipelines stage,
for the single pipeline or for each of the pipelines, the record of its events, followed when
`collect_plugins_stats` is true by the records of its plugins. -/
def Stage.records (world : World) (logstash : Logstash) :
    Stage → String → Except String (List Metric)
  | Stage.jvm, url =>
    match world.jvm url with
    | Except.error err => Except.error err
    | Except.ok stats =>
      Except.ok [⟨"logstash_jvm", flattened stats.JVM,
                  nodeTags stats.ID stats.Name stats.Host stats.Version⟩]
  | Stage.process, url =>
    match world.process url with
    | Except.error err => Except.error err
    | Except.ok stats =>
      Except.ok [⟨"logstash_process", flattened stats.Process,
                  nodeTags stats.ID stats.Name stats.Host stats.Version⟩]
  | Stage.pipelines, url =>
    if logstash.MultiPipeline = true then
      match world.pipelines url with
      | Except.error err => Except.error err
      | Except.ok stats =>
        Except.ok (stats.Pipelines.flatMap (fun entry =>
          ⟨"logstash_events", flattened entry.2.Events,
           nodeTags stats.ID stats.Name stats.Host stats.Version ++ [("pipeline", entry.1)]⟩
            :: (if logstash.CollectPluginsStats = true then pluginRecords stats entry else [])))
    else
      match world.pipeline url with
      | Except.error err => Except.error err
      | Except.ok stats =>
        Except.ok (⟨"logstash_events", flattened stats.Pipeline.Events,
                    nodeTags stats.ID stats.Name stats.Host stats.Version⟩
          :: (if logstash.CollectPluginsStats = true then
                stats.Pipeline.Plugins.Inputs.map (pipelinePluginRecord stats "input" inputFields)
                  ++ stats.Pipeline.Plugins.Filters.map
                      (pipelinePluginRecord stats "filter" filterFields)
                  ++ stats.Pipeline.Plugins.Outputs.map
                      (pipelinePluginRecord stats "output" filterFields)
              else []))

/-- What a stage does by itself: the error it fails with (`none` when it succeeds), the
addresses it requests and the records it emits. -/
structure Outcome where
  err : Option String
  fetched : List String
  records : List Metric
  deriving DecidableEq, Repr

/-- The outcome of a stage: a disabled stage does nothing and succeeds; an enabled stage
parses the configured URL extended by the path of its endpoint and fails with the error of
the parse, without a request; or else it requests the parsed address, once, and fails with
the error of the request without a record, or succeeds with the records of the answer. -/
def Stage.outcome (world : World) (logstash : Logstash) (stage : Stage) : Outcome :=
  if stage.enabled logstash = true then
    match world.parse (logstash.URL ++ stage.path logstash) with
    | Except.error err => ⟨some err, [], []⟩
    | Except.ok u =>
      match stage.records world logstash u.String with
      | Except.error err => ⟨some err, [u.String], []⟩
      | Except.ok records => ⟨none, [u.String], records⟩
  else ⟨none, [], []⟩

/-- A JVM response. -/
def exampleJVM : JVMStats :=
  { ID := "node-1", Name := "node", Host := "host", Version := "6.4.2",
    JVM := Json.obj [("threads", Json.obj [("count", Json.num 29)]),
                     ("uptime_in_millis", Json.num 1000)] }

/-- A process response. -/
def exampleProcess : ProcessStats :=
  { ID := "node-1", Name := "node", Host := "host", Version := "6.4.2",
    Process := Json.obj [("open_file_descriptors", Json.num 89)] }

/-- A single-pipeline response. -/
def examplePipeline : PipelineStats :=
  { ID := "node-1", Name := "node", Host := "host", Version := "6.4.2",
    Pipeline := { Events := Json.obj [("in", Json.num 10), ("out", Json.num 9)],
                  Plugins := { Inputs := [examplePlugin "i1"], Filters := [],
                               Outputs := [examplePlugin "o1"] } } }

/-- A server at `http://127.0.0.1:9600` that answers each of the four endpoints at its own
address and nothing elsewhere, behind a TLS configuration that is in order; every address
parses and is rendered as it was written. -/
def exampleWorld : World :=
  { tlsConfig := none,
    parse := fun s => Except.ok ⟨s⟩,
    jvm := fun url =>
      if url = "http://127.0.0.1:9600/_node/stats/jvm" then Except.ok exampleJVM
      else Except.error "404 Not Found",
    process := fun url =>
      if url = "http://127.0.0.1:9600/_node/stats/process" then Except.ok exampleProcess
      else Except.error "404 Not Found",
    pipeline := fun url =>
      if url = "http://127.0.0.1:9600/_node/stats/pipeline" then Except.ok examplePipeline
      else Except.error "404 Not Found",
    pipelines := fun url =>
      if url = "http://127.0.0.1:9600/_node/stats/pipelines" then Except.ok exampleStats
      else Except.error "404 Not Found" }

/-- The same server with the process endpoint out of order. -/
def processDownWorld : World :=
  { exampleWorld with process := fun _ => Except.error "unexpected EOF" }

/-- The same server with the endpoint of the single pipeline out of order. -/
def pipelineDownWorld : World :=
  { exampleWorld with pipeline := fun _ => Except.error "connection reset" }

/-- The same server behind a TLS configuration that cannot be loaded. -/
def brokenTLSWorld : World :=
  { exampleWorld with tlsConfig := some "could not load keypair" }

/-- The configuration `exampleLogstash` for a server with a single pipeline. -/
def singlePipelineLogstash : Logstash :=
  { exampleLogstash with MultiPipeline := false }

/-- The configuration `exampleLogstash` without the process stage. -/
def noProcessLogstash : Logstash :=
  { exampleLogstash with CollectProcessStats := false }

end Logstash

/-! ## Properties -/

namespace Burrow

theorem whitelistSlice_go_eq_filter (allowed : List String) (candidates : List String) :
    whitelistSlice.go allowed candidates = candidates.filter (fun c => decide (c ∈ allowed)) := by
  induction candidates with
  | nil => rfl
  | cons c rest ih =>
    by_cases h : c ∈ allowed
    · simp [whitelistSlice.go, List.filter_cons, h, ih]
    · simp [whitelistSlice.go, List.filter_cons, h, ih]

theorem count_filter_mem (A C : List String) (x : String) :
    (C.filter (fun c => decide (c ∈ A))).count x = if x ∈ A then C.count x else 0 := by
  by_cases hx : x ∈ A
  · rw [if_pos hx]; exact List.count_filter (by simpa using hx)
  · rw [if_neg hx]
    apply List.count_eq_zero.mpr
    intro hmem
    have := (List.mem_filter.mp hmem).2
    exact hx (by simpa using this)

/-- C1: with an empty whitelist `whitelistSlice` returns the candidates unchanged, and with
a non-empty whitelist it returns the candidates that occur in the whitelist, in the
candidates' order: the result is the filter of the candidates by membership in the whitelist,
it is a subsequence of the candidates, every candidate keeps its number of occurrences when
it is allowed and has none otherwise, and an element is in the result exactly when it is a
candidate and allowed. -/
theorem whitelistSlice_spec (C A : List String) :
    whitelistSlice C [] = C ∧
    (A ≠ [] →
      whitelistSlice C A = C.filter (fun c => decide (c ∈ A)) ∧
      List.Sublist (whitelistSlice C A) C ∧
      (∀ x, x ∈ whitelistSlice C A ↔ x ∈ C ∧ x ∈ A) ∧
      (∀ x, (whitelistSlice C A).count x = if x ∈ A then C.count x else 0)) := by
  refine ⟨rfl, ?_⟩
  intro hA
  have hEq : whitelistSlice C A = C.filter (fun c => decide (c ∈ A)) := by
    cases A with
    | nil => exact absurd rfl hA
    | cons a as => simp only [whitelistSlice]; exact whitelistSlice_go_eq_filter _ _
  refine ⟨hEq, ?_, ?_, ?_⟩
  · rw [hEq]; exact List.filter_sublist C
  · intro x; rw [hEq]; simp [List.mem_filter]
  · intro x
    rw [hEq]; exact count_filter_mem A C x

end Burrow

namespace Burrow

theorem whitelistSlice_spec_witness :
    whitelistSlice ["a", "b", "c", "b"] ["b", "zz"]
      = ["a", "b", "c", "b"].filter (fun c => decide (c ∈ ["b", "zz"])) :=
  ((whitelistSlice_spec ["a", "b", "c", "b"] ["b", "zz"]).2 (by simp)).1

/-- C2: `remapStatus` maps `"OK"` to 1, `"WARN"` to 3 and `"ERR"` to 4, it maps every string
outside its vocabulary to the default code 0; it is total, the result being an integer and
not an error value. -/
theorem remapStatus_spec :
    remapStatus "OK" = 1 ∧ remapStatus "WARN" = 3 ∧ remapStatus "ERR" = 4 ∧
    (∀ s : String, s ∉ statusVocabulary → remapStatus s = 0) := by
  refine ⟨by decide, by decide, by decide, ?_⟩
  intro s hs
  simp only [statusVocabulary, List.mem_cons, List.mem_singleton, List.not_mem_nil,
    or_false, not_or] at hs
  obtain ⟨h1, h2, h3, h4⟩ := hs
  simp [remapStatus, h1, h2, h3, h4]

theorem remapStatus_spec_witness : remapStatus "ok" = 0 ∧ remapStatus "" = 0 :=
  ⟨remapStatus_spec.2.2.2 "ok" (by decide), remapStatus_spec.2.2.2 "" (by decide)⟩

end Burrow

namespace NginxUpstreamCheck

/-- C3: `statusCode` is total and exact-match: it is 1 exactly on `"up"`, 2 exactly on
`"down"`, and 0 on every other string, among them `"UP"` and `" up"`. -/
theorem statusCode_spec :
    (∀ s : String, (statusCode s = 1 ↔ s = "up") ∧ (statusCode s = 2 ↔ s = "down") ∧
      (s ≠ "up" → s ≠ "down" → statusCode s = 0)) ∧
    statusCode "UP" = 0 ∧ statusCode " up" = 0 ∧ statusCode "up " = 0 ∧
    statusCode "Down" = 0 := by
  refine ⟨?_, by decide, by decide, by decide, by decide⟩
  intro s
  unfold statusCode
  by_cases hu : s = "up"
  · subst hu; simp
  · by_cases hd : s = "down"
    · subst hd; simp
    · simp [hu, hd]

theorem statusCode_spec_witness : statusCode "DOWN" = 0 :=
  (statusCode_spec.1 "DOWN").2.2 (by decide) (by decide)

end NginxUpstreamCheck

namespace Burrow

/-! ### Decimal rendering -/

theorem valDigits_decDigits (fuel : Nat) : ∀ n, n < fuel → valDigits (decDigits fuel n) = n := by
  induction fuel with
  | zero => intro n h; omega
  | succ f ih =>
    intro n h
    unfold decDigits
    by_cases h10 : n < 10
    · simp [h10, valDigits]
    · simp only [h10, if_false, valDigits]
      rw [ih (n / 10) (by omega)]
      omega

theorem decDigits_lt_ten (fuel : Nat) : ∀ n, ∀ d ∈ decDigits fuel n, d < 10 := by
  induction fuel with
  | zero => intro n d h; simp [decDigits] at h
  | succ f ih =>
    intro n d h
    unfold decDigits at h
    by_cases h10 : n < 10
    · simp [h10] at h; omega
    · simp only [h10, if_false, List.mem_cons] at h
      rcases h with h | h
      · omega
      · exact ih _ _ h

theorem charDigit_digitChar (d : Nat) (h : d < 10) : charDigit (digitChar d) = d := by
  interval_cases d <;> rfl

theorem digitChar_ne_minus (d : Nat) (h : d < 10) : digitChar d ≠ '-' := by
  interval_cases d <;> decide

theorem minus_not_mem_formatNat (n : Nat) : '-' ∉ formatNat n := by
  intro h
  simp only [formatNat, List.mem_reverse, List.mem_map] at h
  obtain ⟨d, hd, hc⟩ := h
  exact digitChar_ne_minus d (decDigits_lt_ten _ _ d hd) hc

theorem formatNat_injective (a b : Nat) (h : formatNat a = formatNat b) : a = b := by
  have h1 : (decDigits (a + 1) a).map digitChar = (decDigits (b + 1) b).map digitChar :=
    List.reverse_injective h
  have h2 := congrArg (List.map charDigit) h1
  rw [List.map_map, List.map_map] at h2
  have ha : (decDigits (a + 1) a).map (charDigit ∘ digitChar) = decDigits (a + 1) a := by
    conv_rhs => rw [← List.map_id (decDigits (a + 1) a)]
    apply List.map_congr_left
    intro d hd
    exact charDigit_digitChar d (decDigits_lt_ten _ _ d hd)
  have hb : (decDigits (b + 1) b).map (charDigit ∘ digitChar) = decDigits (b + 1) b := by
    conv_rhs => rw [← List.map_id (decDigits (b + 1) b)]
    apply List.map_congr_left
    intro d hd
    exact charDigit_digitChar d (decDigits_lt_ten _ _ d hd)
  rw [ha, hb] at h2
  have := congrArg valDigits h2
  rwa [valDigits_decDigits _ _ (Nat.lt_succ_self a),
    valDigits_decDigits _ _ (Nat.lt_succ_self b)] at this

theorem FormatInt_injective (a b : Int) (h : FormatInt a = FormatInt b) : a = b := by
  have h := congrArg String.data h
  cases a with
  | ofNat m =>
    cases b with
    | ofNat n =>
      simp only [FormatInt] at h
      rw [formatNat_injective m n h]
    | negSucc n =>
      simp only [FormatInt] at h
      have hm : '-' ∈ formatNat m := by rw [h]; exact List.mem_cons_self _ _
      exact absurd hm (minus_not_mem_formatNat m)
  | negSucc m =>
    cases b with
    | ofNat n =>
      simp only [FormatInt] at h
      have hm : '-' ∈ formatNat n := by rw [← h]; exact List.mem_cons_self _ _
      exact absurd hm (minus_not_mem_formatNat n)
    | negSucc n =>
      simp only [FormatInt, List.cons.injEq, true_and] at h
      have := formatNat_injective _ _ h
      have hmn : m = n := by omega
      rw [hmn]

end Burrow

namespace Burrow

/-! ### Metric emission -/

/-- C4: with group summaries enabled, `publishGroupSummary` adds exactly one record, named
`burrow_group_summary`; its field `status` is the raw string `res.Status.Status`, its field
`status_code` is `remapStatus` of that string, and when `res.Status.Maxlag` is present its
fields `maxlag.status` and `maxlag.status_code` are the raw max-lag status and `remapStatus`
of it. -/
theorem publishGroupSummary_status (api : apiClient) (res : apiResponse) (uri : String)
    (acc : Accumulator) (hEnabled : api.disableGroupSummary = false) :
    ∃ m : Metric, publishGroupSummary api res uri acc = acc ++ [m] ∧
      m.name = "burrow_group_summary" ∧
      m.fields.lookup "status" = some (FieldValue.str res.Status.Status) ∧
      m.fields.lookup "status_code" = some (FieldValue.int (remapStatus res.Status.Status)) ∧
      (∀ maxlag, res.Status.Maxlag = some maxlag →
        m.fields.lookup "maxlag.status" = some (FieldValue.str maxlag.Status) ∧
        m.fields.lookup "maxlag.status_code"
          = some (FieldValue.int (remapStatus maxlag.Status))) := by
  cases hm : res.Status.Maxlag with
  | none =>
    exact ⟨_, by simp only [publishGroupSummary, hEnabled, hm, AddFields]; rfl, rfl,
      by simp [mapLit, setKey, List.lookup], by simp [mapLit, setKey, List.lookup],
      by intro maxlag h; cases h⟩
  | some ml =>
    exact ⟨_, by simp only [publishGroupSummary, hEnabled, hm, AddFields]; rfl, rfl,
      by simp [mapLit, setKey, List.lookup], by simp [mapLit, setKey, List.lookup],
      by
        intro maxlag h
        cases h
        exact ⟨by simp [mapLit, setKey, List.lookup], by simp [mapLit, setKey, List.lookup]⟩⟩

theorem publishGroupSummary_status_witness :
    ∃ m : Metric, publishGroupSummary exampleClient exampleResponse "uri" [] = [] ++ [m] ∧
      m.name = "burrow_group_summary" ∧
      m.fields.lookup "status" = some (FieldValue.str exampleResponse.Status.Status) ∧
      m.fields.lookup "status_code"
        = some (FieldValue.int (remapStatus exampleResponse.Status.Status)) ∧
      (∀ maxlag, exampleResponse.Status.Maxlag = some maxlag →
        m.fields.lookup "maxlag.status" = some (FieldValue.str maxlag.Status) ∧
        m.fields.lookup "maxlag.status_code"
          = some (FieldValue.int (remapStatus maxlag.Status))) :=
  publishGroupSummary_status exampleClient exampleResponse "uri" [] rfl

/-- C5: the field keys of the `burrow_group_summary` record are exactly `status` and
`status_code` when `res.Status.Maxlag` is absent, none of them beginning with `maxlag.`;
when `Maxlag` is present they are exactly these two and the ten keys of `maxlagKeys`, which
are pairwise distinct and all begin with `maxlag.`. -/
theorem publishGroupSummary_keys (api : apiClient) (res : apiResponse) (uri : String)
    (acc : Accumulator) (hEnabled : api.disableGroupSummary = false) :
    ∃ m : Metric, publishGroupSummary api res uri acc = acc ++ [m] ∧
      (keys m.fields).Nodup ∧
      (res.Status.Maxlag = none →
        (keys m.fields).Perm ["status", "status_code"] ∧
        ∀ k ∈ keys m.fields, hasPrefix "maxlag." k = false) ∧
      (res.Status.Maxlag ≠ none →
        (keys m.fields).Perm (["status", "status_code"] ++ maxlagKeys) ∧
        (keys m.fields).length = 12 ∧
        ((keys m.fields).filter (hasPrefix "maxlag.")).length = 10) ∧
      maxlagKeys.length = 10 ∧ maxlagKeys.Nodup ∧
      (∀ k ∈ maxlagKeys, hasPrefix "maxlag." k = true) := by
  cases hm : res.Status.Maxlag with
  | none =>
    refine ⟨_, (by simp only [publishGroupSummary, hEnabled, hm, AddFields]; rfl),
      (by simp [keys, mapLit, setKey]), ?_, (fun h => absurd rfl h),
      (by decide), (by decide), (by decide)⟩
    intro _
    constructor
    · simp [keys, mapLit, setKey]
    · simp [keys, mapLit, setKey]; decide
  | some ml =>
    refine ⟨_, (by simp only [publishGroupSummary, hEnabled, hm, AddFields]; rfl),
      (by simp [keys, mapLit, setKey]), (fun h => by cases h), ?_,
      (by decide), (by decide), (by decide)⟩
    intro _
    refine ⟨?_, ?_, ?_⟩
    · simp [keys, mapLit, setKey, maxlagKeys]
    · simp [keys, mapLit, setKey]
    · simp [keys, mapLit, setKey]; decide

theorem publishGroupSummary_keys_witness :
    ∃ m : Metric, publishGroupSummary exampleClient exampleResponse "uri" [] = [] ++ [m] ∧
      (keys m.fields).Nodup ∧
      (exampleResponse.Status.Maxlag = none →
        (keys m.fields).Perm ["status", "status_code"] ∧
        ∀ k ∈ keys m.fields, hasPrefix "maxlag." k = false) ∧
      (exampleResponse.Status.Maxlag ≠ none →
        (keys m.fields).Perm (["status", "status_code"] ++ maxlagKeys) ∧
        (keys m.fields).length = 12 ∧
        ((keys m.fields).filter (hasPrefix "maxlag.")).length = 10) ∧
      maxlagKeys.length = 10 ∧ maxlagKeys.Nodup ∧
      (∀ k ∈ maxlagKeys, hasPrefix "maxlag." k = true) :=
  publishGroupSummary_keys exampleClient exampleResponse "uri" [] rfl

theorem publishGroupTopicStep_append (res : apiResponse) (acc : Accumulator)
    (p : apiStatusResponseLag) :
    publishGroupTopicStep res acc p = acc ++ publishGroupTopicStep res [] p := by
  simp [publishGroupTopicStep, AddFields]

theorem foldl_publishGroupTopicStep (res : apiResponse) (ps : List apiStatusResponseLag) :
    ∀ acc : Accumulator, ps.foldl (publishGroupTopicStep res) acc
      = acc ++ ps.flatMap (fun p => publishGroupTopicStep res [] p) := by
  induction ps with
  | nil => intro acc; simp
  | cons p rest ih =>
    intro acc
    rw [List.foldl_cons, ih, publishGroupTopicStep_append, List.flatMap_cons, List.append_assoc]

theorem length_flatMap_publishGroupTopicStep (res : apiResponse)
    (ps : List apiStatusResponseLag) :
    (ps.flatMap (fun p => publishGroupTopicStep res [] p)).length = ps.length := by
  induction ps with
  | nil => rfl
  | cons p rest ih =>
    rw [List.flatMap_cons, List.length_append, ih]
    simp [publishGroupTopicStep, AddFields]
    omega

theorem name_of_mem_flatMap_publishGroupTopicStep (res : apiResponse)
    (ps : List apiStatusResponseLag) (m : Metric)
    (h : m ∈ ps.flatMap (fun p => publishGroupTopicStep res [] p)) :
    m.name = "burrow_group_topic" := by
  rw [List.mem_flatMap] at h
  obtain ⟨p, _, hm⟩ := h
  simp [publishGroupTopicStep, AddFields] at hm
  rw [hm]

/-- C6: the handler installed by `fetchGroup` (`publishGroupSummary`, then
`publishGroupTopic`) appends to the accumulator first the summary records and then the topic
records: the summary part has 0 records when `disableGroupSummary` is set and 1 otherwise, all
named `burrow_group_summary`; the topic part is empty when `disableGroupTopics` is set and
otherwise consists of the record of each partition, in the order of `res.Status.Partitions`;
in total `s + t * P` records are added. -/
theorem groupHandler_records (api : apiClient) (res : apiResponse) (uri : String)
    (acc : Accumulator) :
    ∃ summary topics : List Metric,
      groupHandler api res uri acc = acc ++ summary ++ topics ∧
      summary.length = (if api.disableGroupSummary = true then 0 else 1) ∧
      (∀ m ∈ summary, m.name = "burrow_group_summary") ∧
      topics = (if api.disableGroupTopics = true then []
                else res.Status.Partitions.flatMap (fun p => publishGroupTopicStep res [] p)) ∧
      (∀ p, (publishGroupTopicStep res [] p).length = 1) ∧
      (∀ m ∈ topics, m.name = "burrow_group_topic") ∧
      topics.length
        = (if api.disableGroupTopics = true then 0 else 1) * res.Status.Partitions.length ∧
      (groupHandler api res uri acc).length
        = acc.length + ((if api.disableGroupSummary = true then 0 else 1)
            + (if api.disableGroupTopics = true then 0 else 1) * res.Status.Partitions.length) := by
  have hSum : ∃ summary : List Metric, publishGroupSummary api res uri acc = acc ++ summary ∧
      summary.length = (if api.disableGroupSummary = true then 0 else 1) ∧
      (∀ m ∈ summary, m.name = "burrow_group_summary") := by
    cases hs : api.disableGroupSummary with
    | true => exact ⟨[], by simp [publishGroupSummary, hs], by simp, by simp⟩
    | false =>
      exact ⟨_, by simp only [publishGroupSummary, hs, AddFields]; rfl, by simp, by simp⟩
  obtain ⟨summary, hEq, hLen, hName⟩ := hSum
  have hTop : publishGroupTopic api res uri (acc ++ summary) = (acc ++ summary) ++
      (if api.disableGroupTopics = true then []
       else res.Status.Partitions.flatMap (fun p => publishGroupTopicStep res [] p)) := by
    cases ht : api.disableGroupTopics with
    | true => simp [publishGroupTopic, ht]
    | false => simp [publishGroupTopic, ht, foldl_publishGroupTopicStep]
  have hTopLen : (if api.disableGroupTopics = true then ([] : List Metric)
       else res.Status.Partitions.flatMap (fun p => publishGroupTopicStep res [] p)).length
        = (if api.disableGroupTopics = true then 0 else 1) * res.Status.Partitions.length := by
    cases ht : api.disableGroupTopics with
    | true => simp
    | false =>
      simp only [Bool.false_eq_true, if_false, Nat.one_mul]
      exact length_flatMap_publishGroupTopicStep res _
  refine ⟨summary, _, ?_, hLen, hName, rfl, ?_, ?_, hTopLen, ?_⟩
  · rw [groupHandler, hEq, hTop]
  · intro p; simp [publishGroupTopicStep, AddFields]
  · intro m hm
    cases ht : api.disableGroupTopics with
    | true => simp [ht] at hm
    | false =>
      simp only [ht, Bool.false_eq_true, if_false] at hm
      exact name_of_mem_flatMap_publishGroupTopicStep res _ m hm
  · rw [groupHandler, hEq, hTop, List.length_append, List.length_append, hTopLen, hLen]
    omega

/-- C7: with group topics enabled, `publishGroupTopic` adds one record per partition, in
order; the record of a partition `p` is named `burrow_group_topic`, has exactly the eight
fields of `topicKeys`, the six numeric ones copied from `p.Start` and `p.End`, `status` the raw
`p.Status` and `status_code` equal to `remapStatus p.Status`; its tag `topic` is `p.Topic` and
its tag `partition` is the decimal rendering of `p.Partition`, which is injective. -/
theorem publishGroupTopic_record (api : apiClient) (res : apiResponse) (uri : String)
    (acc : Accumulator) (hEnabled : api.disableGroupTopics = false) :
    ∃ record : apiStatusResponseLag → Metric,
      publishGroupTopic api res uri acc = acc ++ res.Status.Partitions.map record ∧
      (∀ p : apiStatusResponseLag,
        publishGroupTopicStep res [] p = [record p] ∧
        (record p).name = "burrow_group_topic" ∧
        (keys (record p).fields).Perm topicKeys ∧ (keys (record p).fields).Nodup ∧
        (keys (record p).fields).length = 8 ∧
        (record p).fields.lookup "start.offset" = some (FieldValue.int p.Start.Offset) ∧
        (record p).fields.lookup "start.lag" = some (FieldValue.int p.Start.Lag) ∧
        (record p).fields.lookup "start.timestamp" = some (FieldValue.int p.Start.Timestamp) ∧
        (record p).fields.lookup "end.offset" = some (FieldValue.int p.End.Offset) ∧
        (record p).fields.lookup "end.lag" = some (FieldValue.int p.End.Lag) ∧
        (record p).fields.lookup "end.timestamp" = some (FieldValue.int p.End.Timestamp) ∧
        (record p).fields.lookup "status" = some (FieldValue.str p.Status) ∧
        (record p).fields.lookup "status_code" = some (FieldValue.int (remapStatus p.Status)) ∧
        (record p).tags.lookup "topic" = some p.Topic ∧
        (record p).tags.lookup "partition" = some (FormatInt p.Partition)) ∧
      (∀ a b : Int, a ≠ b → FormatInt a ≠ FormatInt b) ∧
      FormatInt 0 = "0" ∧ FormatInt 17 = "17" ∧ FormatInt (-3) = "-3" := by
  refine ⟨fun p => (publishGroupTopicStep res [] p).headD ⟨"", [], []⟩, ?_, ?_, ?_,
    by decide, by decide, by decide⟩
  · simp only [publishGroupTopic, hEnabled, Bool.false_eq_true, if_false,
      foldl_publishGroupTopicStep]
    congr 1
    induction res.Status.Partitions with
    | nil => rfl
    | cons p rest ih =>
      rw [List.flatMap_cons, ih, List.map_cons]
      simp [publishGroupTopicStep, AddFields]
  · intro p
    refine ⟨?_, ?_, ?_, ?_, ?_, ?_, ?_, ?_, ?_, ?_, ?_, ?_, ?_, ?_, ?_⟩ <;>
      simp [publishGroupTopicStep, AddFields, keys, mapLit, setKey, List.lookup, topicKeys]
  · intro a b hab h
    exact hab (FormatInt_injective a b h)

theorem publishGroupTopic_record_witness :
    ∃ record : apiStatusResponseLag → Metric,
      publishGroupTopic exampleClient exampleResponse "uri" []
        = [] ++ exampleResponse.Status.Partitions.map record ∧
      (record exampleLag).tags.lookup "partition" = some "0" ∧
      (record exampleLag).fields.lookup "status_code" = some (FieldValue.int 3) := by
  obtain ⟨record, h1, h2, _⟩ := publishGroupTopic_record exampleClient exampleResponse "uri" [] rfl
  refine ⟨record, h1, ?_, ?_⟩
  · have := (h2 exampleLag).2.2.2.2.2.2.2.2.2.2.2.2.2.2
    rw [this]; decide
  · have := (h2 exampleLag).2.2.2.2.2.2.2.2.2.2.2.2.1
    rw [this]; decide

/-! ### Percent-escaping -/

theorem upperhex_ne_slash (d : Nat) : upperhex d ≠ '/' := by
  by_cases h : d < 16
  · interval_cases d <;> decide
  · have : upperhex d = '0' := by
      unfold upperhex
      apply List.getD_eq_default
      simp only [not_lt] at h
      exact h
    rw [this]; decide

theorem shouldEscape_false_lt (b : Nat) (h : shouldEscape b = false) : b < 127 := by
  unfold shouldEscape at h
  split_ifs at h <;> omega

theorem ofNat_ne_slash_of_kept : ∀ b < 127, shouldEscape b = false → Char.ofNat b ≠ '/' := by
  decide

theorem slash_not_mem_escapeByte (b : Nat) : '/' ∉ escapeByte b := by
  unfold escapeByte
  by_cases h : shouldEscape b = true
  · simp only [h, if_true, List.mem_cons, List.mem_singleton, List.not_mem_nil, or_false,
      not_or]
    exact ⟨by decide, (upperhex_ne_slash _).symm, (upperhex_ne_slash _).symm⟩
  · have hf : shouldEscape b = false := by simpa using h
    simp only [hf, Bool.false_eq_true, if_false, List.mem_singleton]
    exact (ofNat_ne_slash_of_kept b (shouldEscape_false_lt b hf) hf).symm

theorem slash_not_mem_PathEscape (name : String) : '/' ∉ (PathEscape name).toList := by
  intro h
  have h' : '/' ∈ (name.toList.flatMap utf8Bytes).flatMap escapeByte := h
  obtain ⟨b, _, hb⟩ := List.mem_flatMap.mp h'
  exact slash_not_mem_escapeByte b hb

/-! ### Execution of a pool -/

theorem sum_map_set (f : Worker → Nat) (ws : List Worker) (i : Nat) (w w' : Worker)
    (h : ws[i]? = some w) :
    ((ws.set i w').map f).sum + f w = (ws.map f).sum + f w' := by
  induction ws generalizing i with
  | nil => simp at h
  | cons x xs ih =>
    cases i with
    | zero =>
      simp only [List.getElem?_cons_zero, Option.some.injEq] at h
      subst h
      simp only [List.set_cons_zero, List.map_cons, List.sum_cons]
      omega
    | succ j =>
      simp only [List.getElem?_cons_succ] at h
      have := ih j h
      simp only [List.set_cons_succ, List.map_cons, List.sum_cons]
      omega

theorem measure_stepMain (s t : Pool) (h : stepMain s = some t) : measure t < measure s := by
  cases hs : s.script with
  | nil => simp [stepMain, hs] at h
  | cons op rest =>
    cases op with
    | makeProducer c => simp only [stepMain, hs, Option.some.injEq] at h; subst h; simp [measure, hs]
    | makeDone c => simp only [stepMain, hs, Option.some.injEq] at h; subst h; simp [measure, hs]
    | spawn hd =>
      simp only [stepMain, hs, Option.some.injEq] at h; subst h
      simp [measure, hs, workerWeight]; omega
    | send a =>
      simp only [stepMain, hs] at h
      split at h
      · simp only [Option.some.injEq] at h; subst h; simp [measure, hs]; omega
      · cases h
    | recvDone =>
      simp only [stepMain, hs] at h
      split at h
      · simp only [Option.some.injEq] at h; subst h; simp [measure, hs]
      · cases h
    | closeProducer => simp only [stepMain, hs, Option.some.injEq] at h; subst h; simp [measure, hs]
    | wgDone => simp only [stepMain, hs, Option.some.injEq] at h; subst h; simp [measure, hs]

theorem measure_stepWorker (handle : String → Accumulator → Accumulator) (s t : Pool) (i : Nat)
    (h : stepWorker handle s i = some t) : measure t < measure s := by
  cases hw : s.workers[i]? with
  | none => simp [stepWorker, hw] at h
  | some w =>
    cases w with
    | idle =>
      cases hp : s.producer with
      | nil =>
        simp only [stepWorker, hw, hp] at h
        split at h
        · simp only [Option.some.injEq] at h; subst h
          have := sum_map_set workerWeight s.workers i _ Worker.exited hw
          simp only [measure, workerWeight, hp] at this ⊢
          omega
        · cases h
      | cons uri rest =>
        simp only [stepWorker, hw, hp, Option.some.injEq] at h; subst h
        have := sum_map_set workerWeight s.workers i _ (Worker.busy uri) hw
        simp only [measure, workerWeight, hp, List.length_cons] at this ⊢
        omega
    | busy uri =>
      simp only [stepWorker, hw, Option.some.injEq] at h; subst h
      have := sum_map_set workerWeight s.workers i _ Worker.signalling hw
      simp only [measure, workerWeight] at this ⊢
      omega
    | signalling =>
      simp only [stepWorker, hw] at h
      split at h
      · simp only [Option.some.injEq] at h; subst h
        have := sum_map_set workerWeight s.workers i _ Worker.idle hw
        simp only [measure, workerWeight] at this ⊢
        omega
      · cases h
    | exited => simp [stepWorker, hw] at h

theorem measure_Step (handle : String → Accumulator → Accumulator) (s t : Pool)
    (h : Step handle s t) : measure t < measure s := by
  obtain ⟨e, he⟩ := h
  cases e with
  | main => exact measure_stepMain s t he
  | worker i => exact measure_stepWorker handle s t i he

theorem inflight_set (ws : List Worker) (i : Nat) (w w' : Worker) (h : ws[i]? = some w) :
    inflight (ws.set i w') + workerLoad w = inflight ws + workerLoad w' :=
  sum_map_set workerLoad ws i w w' h

theorem exited_not_mem_set (ws : List Worker) (i : Nat) (w' : Worker) (hw : w' ≠ Worker.exited)
    (h : Worker.exited ∉ ws) : Worker.exited ∉ ws.set i w' := by
  intro hm
  rcases List.mem_or_eq_of_mem_set hm with h1 | h1
  · exact h h1
  · exact hw h1.symm

theorem poolOps_eq (c : Int) (h : Handler) (addrs : List String) (tail : List Op) :
    poolOps c h addrs ++ tail = Op.makeProducer addrs.length :: Op.makeDone addrs.length ::
      block h (loopCount c) addrs addrs.length tail := by
  simp [poolOps, block]

theorem PoolInv_init (c : Int) (h : Handler) (addrs : List String) (t : Nat)
    (acc : Accumulator) :
    PoolInv (loopCount c) h addrs t
      (initPool (poolOps c h addrs ++ List.replicate t Op.wgDone) acc) := by
  refine ⟨⟨by simp [initPool, inflight], by simp [initPool]⟩, ?_⟩
  exact Phase.start (by rw [poolOps_eq]; rfl) rfl rfl rfl rfl rfl

theorem Balanced_stepWorker (handle : String → Accumulator → Accumulator) (s t : Pool) (i : Nat)
    (hb : Balanced s) (h : stepWorker handle s i = some t) :
    Balanced t ∧ t.script = s.script ∧ t.workers.length = s.workers.length ∧
      t.sent = s.sent ∧ t.received = s.received ∧ t.closed = s.closed ∧ t.wg = s.wg ∧
      t.producerCap = s.producerCap ∧ t.doneCap = s.doneCap := by
  obtain ⟨hc, hn⟩ := hb
  cases hw : s.workers[i]? with
  | none => simp [stepWorker, hw] at h
  | some w =>
    cases w with
    | idle =>
      cases hp : s.producer with
      | nil =>
        simp only [stepWorker, hw, hp] at h
        split at h
        · rename_i hcl
          simp only [Option.some.injEq] at h; subst h
          have := inflight_set s.workers i _ Worker.exited hw
          simp only [workerLoad] at this
          refine ⟨⟨?_, ?_⟩, rfl, by simp, rfl, rfl, rfl, rfl, rfl, rfl⟩
          · simp only [hp, List.length_nil] at hc ⊢; omega
          · intro hf; simp only at hf; rw [hcl] at hf; cases hf
        · cases h
      | cons uri rest =>
        simp only [stepWorker, hw, hp, Option.some.injEq] at h; subst h
        have := inflight_set s.workers i _ (Worker.busy uri) hw
        simp only [workerLoad] at this
        refine ⟨⟨?_, ?_⟩, rfl, by simp, rfl, rfl, rfl, rfl, rfl, rfl⟩
        · simp only [hp, List.length_cons] at hc ⊢; omega
        · intro hf; exact exited_not_mem_set _ _ _ (by simp) (hn hf)
    | busy uri =>
      simp only [stepWorker, hw, Option.some.injEq] at h; subst h
      have := inflight_set s.workers i _ Worker.signalling hw
      simp only [workerLoad] at this
      refine ⟨⟨?_, ?_⟩, rfl, by simp, rfl, rfl, rfl, rfl, rfl, rfl⟩
      · simp only; omega
      · intro hf; exact exited_not_mem_set _ _ _ (by simp) (hn hf)
    | signalling =>
      simp only [stepWorker, hw] at h
      split at h
      · simp only [Option.some.injEq] at h; subst h
        have := inflight_set s.workers i _ Worker.idle hw
        simp only [workerLoad] at this
        refine ⟨⟨?_, ?_⟩, rfl, by simp, rfl, rfl, rfl, rfl, rfl, rfl⟩
        · simp only; omega
        · intro hf; exact exited_not_mem_set _ _ _ (by simp) (hn hf)
      · cases h
    | exited => simp [stepWorker, hw] at h

theorem Phase_congr (W : Nat) (h : Handler) (addrs : List String) (t : Nat) (s s' : Pool)
    (hp : Phase W h addrs t s) (h1 : s'.script = s.script)
    (h2 : s'.workers.length = s.workers.length) (h3 : s'.sent = s.sent)
    (h4 : s'.received = s.received) (h5 : s'.closed = s.closed) (h6 : s'.wg = s.wg)
    (h7 : s'.producerCap = s.producerCap) (h8 : s'.doneCap = s.doneCap) :
    Phase W h addrs t s' := by
  cases hp with
  | start script workers sent received closed wg =>
    refine Phase.start (h1.trans script) ?_ (h3.trans sent) (h4.trans received)
      (h5.trans closed) (h6.trans wg)
    rw [workers] at h2
    exact List.length_eq_zero.mp h2
  | made script producerCap workers sent received closed wg =>
    refine Phase.made (h1.trans script) (h7.trans producerCap) ?_ (h3.trans sent)
      (h4.trans received) (h5.trans closed) (h6.trans wg)
    rw [workers] at h2
    exact List.length_eq_zero.mp h2
  | running w as r script spawnFirst sendFirst workers sent received producerCap doneCap
      closed wg =>
    exact Phase.running w as r (h1.trans script) spawnFirst sendFirst (by rw [h2]; exact workers)
      (by rw [h3]; exact sent) (by rw [h4]; exact received) (h7.trans producerCap)
      (h8.trans doneCap) (h5.trans closed) (h6.trans wg)
  | closing j script wg closed sent received workers producerCap doneCap =>
    exact Phase.closing j (h1.trans script) (by rw [h6]; exact wg) (h5.trans closed)
      (h3.trans sent) (h4.trans received) (h2.trans workers) (h7.trans producerCap)
      (h8.trans doneCap)

theorem PoolInv_stepWorker (handle : String → Accumulator → Accumulator) (W : Nat)
    (h : Handler) (addrs : List String) (t : Nat) (s s' : Pool) (i : Nat)
    (hi : PoolInv W h addrs t s) (hs : stepWorker handle s i = some s') :
    PoolInv W h addrs t s' := by
  obtain ⟨hb, h1, h2, h3, h4, h5, h6, h7, h8⟩ := Balanced_stepWorker handle s s' i hi.1 hs
  exact ⟨hb, Phase_congr W h addrs t s s' hi.2 h1 h2 h3 h4 h5 h6 h7 h8⟩

theorem block_spawn (h : Handler) (w : Nat) (as : List String) (r : Nat) (tail : List Op) :
    block h (w + 1) as r tail = Op.spawn h :: block h w as r tail := by
  simp [block, List.replicate_succ]

theorem block_send (h : Handler) (a : String) (as : List String) (r : Nat) (tail : List Op) :
    block h 0 (a :: as) r tail = Op.send a :: block h 0 as r tail := by
  simp [block]

theorem block_recv (h : Handler) (r : Nat) (tail : List Op) :
    block h 0 [] (r + 1) tail = Op.recvDone :: block h 0 [] r tail := by
  simp [block, List.replicate_succ]

theorem block_close (h : Handler) (tail : List Op) :
    block h 0 [] 0 tail = Op.closeProducer :: tail := by
  simp [block]

theorem inflight_append_idle (ws : List Worker) : inflight (ws ++ [Worker.idle]) = inflight ws := by
  simp [inflight, workerLoad]

theorem PoolInv_stepMain (W : Nat) (h : Handler) (addrs : List String) (t : Nat) (s s' : Pool)
    (hi : PoolInv W h addrs t s) (hs : stepMain s = some s') : PoolInv W h addrs t s' := by
  obtain ⟨⟨hc, hn⟩, hp⟩ := hi
  cases hp with
  | start script workers sent received closed wg =>
    simp only [stepMain, script, Option.some.injEq] at hs; subst hs
    exact ⟨⟨hc, hn⟩, Phase.made rfl rfl workers sent received closed wg⟩
  | made script producerCap workers sent received closed wg =>
    simp only [stepMain, script, Option.some.injEq] at hs; subst hs
    refine ⟨⟨hc, hn⟩, Phase.running W addrs addrs.length rfl (fun _ => rfl) (fun _ => rfl)
      ?_ ?_ ?_ producerCap rfl closed wg⟩
    · simp only [workers, List.length_nil, Nat.zero_add]
    · simp only [sent, List.nil_append]
    · simp only [received, Nat.zero_add]
  | running w as r script spawnFirst sendFirst workers sent received producerCap doneCap
      closed wg =>
    cases w with
    | succ w' =>
      rw [block_spawn] at script
      simp only [stepMain, script, Option.some.injEq] at hs; subst hs
      refine ⟨⟨?_, ?_⟩, Phase.running w' as r rfl (fun _ => spawnFirst (Nat.succ_pos _))
        sendFirst ?_ sent received producerCap doneCap closed wg⟩
      · simp only [inflight_append_idle]; exact hc
      · intro hf
        simp only [List.mem_append, List.mem_singleton, not_or]
        exact ⟨hn hf, by simp⟩
      · simp only [List.length_append, List.length_singleton]; omega
    | zero =>
      cases as with
      | cons a as' =>
        rw [block_send] at script
        simp only [stepMain, script] at hs
        split at hs
        · simp only [Option.some.injEq] at hs; subst hs
          refine ⟨⟨?_, hn⟩, Phase.running 0 as' r rfl (fun hw => absurd hw (Nat.lt_irrefl 0))
            (fun _ => sendFirst (by simp)) workers ?_ received producerCap doneCap closed wg⟩
          · simp only [List.length_append, List.length_singleton]; omega
          · simp only [List.append_assoc, List.singleton_append]; exact sent
        · cases hs
      | nil =>
        cases r with
        | succ r' =>
          rw [block_recv] at script
          simp only [stepMain, script] at hs
          split at hs
          · simp only [Option.some.injEq] at hs; subst hs
            refine ⟨⟨?_, hn⟩, Phase.running 0 [] r' rfl (fun hw => absurd hw (Nat.lt_irrefl 0))
              (fun hne => absurd rfl hne) workers sent ?_ producerCap doneCap closed wg⟩
            · simp only; omega
            · simp only; omega
          · cases hs
        | zero =>
          rw [block_close] at script
          simp only [stepMain, script, Option.some.injEq] at hs; subst hs
          refine ⟨⟨hc, ?_⟩, Phase.closing t rfl ?_ rfl ?_ ?_ ?_ producerCap doneCap⟩
          · intro hf; cases hf
          · simp only [wg, Nat.zero_add]
          · simpa using sent
          · simpa using received
          · simpa using workers
  | closing j script wg closed sent received workers producerCap doneCap =>
    cases j with
    | zero => simp [stepMain, script] at hs
    | succ j' =>
      rw [List.replicate_succ] at script
      simp only [stepMain, script, Option.some.injEq] at hs; subst hs
      refine ⟨⟨hc, ?_⟩, Phase.closing j' rfl ?_ closed sent received workers producerCap doneCap⟩
      · intro hf; simp only at hf; rw [closed] at hf; cases hf
      · simp only; omega

theorem PoolInv_Step (handle : String → Accumulator → Accumulator) (W : Nat) (h : Handler)
    (addrs : List String) (t : Nat) (s s' : Pool)
    (hi : PoolInv W h addrs t s) (hs : Step handle s s') : PoolInv W h addrs t s' := by
  obtain ⟨e, he⟩ := hs
  cases e with
  | main => exact PoolInv_stepMain W h addrs t s s' hi he
  | worker i => exact PoolInv_stepWorker handle W h addrs t s s' i hi he

theorem PoolInv_Reachable (handle : String → Accumulator → Accumulator) (W : Nat) (h : Handler)
    (addrs : List String) (t : Nat) (s s' : Pool)
    (hi : PoolInv W h addrs t s) (hr : Reachable handle s s') : PoolInv W h addrs t s' := by
  induction hr with
  | refl => exact hi
  | tail _ hstep ih => exact PoolInv_Step handle W h addrs t _ _ ih hstep

theorem exists_loaded (ws : List Worker) (h : 0 < inflight ws) :
    ∃ i : Nat, (∃ u, ws[i]? = some (Worker.busy u)) ∨ ws[i]? = some Worker.signalling := by
  induction ws with
  | nil => simp [inflight] at h
  | cons x xs ih =>
    cases x with
    | busy u => exact ⟨0, Or.inl ⟨u, by simp⟩⟩
    | signalling => exact ⟨0, Or.inr (by simp)⟩
    | idle =>
      have h' : 0 < inflight xs := by simpa [inflight, workerLoad] using h
      obtain ⟨i, hi⟩ := ih h'
      exact ⟨i + 1, by simpa using hi⟩
    | exited =>
      have h' : 0 < inflight xs := by simpa [inflight, workerLoad] using h
      obtain ⟨i, hi⟩ := ih h'
      exact ⟨i + 1, by simpa using hi⟩

theorem inflight_eq_zero (ws : List Worker) (h : inflight ws = 0) :
    ∀ w ∈ ws, w = Worker.idle ∨ w = Worker.exited := by
  induction ws with
  | nil => intro w hw; cases hw
  | cons x xs ih =>
    have hsum : workerLoad x + inflight xs = 0 := by simpa [inflight] using h
    intro w hw
    rcases List.mem_cons.mp hw with hx | hx
    · subst hx
      cases w with
      | idle => exact Or.inl rfl
      | exited => exact Or.inr rfl
      | busy u => simp [workerLoad] at hsum
      | signalling => simp [workerLoad] at hsum
    · exact ih (by omega) w hx

theorem stepMain_isSome_of_head (s : Pool) (op : Op) (rest : List Op)
    (hs : s.script = op :: rest) (hsend : ∀ a, op = Op.send a → s.producer.length < s.producerCap)
    (hrecv : op = Op.recvDone → 0 < s.done) : ∃ s', stepMain s = some s' := by
  cases op with
  | makeProducer c => exact ⟨_, by simp only [stepMain, hs]; rfl⟩
  | makeDone c => exact ⟨_, by simp only [stepMain, hs]; rfl⟩
  | spawn hd => exact ⟨_, by simp only [stepMain, hs]; rfl⟩
  | send a => exact ⟨_, by simp only [stepMain, hs, hsend a rfl, if_true]; rfl⟩
  | recvDone => exact ⟨_, by simp only [stepMain, hs, hrecv rfl, if_true]; rfl⟩
  | closeProducer => exact ⟨_, by simp only [stepMain, hs]; rfl⟩
  | wgDone => exact ⟨_, by simp only [stepMain, hs]; rfl⟩

/-- A pool with at least one worker (or with nothing to do) whose orchestrating goroutine has
not finished can always take a step: it never deadlocks. -/
theorem PoolInv_progress (handle : String → Accumulator → Accumulator) (W : Nat) (h : Handler)
    (addrs : List String) (t : Nat) (s : Pool) (hi : PoolInv W h addrs t s)
    (hW : 1 ≤ W ∨ addrs = []) (hne : s.script ≠ []) : ∃ s', Step handle s s' := by
  obtain ⟨⟨hc, hn⟩, hp⟩ := hi
  have main : (∃ s', stepMain s = some s') → ∃ s', Step handle s s' :=
    fun ⟨s', hs'⟩ => ⟨s', Event.main, hs'⟩
  cases hp with
  | start script workers sent received closed wg =>
    exact main (stepMain_isSome_of_head s _ _ script (fun a ha => by cases ha)
      (fun ha => by cases ha))
  | made script producerCap workers sent received closed wg =>
    exact main (stepMain_isSome_of_head s _ _ script (fun a ha => by cases ha)
      (fun ha => by cases ha))
  | running w as r script spawnFirst sendFirst workers sent received producerCap doneCap
      closed wg =>
    cases w with
    | succ w' =>
      rw [block_spawn] at script
      exact main (stepMain_isSome_of_head s _ _ script (fun a ha => by cases ha)
        (fun ha => by cases ha))
    | zero =>
      cases as with
      | cons a as' =>
        rw [block_send] at script
        refine main (stepMain_isSome_of_head s _ _ script (fun _ _ => ?_) (fun ha => by cases ha))
        have hlen := congrArg List.length sent
        simp only [List.length_append, List.length_cons] at hlen
        omega
      | nil =>
        cases r with
        | zero =>
          rw [block_close] at script
          exact main (stepMain_isSome_of_head s _ _ script (fun a ha => by cases ha)
            (fun ha => by cases ha))
        | succ r' =>
          rw [block_recv] at script
          by_cases hd : 0 < s.done
          · exact main (stepMain_isSome_of_head s _ _ script (fun a ha => by cases ha)
              (fun _ => hd))
          · have hlen := congrArg List.length sent
            simp only [List.append_nil] at hlen
            by_cases hl : 0 < inflight s.workers
            · obtain ⟨i, hi⟩ := exists_loaded s.workers hl
              rcases hi with ⟨u, hu⟩ | hsig
              · exact ⟨_, Event.worker i, by simp only [step, stepWorker, hu]; rfl⟩
              · have hcap : s.done < s.doneCap := by omega
                exact ⟨_, Event.worker i, by simp only [step, stepWorker, hsig, hcap, if_true]; rfl⟩
            · have hl0 : inflight s.workers = 0 := by omega
              have hW1 : 1 ≤ W := by
                rcases hW with hW | hW
                · exact hW
                · rw [hW] at received; simp at received
              cases hws : s.workers with
              | nil => rw [hws] at workers; simp at workers; omega
              | cons w0 ws' =>
                have hmem : w0 ∈ s.workers := by rw [hws]; exact List.mem_cons_self _ _
                have hidle : w0 = Worker.idle := by
                  rcases inflight_eq_zero s.workers hl0 w0 hmem with h0 | h0
                  · exact h0
                  · exact absurd (h0 ▸ hmem) (hn closed)
                have hget : s.workers[0]? = some Worker.idle := by rw [hws, hidle]; simp
                cases hpr : s.producer with
                | nil => rw [hpr] at hc; simp only [List.length_nil] at hc; omega
                | cons uri rest =>
                  exact ⟨_, Event.worker 0, by simp only [step, stepWorker, hget, hpr]; rfl⟩
  | closing j script wg closed sent received workers producerCap doneCap =>
    cases j with
    | zero => exact absurd script hne
    | succ j' =>
      rw [List.replicate_succ] at script
      exact main (stepMain_isSome_of_head s _ _ script (fun a ha => by cases ha)
        (fun ha => by cases ha))

/-- When no goroutine of a pool with at least one worker (or with nothing to do) can move,
the orchestrating goroutine has finished: every address was sent, one completion signal per
address was received, the channel is closed, every `wg.Done()` was called, the queues are
empty and every worker has returned. -/
theorem PoolInv_terminal (handle : String → Accumulator → Accumulator) (W : Nat) (h : Handler)
    (addrs : List String) (t : Nat) (s : Pool) (hi : PoolInv W h addrs t s)
    (hW : 1 ≤ W ∨ addrs = []) (hterm : Terminal handle s) :
    s.script = [] ∧ s.wg = t ∧ s.sent = addrs ∧ s.received = addrs.length ∧
      s.closed = true ∧ s.producer = [] ∧ s.done = 0 ∧ s.workers.length = W ∧
      ∀ w ∈ s.workers, w = Worker.exited := by
  have hscript : s.script = [] := by
    by_contra hne
    obtain ⟨s', hs'⟩ := PoolInv_progress handle W h addrs t s hi hW hne
    exact hterm s' hs'
  obtain ⟨⟨hc, hn⟩, hp⟩ := hi
  cases hp with
  | start script _ _ _ _ _ => rw [hscript] at script; cases script
  | made script _ _ _ _ _ _ => rw [hscript] at script; cases script
  | running w as r script _ _ _ _ _ _ _ _ _ =>
    rw [hscript] at script
    simp [block] at script
  | closing j script wg closed sent received workers producerCap doneCap =>
    have hj : j = 0 := by
      cases j with
      | zero => rfl
      | succ j' => rw [hscript, List.replicate_succ] at script; cases script
    subst hj
    have hlen := congrArg List.length sent
    have hprod : s.producer = [] := List.length_eq_zero.mp (by omega)
    have hl0 : inflight s.workers = 0 := by omega
    refine ⟨hscript, by omega, sent, received, closed, hprod, by omega, workers, ?_⟩
    intro w hw
    rcases inflight_eq_zero s.workers hl0 w hw with h0 | h0
    · exfalso
      obtain ⟨i, hi⟩ := List.mem_iff_getElem?.mp hw
      rw [h0] at hi
      exact hterm _ ⟨Event.worker i, by simp only [step, stepWorker, hi, hprod, closed, if_true]; rfl⟩
    · exact h0

theorem PoolInv_facts (W : Nat) (h : Handler) (addrs : List String) (t : Nat) (s : Pool)
    (hi : PoolInv W h addrs t s) :
    s.wg ≤ t ∧ s.workers.length ≤ W ∧ s.sent <+: addrs ∧ s.received ≤ addrs.length ∧
      s.received ≤ s.sent.length ∧
      (s.closed = true → s.sent = addrs ∧ s.received = addrs.length) ∧
      (s.sent ≠ [] → s.producerCap = addrs.length ∧ s.doneCap = addrs.length ∧
        s.workers.length = W) := by
  obtain ⟨⟨hc, hn⟩, hp⟩ := hi
  cases hp with
  | start script workers sent received closed wg =>
    refine ⟨by omega, by simp [workers], by simp [sent], by omega, by omega, ?_, ?_⟩
    · intro hcl; rw [closed] at hcl; cases hcl
    · intro hs; exact absurd sent hs
  | made script producerCap workers sent received closed wg =>
    refine ⟨by omega, by simp [workers], by simp [sent], by omega, by omega, ?_, ?_⟩
    · intro hcl; rw [closed] at hcl; cases hcl
    · intro hs; exact absurd sent hs
  | running w as r script spawnFirst sendFirst workers sent received producerCap doneCap
      closed wg =>
    refine ⟨by omega, by omega, ⟨as, sent⟩, by omega, by omega, ?_, ?_⟩
    · intro hcl; rw [closed] at hcl; cases hcl
    · intro hs
      refine ⟨producerCap, doneCap, ?_⟩
      cases w with
      | zero => omega
      | succ w' =>
        have := spawnFirst (Nat.succ_pos _)
        rw [this] at sent
        have hnil : s.sent = [] := by simpa using sent
        exact absurd hnil hs
  | closing j script wg closed sent received workers producerCap doneCap =>
    have hlen := congrArg List.length sent
    exact ⟨by omega, by omega, by rw [sent], by omega, by omega, fun _ => ⟨sent, received⟩,
      fun _ => ⟨producerCap, doneCap, workers⟩⟩

theorem exists_terminal_aux (handle : String → Accumulator → Accumulator) :
    ∀ n s, measure s = n → ∃ s', Reachable handle s s' ∧ Terminal handle s' := by
  intro n
  induction n using Nat.strong_induction_on with
  | _ n ih =>
    intro s hn
    by_cases h : ∃ t, Step handle s t
    · obtain ⟨t, ht⟩ := h
      obtain ⟨s', hr, hT⟩ :=
        ih (measure t) (by rw [← hn]; exact measure_Step handle s t ht) t rfl
      exact ⟨s', Relation.ReflTransGen.head ht hr, hT⟩
    · exact ⟨s, Relation.ReflTransGen.refl, fun t ht => h ⟨t, ht⟩⟩

/-- Every run of a pool is finite, so from every state a state is reached in which no
goroutine can move. -/
theorem exists_terminal (handle : String → Accumulator → Accumulator) (s : Pool) :
    ∃ s', Reachable handle s s' ∧ Terminal handle s' :=
  exists_terminal_aux handle (measure s) s rfl

theorem IdleInv_init (t : Nat) (acc : Accumulator) :
    IdleInv t acc (initPool (List.replicate t Op.wgDone) acc) :=
  ⟨⟨t, rfl, by simp [initPool]⟩, rfl, rfl, rfl, rfl, rfl⟩

theorem IdleInv_Step (handle : String → Accumulator → Accumulator) (t : Nat)
    (acc0 : Accumulator) (s s' : Pool) (hi : IdleInv t acc0 s) (hs : Step handle s s') :
    IdleInv t acc0 s' := by
  obtain ⟨⟨j, hscript, hwg⟩, hworkers, hsent, hhandled, hacc, hprod⟩ := hi
  obtain ⟨e, he⟩ := hs
  cases e with
  | worker i => simp [step, stepWorker, hworkers] at he
  | main =>
    cases j with
    | zero => simp [step, stepMain, hscript] at he
    | succ j' =>
      rw [List.replicate_succ] at hscript
      simp only [step, stepMain, hscript, Option.some.injEq] at he; subst he
      exact ⟨⟨j', rfl, by simp only; omega⟩, hworkers, hsent, hhandled, hacc, hprod⟩

theorem IdleInv_Reachable (handle : String → Accumulator → Accumulator) (t : Nat)
    (acc0 : Accumulator) (s s' : Pool) (hi : IdleInv t acc0 s) (hr : Reachable handle s s') :
    IdleInv t acc0 s' := by
  induction hr with
  | refl => exact hi
  | tail _ hstep ih => exact IdleInv_Step handle t acc0 _ _ ih hstep

theorem IdleInv_wg (handle : String → Accumulator → Accumulator) (t : Nat)
    (acc0 : Accumulator) (s : Pool) (hi : IdleInv t acc0 s) :
    s.wg ≤ t ∧ (Terminal handle s → s.wg = t) := by
  obtain ⟨⟨j, hscript, hwg⟩, _, _, _, _, _⟩ := hi
  refine ⟨by omega, fun hterm => ?_⟩
  cases j with
  | zero => omega
  | succ j' =>
    rw [List.replicate_succ] at hscript
    exact absurd ⟨Event.main, by simp only [step, stepMain, hscript]; rfl⟩ (hterm _)

/-! ### The operations of `gatherGroupStats` and `fetchGroup` -/

theorem sentAddresses_append (xs ys : List Op) :
    sentAddresses (xs ++ ys) = sentAddresses xs ++ sentAddresses ys := by
  simp [sentAddresses, List.filterMap_append]

theorem sentAddresses_spawns (n : Nat) (h : Handler) :
    sentAddresses (List.replicate n (Op.spawn h)) = [] := by
  induction n with
  | zero => rfl
  | succ n ih => rw [List.replicate_succ]; simp [sentAddresses]

theorem sentAddresses_recvs (n : Nat) : sentAddresses (List.replicate n Op.recvDone) = [] := by
  induction n with
  | zero => rfl
  | succ n ih => rw [List.replicate_succ]; simp [sentAddresses]

theorem sentAddresses_sends (addrs : List String) :
    sentAddresses (addrs.map Op.send) = addrs := by
  induction addrs with
  | nil => rfl
  | cons a as ih => simpa [sentAddresses] using ih

theorem sentAddresses_poolOps (c : Int) (h : Handler) (addrs : List String) :
    sentAddresses (poolOps c h addrs) = addrs := by
  simp only [poolOps, sentAddresses_append, sentAddresses_spawns, sentAddresses_recvs,
    sentAddresses_sends]
  simp [sentAddresses]

theorem count_recvDone_sends (addrs : List String) :
    (addrs.map Op.send).count Op.recvDone = 0 := by
  apply List.count_eq_zero.mpr
  intro hm
  obtain ⟨a, _, ha⟩ := List.mem_map.mp hm
  cases ha

theorem closeProducer_not_mem_sends (addrs : List String) :
    Op.closeProducer ∉ addrs.map Op.send := by
  intro hm
  obtain ⟨a, _, ha⟩ := List.mem_map.mp hm
  cases ha

theorem wgDone_not_mem_poolOps (c : Int) (h : Handler) (addrs : List String) :
    Op.wgDone ∉ poolOps c h addrs := by
  intro hm
  simp only [poolOps, List.mem_append, List.mem_cons, List.mem_singleton, List.not_mem_nil,
    or_false, List.mem_replicate, List.mem_map] at hm
  rcases hm with (((h1 | h1) | h1) | h1) | h1
  · rcases h1 with h1 | h1 <;> cases h1
  · cases h1.2
  · obtain ⟨a, _, ha⟩ := h1; cases ha
  · cases h1.2
  · cases h1

theorem caps_poolOps (c : Int) (h : Handler) (addrs : List String) (t : Nat) :
    producerCaps (poolOps c h addrs ++ List.replicate t Op.wgDone) = [addrs.length] ∧
    doneCaps (poolOps c h addrs ++ List.replicate t Op.wgDone) = [addrs.length] := by
  have h1 : ∀ n, producerCaps (List.replicate n (Op.spawn h)) = [] ∧
      doneCaps (List.replicate n (Op.spawn h)) = [] := by
    intro n
    induction n with
    | zero => exact ⟨rfl, rfl⟩
    | succ n ih => rw [List.replicate_succ]; simp [producerCaps, doneCaps]
  have h2 : ∀ n, producerCaps (List.replicate n Op.recvDone) = [] ∧
      doneCaps (List.replicate n Op.recvDone) = [] := by
    intro n
    induction n with
    | zero => exact ⟨rfl, rfl⟩
    | succ n ih => rw [List.replicate_succ]; simp [producerCaps, doneCaps]
  have h3 : ∀ n, producerCaps (List.replicate n Op.wgDone) = [] ∧
      doneCaps (List.replicate n Op.wgDone) = [] := by
    intro n
    induction n with
    | zero => exact ⟨rfl, rfl⟩
    | succ n ih => rw [List.replicate_succ]; simp [producerCaps, doneCaps]
  have h4 : ∀ l : List String, producerCaps (l.map Op.send) = [] ∧
      doneCaps (l.map Op.send) = [] := by
    intro l
    induction l with
    | nil => exact ⟨rfl, rfl⟩
    | cons a as ih => simp [producerCaps, doneCaps]
  have hp : ∀ xs ys, producerCaps (xs ++ ys) = producerCaps xs ++ producerCaps ys := by
    intro xs ys; simp [producerCaps, List.filterMap_append]
  have hd : ∀ xs ys, doneCaps (xs ++ ys) = doneCaps xs ++ doneCaps ys := by
    intro xs ys; simp [doneCaps, List.filterMap_append]
  constructor
  · simp only [poolOps, hp, (h1 _).1, (h2 _).1, (h3 _).1, (h4 _).1]
    simp [producerCaps]
  · simp only [poolOps, hd, (h1 _).2, (h2 _).2, (h3 _).2, (h4 _).2]
    simp [doneCaps]

theorem CompletionCount_poolOps (c : Int) (h : Handler) (addrs : List String) (t : Nat) :
    CompletionCount addrs.length (poolOps c h addrs ++ List.replicate t Op.wgDone) := by
  have hw : sentAddresses (List.replicate t Op.wgDone) = [] := by
    induction t with
    | zero => rfl
    | succ n ih => rw [List.replicate_succ]; simp [sentAddresses]
  refine ⟨(caps_poolOps c h addrs t).1, (caps_poolOps c h addrs t).2, ?_, ?_, ?_⟩
  · rw [sentAddresses_append, sentAddresses_poolOps, hw, List.append_nil]
  · simp [poolOps, List.count_append, List.count_replicate, count_recvDone_sends]
  · refine ⟨[Op.makeProducer addrs.length, Op.makeDone addrs.length]
        ++ List.replicate (loopCount c) (Op.spawn h) ++ addrs.map Op.send
        ++ List.replicate addrs.length Op.recvDone, List.replicate t Op.wgDone,
      by simp [poolOps], ?_, ?_, ?_, hw, ?_, ?_⟩
    · simp only [sentAddresses_append, sentAddresses_spawns, sentAddresses_recvs,
        sentAddresses_sends]
      simp [sentAddresses]
    · simp [List.count_append, List.count_replicate, count_recvDone_sends]
    · simp only [List.mem_append, List.mem_cons, List.mem_singleton, List.not_mem_nil,
        or_false, List.mem_replicate, not_or]
      exact ⟨⟨⟨⟨by simp, by simp⟩, by simp⟩, closeProducer_not_mem_sends addrs⟩, by simp⟩
    · simp [List.count_replicate]
    · simp [List.mem_replicate]

theorem gatherGroupStats_of_disabled (api : apiClient) (clusterList : List String)
    (h1 : api.disableGroupSummary = true) (h2 : api.disableGroupTopics = true) :
    gatherGroupStats api clusterList = List.replicate 1 Op.wgDone := by
  simp [gatherGroupStats, h1, h2]

theorem gatherGroupStats_of_enabled (api : apiClient) (clusterList : List String)
    (h : ¬ (api.disableGroupSummary = true ∧ api.disableGroupTopics = true)) :
    gatherGroupStats api clusterList
      = poolOps api.workerCount Handler.fetchGroup
          (clusterList.map (consumerAddress api.apiPrefix)) ++ List.replicate 1 Op.wgDone := by
  simp only [gatherGroupStats, h, if_false, poolOps, List.length_map, List.map_map]
  rfl

theorem fetchGroup_eq (api : apiClient) (res : apiResponse) (uri : String) :
    fetchGroup api res uri
      = poolOps api.workerCount Handler.publishGroup
          ((whitelistSlice res.Groups api.limitGroups).map (lagAddress uri))
        ++ List.replicate 0 Op.wgDone := by
  simp only [fetchGroup, poolOps, List.length_map, List.map_map, List.replicate_zero,
    List.append_nil]
  rfl

theorem one_le_loopCount (c : Int) (h : 1 ≤ c) : 1 ≤ loopCount c := by
  unfold loopCount
  omega

/-- Without a worker nothing is ever put on the completion channel: a goroutine that has
started no worker and still has a receive from it ahead, with no start of a worker before it,
blocks there, before any `wg.Done()` that follows the receive. -/
theorem stuck_run_invariant (handle : String → Accumulator → Accumulator) (ops : List Op)
    (s t : Pool)
    (hs : s.workers = [] ∧ s.done = 0 ∧ s.wg = 0 ∧ ∃ pre, s.script = pre ++ Op.recvDone :: ops ∧
      (∀ h, Op.spawn h ∉ pre) ∧ Op.recvDone ∉ pre ∧ Op.wgDone ∉ pre)
    (hr : Reachable handle s t) :
    t.workers = [] ∧ t.done = 0 ∧ t.wg = 0 ∧ ∃ pre, t.script = pre ++ Op.recvDone :: ops ∧
      (∀ h, Op.spawn h ∉ pre) ∧ Op.recvDone ∉ pre ∧ Op.wgDone ∉ pre := by
  induction hr with
  | refl => exact hs
  | tail _ hstep ih =>
    obtain ⟨hw, hd, hwg, pre, hscript, h1, h2, h3⟩ := ih
    obtain ⟨e, he⟩ := hstep
    cases e with
    | worker i =>
      simp [step, stepWorker, hw] at he
    | main =>
      simp only [step, stepMain, hscript] at he
      cases pre with
      | nil =>
        simp [hd] at he
      | cons o rest =>
        have h1' : ∀ h, Op.spawn h ∉ rest := fun h hm => h1 h (List.mem_cons_of_mem _ hm)
        have h2' : Op.recvDone ∉ rest := fun h => h2 (List.mem_cons_of_mem _ h)
        have h3' : Op.wgDone ∉ rest := fun h => h3 (List.mem_cons_of_mem _ h)
        cases o with
        | makeProducer k =>
          simp only [List.cons_append, Option.some.injEq] at he
          subst he
          exact ⟨hw, hd, hwg, rest, rfl, h1', h2', h3'⟩
        | makeDone k =>
          simp only [List.cons_append, Option.some.injEq] at he
          subst he
          exact ⟨hw, hd, hwg, rest, rfl, h1', h2', h3'⟩
        | spawn h => exact absurd (List.mem_cons_self _ _) (h1 h)
        | send a =>
          simp only [List.cons_append] at he
          split at he
          · simp only [Option.some.injEq] at he
            subst he
            exact ⟨hw, hd, hwg, rest, rfl, h1', h2', h3'⟩
          · cases he
        | recvDone => exact absurd (List.mem_cons_self _ _) h2
        | closeProducer =>
          simp only [List.cons_append, Option.some.injEq] at he
          subst he
          exact ⟨hw, hd, hwg, rest, rfl, h1', h2', h3'⟩
        | wgDone => exact absurd (List.mem_cons_self _ _) h3

/-- C8, as stated, fails: with statistics enabled, one cluster and no worker,
`gatherGroupStats` sends the address and then waits at `<-doneChan` for a completion signal
that nothing gives. In no state of any run has `wg.Done()` been called, and the run of three
steps ends there, with the receive, the close and `wg.Done()` still ahead. -/
theorem gatherGroupStats_signals_once_counterexample :
    (noWorkerClient.disableGroupSummary = false ∧ noWorkerClient.workerCount = 0) ∧
    (∀ s, Reachable exampleHandle
        (initPool (gatherGroupStats noWorkerClient ["clustername1"]) []) s → s.wg = 0) ∧
    (∃ s, runSchedule exampleHandle [Event.main, Event.main, Event.main]
          (initPool (gatherGroupStats noWorkerClient ["clustername1"]) []) = some s ∧
      Reachable exampleHandle
        (initPool (gatherGroupStats noWorkerClient ["clustername1"]) []) s ∧
      Terminal exampleHandle s ∧
      s.script = [Op.recvDone, Op.closeProducer, Op.wgDone] ∧
      s.sent = ["http://burrow:8000/v2/kafka/clustername1/consumer"] ∧
      s.done = 0 ∧ s.wg = 0) := by
  have hinit : (initPool (gatherGroupStats noWorkerClient ["clustername1"]) []).workers = [] ∧
      (initPool (gatherGroupStats noWorkerClient ["clustername1"]) []).done = 0 ∧
      (initPool (gatherGroupStats noWorkerClient ["clustername1"]) []).wg = 0 ∧
      ∃ pre, (initPool (gatherGroupStats noWorkerClient ["clustername1"]) []).script
          = pre ++ Op.recvDone :: [Op.closeProducer, Op.wgDone] ∧
        (∀ h, Op.spawn h ∉ pre) ∧ Op.recvDone ∉ pre ∧ Op.wgDone ∉ pre :=
    ⟨rfl, rfl, rfl,
      [Op.makeProducer 1, Op.makeDone 1,
        Op.send "http://burrow:8000/v2/kafka/clustername1/consumer"],
      by decide, by intro h; cases h <;> decide, by decide, by decide⟩
  refine ⟨by decide, fun s hr => (stuck_run_invariant exampleHandle _ _ s hinit hr).2.2.1, ?_⟩
  have hrun : ∀ s0 : Pool, ∀ es : List Event, ∀ s1 : Pool,
      runSchedule exampleHandle es s0 = some s1 → Reachable exampleHandle s0 s1 := by
    intro s0 es
    induction es generalizing s0 with
    | nil =>
      intro s1 h
      simp only [runSchedule, Option.some.injEq] at h
      subst h
      exact Relation.ReflTransGen.refl
    | cons e es ih =>
      intro s1 h
      simp only [runSchedule] at h
      cases hstep : step exampleHandle s0 e with
      | none => rw [hstep] at h; cases h
      | some s' =>
        rw [hstep] at h
        exact Relation.ReflTransGen.head ⟨e, hstep⟩ (ih s' s1 h)
  refine ⟨{ script := [Op.recvDone, Op.closeProducer, Op.wgDone],
             producer := ["http://burrow:8000/v2/kafka/clustername1/consumer"],
             producerCap := 1, closed := false, done := 0, doneCap := 1, workers := [],
             sent := ["http://burrow:8000/v2/kafka/clustername1/consumer"], received := 0,
             handled := [], acc := [], wg := 0 },
    by decide, hrun _ [Event.main, Event.main, Event.main] _ (by decide), ?_, rfl, rfl, rfl, rfl⟩
  intro t ht
  obtain ⟨e, he⟩ := ht
  cases e with
  | main => simp [step, stepMain] at he
  | worker i => simp [step, stepWorker] at he

/-- C8, amended: when both `disableGroupSummary` and `disableGroupTopics` are set,
`gatherGroupStats` performs, for every cluster list and every worker count, the single operation `wg.Done()`:
in every state of its run there is no worker, no address has been sent, no address has been
handled and the accumulator is unchanged. On every path the operations of `gatherGroupStats`
contain `wg.Done()` exactly once, as the last operation, and no state of any run has more than
one completion signal; every run is finite, and when the run has ended (with at least one
worker, an empty cluster list, or both statistics disabled) the signal has been given
exactly once. -/
theorem gatherGroupStats_signals_once (handle : String → Accumulator → Accumulator)
    (api : apiClient) (clusterList : List String) (acc0 : Accumulator) :
    ((gatherGroupStats api clusterList).count Op.wgDone = 1 ∧
      (gatherGroupStats api clusterList).getLast? = some Op.wgDone) ∧
    (api.disableGroupSummary = true → api.disableGroupTopics = true →
      gatherGroupStats api clusterList = [Op.wgDone] ∧
      ∀ s, Reachable handle (initPool (gatherGroupStats api clusterList) acc0) s →
        s.workers = [] ∧ s.sent = [] ∧ s.producer = [] ∧ s.handled = [] ∧ s.acc = acc0 ∧
        (Terminal handle s → s.wg = 1)) ∧
    (∀ s, Reachable handle (initPool (gatherGroupStats api clusterList) acc0) s →
      s.wg ≤ 1 ∧ ∃ s', Reachable handle s s' ∧ Terminal handle s') ∧
    (∀ s s', Step handle s s' → measure s' < measure s) ∧
    (1 ≤ api.workerCount ∨ clusterList = [] →
      ∀ s, Reachable handle (initPool (gatherGroupStats api clusterList) acc0) s →
        Terminal handle s → s.wg = 1 ∧ s.script = []) := by
  by_cases hd : api.disableGroupSummary = true ∧ api.disableGroupTopics = true
  · have hEq := gatherGroupStats_of_disabled api clusterList hd.1 hd.2
    have hInv : ∀ s, Reachable handle (initPool (gatherGroupStats api clusterList) acc0) s →
        IdleInv 1 acc0 s := by
      intro s hr
      rw [hEq] at hr
      exact IdleInv_Reachable handle 1 acc0 _ s (IdleInv_init 1 acc0) hr
    refine ⟨?_, ?_, ?_, measure_Step handle, ?_⟩
    · rw [hEq]; exact ⟨by decide, by decide⟩
    · intro _ _
      refine ⟨by rw [hEq]; rfl, fun s hr => ?_⟩
      have hi := hInv s hr
      exact ⟨hi.workers, hi.sent, hi.producer, hi.handled, hi.acc,
        (IdleInv_wg handle 1 acc0 s hi).2⟩
    · intro s hr
      exact ⟨(IdleInv_wg handle 1 acc0 s (hInv s hr)).1, exists_terminal handle s⟩
    · intro _ s hr hterm
      have hi := hInv s hr
      refine ⟨(IdleInv_wg handle 1 acc0 s hi).2 hterm, ?_⟩
      obtain ⟨j, hscript, hwg⟩ := hi.script
      have := (IdleInv_wg handle 1 acc0 s hi).2 hterm
      have hj : j = 0 := by omega
      rw [hscript, hj]; rfl
  · have hEq := gatherGroupStats_of_enabled api clusterList hd
    have hInv : ∀ s, Reachable handle (initPool (gatherGroupStats api clusterList) acc0) s →
        PoolInv (loopCount api.workerCount) Handler.fetchGroup
          (clusterList.map (consumerAddress api.apiPrefix)) 1 s := by
      intro s hr
      rw [hEq] at hr
      exact PoolInv_Reachable handle _ _ _ 1 _ s (PoolInv_init _ _ _ 1 acc0) hr
    refine ⟨?_, ?_, ?_, measure_Step handle, ?_⟩
    · rw [hEq]
      constructor
      · rw [List.count_append, List.count_eq_zero.mpr (wgDone_not_mem_poolOps _ _ _)]
        decide
      · simp
    · intro h1 h2; exact absurd ⟨h1, h2⟩ hd
    · intro s hr
      exact ⟨(PoolInv_facts _ _ _ 1 s (hInv s hr)).1, exists_terminal handle s⟩
    · intro hW s hr hterm
      have hW' : 1 ≤ loopCount api.workerCount
          ∨ clusterList.map (consumerAddress api.apiPrefix) = [] := by
        rcases hW with hW | hW
        · exact Or.inl (one_le_loopCount _ hW)
        · exact Or.inr (by rw [hW]; rfl)
      have := PoolInv_terminal handle _ _ _ 1 s (hInv s hr) hW' hterm
      exact ⟨this.2.1, this.1⟩

theorem gatherGroupStats_signals_once_witness :
    (gatherGroupStats disabledClient ["clustername1", "clustername2"] = [Op.wgDone] ∧
      ∀ s, Reachable exampleHandle
          (initPool (gatherGroupStats disabledClient ["clustername1", "clustername2"]) []) s →
        s.workers = [] ∧ s.sent = [] ∧ s.producer = [] ∧ s.handled = [] ∧ s.acc = [] ∧
        (Terminal exampleHandle s → s.wg = 1)) ∧
    (∀ s, Reachable exampleHandle
        (initPool (gatherGroupStats exampleClient ["clustername1", "clustername2"]) []) s →
      Terminal exampleHandle s → s.wg = 1 ∧ s.script = []) :=
  ⟨(gatherGroupStats_signals_once exampleHandle disabledClient
      ["clustername1", "clustername2"] []).2.1 rfl rfl,
   (gatherGroupStats_signals_once exampleHandle exampleClient
      ["clustername1", "clustername2"] []).2.2.2.2 (Or.inl (by decide))⟩

/-- C9, as stated, fails: with both group statistics disabled `gatherGroupStats` sends no
address, although the cluster list has an element. -/
theorem gatherGroupStats_addresses_counterexample :
    sentAddresses (gatherGroupStats disabledClient ["clustername1"]) = [] ∧
    ["clustername1"].map
        (fun c => disabledClient.apiPrefix ++ "/" ++ PathEscape c ++ "/consumer")
      = ["http://burrow:8000/v2/kafka/clustername1/consumer"] ∧
    sentAddresses (gatherGroupStats disabledClient ["clustername1"])
      ≠ ["clustername1"].map
          (fun c => disabledClient.apiPrefix ++ "/" ++ PathEscape c ++ "/consumer") := by
  decide

/-- C9, amended: unless both group statistics are disabled (then nothing is sent),
`gatherGroupStats` sends exactly the addresses `apiPrefix/PathEscape(c)/consumer` for the
elements `c` of the cluster list, one per element and in order; `fetchGroup` sends exactly the
addresses `uri/PathEscape(g)/lag` for the elements `g` of
`whitelistSlice res.Groups limitGroups`, one per element and in order; in every state of a
run the addresses sent so far are a prefix of these, and all of them once the channel is
closed. An escaped name contains no `/`. -/
theorem gatherGroupStats_addresses (handle : String → Accumulator → Accumulator)
    (api : apiClient) (clusterList : List String) (res : apiResponse) (uri : String)
    (acc0 : Accumulator) :
    (¬ (api.disableGroupSummary = true ∧ api.disableGroupTopics = true) →
      sentAddresses (gatherGroupStats api clusterList)
        = clusterList.map (fun c => api.apiPrefix ++ "/" ++ PathEscape c ++ "/consumer") ∧
      ∀ s, Reachable handle (initPool (gatherGroupStats api clusterList) acc0) s →
        s.sent <+: clusterList.map
            (fun c => api.apiPrefix ++ "/" ++ PathEscape c ++ "/consumer") ∧
        (s.closed = true → s.sent = clusterList.map
            (fun c => api.apiPrefix ++ "/" ++ PathEscape c ++ "/consumer"))) ∧
    (api.disableGroupSummary = true ∧ api.disableGroupTopics = true →
      sentAddresses (gatherGroupStats api clusterList) = []) ∧
    (sentAddresses (fetchGroup api res uri)
        = (whitelistSlice res.Groups api.limitGroups).map
            (fun g => uri ++ "/" ++ PathEscape g ++ "/lag") ∧
      ∀ s, Reachable handle (initPool (fetchGroup api res uri) acc0) s →
        s.sent <+: (whitelistSlice res.Groups api.limitGroups).map
            (fun g => uri ++ "/" ++ PathEscape g ++ "/lag") ∧
        (s.closed = true → s.sent = (whitelistSlice res.Groups api.limitGroups).map
            (fun g => uri ++ "/" ++ PathEscape g ++ "/lag"))) ∧
    (∀ name : String, '/' ∉ (PathEscape name).toList) ∧
    PathEscape "a/b" = "a%2Fb" := by
  refine ⟨?_, ?_, ?_, slash_not_mem_PathEscape, by decide⟩
  · intro hd
    have hEq := gatherGroupStats_of_enabled api clusterList hd
    constructor
    · rw [hEq, sentAddresses_append, sentAddresses_poolOps]
      simp [sentAddresses, consumerAddress]
    · intro s hr
      rw [hEq] at hr
      have hi := PoolInv_Reachable handle _ _ _ 1 _ s (PoolInv_init _ _ _ 1 acc0) hr
      have hf := PoolInv_facts _ _ _ 1 s hi
      exact ⟨hf.2.2.1, fun hc => (hf.2.2.2.2.2.1 hc).1⟩
  · intro hd
    rw [gatherGroupStats_of_disabled api clusterList hd.1 hd.2]
    rfl
  · have hEq := fetchGroup_eq api res uri
    constructor
    · rw [hEq, sentAddresses_append, sentAddresses_poolOps]
      simp [sentAddresses, lagAddress]
    · intro s hr
      rw [hEq] at hr
      have hi := PoolInv_Reachable handle _ _ _ 0 _ s (PoolInv_init _ _ _ 0 acc0) hr
      have hf := PoolInv_facts _ _ _ 0 s hi
      exact ⟨hf.2.2.1, fun hc => (hf.2.2.2.2.2.1 hc).1⟩

theorem gatherGroupStats_addresses_witness :
    sentAddresses (gatherGroupStats exampleClient ["a/b", "c d"])
      = ["http://burrow:8000/v2/kafka/a%2Fb/consumer",
         "http://burrow:8000/v2/kafka/c%20d/consumer"] ∧
    sentAddresses (gatherGroupStats disabledClient ["a/b", "c d"]) = [] := by
  constructor
  · rw [((gatherGroupStats_addresses exampleHandle exampleClient ["a/b", "c d"]
      exampleResponse "uri" []).1 (by decide)).1]
    decide
  · exact (gatherGroupStats_addresses exampleHandle disabledClient ["a/b", "c d"]
      exampleResponse "uri" []).2.1 (by decide)

/-- C10, as stated, fails: with both group statistics disabled `gatherGroupStats` makes no
channel, sends nothing and awaits nothing, although the cluster list has length 1. -/
theorem pool_completion_count_counterexample :
    producerCaps (gatherGroupStats disabledClient ["clustername1"]) = [] ∧
    doneCaps (gatherGroupStats disabledClient ["clustername1"]) = [] ∧
    sentAddresses (gatherGroupStats disabledClient ["clustername1"]) = [] ∧
    (gatherGroupStats disabledClient ["clustername1"]).count Op.recvDone = 0 ∧
    ¬ CompletionCount ["clustername1"].length
        (gatherGroupStats disabledClient ["clustername1"]) := by
  refine ⟨by decide, by decide, by decide, by decide, ?_⟩
  intro h
  exact absurd h.1 (by decide)

/-- C10, amended: in `gatherGroupStats`, unless both group statistics are disabled (then no
channel is made and nothing is sent or awaited), for a cluster list of length `K`, and in
`fetchGroup` for a filtered group list of length `K`: both channels are made with capacity
`K`, exactly `K` addresses are sent, exactly `K` completion signals are received, and the
producer channel is closed after all of these; in every state of a run at most as many
signals have been received as addresses sent, at most `K` addresses have been sent, and once
the channel is closed exactly `K` addresses have been sent and `K` signals received. -/
theorem pool_completion_count (handle : String → Accumulator → Accumulator)
    (api : apiClient) (clusterList : List String) (res : apiResponse) (uri : String)
    (acc0 : Accumulator) :
    (¬ (api.disableGroupSummary = true ∧ api.disableGroupTopics = true) →
      CompletionCount clusterList.length (gatherGroupStats api clusterList) ∧
      ∀ s, Reachable handle (initPool (gatherGroupStats api clusterList) acc0) s →
        s.received ≤ s.sent.length ∧ s.sent.length ≤ clusterList.length ∧
        (s.sent ≠ [] → s.producerCap = clusterList.length ∧ s.doneCap = clusterList.length) ∧
        (s.closed = true → s.sent.length = clusterList.length ∧
          s.received = clusterList.length)) ∧
    (api.disableGroupSummary = true ∧ api.disableGroupTopics = true →
      producerCaps (gatherGroupStats api clusterList) = [] ∧
      doneCaps (gatherGroupStats api clusterList) = [] ∧
      sentAddresses (gatherGroupStats api clusterList) = [] ∧
      (gatherGroupStats api clusterList).count Op.recvDone = 0 ∧
      Op.closeProducer ∉ gatherGroupStats api clusterList) ∧
    (CompletionCount (whitelistSlice res.Groups api.limitGroups).length
        (fetchGroup api res uri) ∧
      ∀ s, Reachable handle (initPool (fetchGroup api res uri) acc0) s →
        s.received ≤ s.sent.length ∧
        s.sent.length ≤ (whitelistSlice res.Groups api.limitGroups).length ∧
        (s.sent ≠ [] → s.producerCap = (whitelistSlice res.Groups api.limitGroups).length ∧
          s.doneCap = (whitelistSlice res.Groups api.limitGroups).length) ∧
        (s.closed = true →
          s.sent.length = (whitelistSlice res.Groups api.limitGroups).length ∧
          s.received = (whitelistSlice res.Groups api.limitGroups).length)) := by
  have key : ∀ (W : Nat) (h : Handler) (addrs : List String) (t : Nat) (s : Pool),
      PoolInv W h addrs t s →
        s.received ≤ s.sent.length ∧ s.sent.length ≤ addrs.length ∧
        (s.sent ≠ [] → s.producerCap = addrs.length ∧ s.doneCap = addrs.length) ∧
        (s.closed = true → s.sent.length = addrs.length ∧ s.received = addrs.length) := by
    intro W h addrs t s hi
    have hf := PoolInv_facts W h addrs t s hi
    refine ⟨hf.2.2.2.2.1, hf.2.2.1.length_le, fun hs => ?_, fun hc => ?_⟩
    · exact ⟨(hf.2.2.2.2.2.2 hs).1, (hf.2.2.2.2.2.2 hs).2.1⟩
    · have := hf.2.2.2.2.2.1 hc
      exact ⟨by rw [this.1], this.2⟩
  refine ⟨?_, ?_, ?_⟩
  · intro hd
    have hEq := gatherGroupStats_of_enabled api clusterList hd
    constructor
    · have := CompletionCount_poolOps api.workerCount Handler.fetchGroup
        (clusterList.map (consumerAddress api.apiPrefix)) 1
      rw [List.length_map] at this
      rw [hEq]; exact this
    · intro s hr
      rw [hEq] at hr
      have hi := PoolInv_Reachable handle _ _ _ 1 _ s (PoolInv_init _ _ _ 1 acc0) hr
      have := key _ _ _ _ s hi
      rw [List.length_map] at this
      exact this
  · intro hd
    rw [gatherGroupStats_of_disabled api clusterList hd.1 hd.2]
    exact ⟨by decide, by decide, by decide, by decide, by decide⟩
  · have hEq := fetchGroup_eq api res uri
    constructor
    · have := CompletionCount_poolOps api.workerCount Handler.publishGroup
        ((whitelistSlice res.Groups api.limitGroups).map (lagAddress uri)) 0
      rw [List.length_map] at this
      rw [hEq]; exact this
    · intro s hr
      rw [hEq] at hr
      have hi := PoolInv_Reachable handle _ _ _ 0 _ s (PoolInv_init _ _ _ 0 acc0) hr
      have := key _ _ _ _ s hi
      rw [List.length_map] at this
      exact this

theorem pool_completion_count_witness :
    CompletionCount 2 (gatherGroupStats exampleClient ["clustername1", "clustername2"]) ∧
    producerCaps (gatherGroupStats disabledClient ["clustername1", "clustername2"]) = [] :=
  ⟨((pool_completion_count exampleHandle exampleClient ["clustername1", "clustername2"]
      exampleResponse "uri" []).1 (by decide)).1,
   ((pool_completion_count exampleHandle disabledClient ["clustername1", "clustername2"]
      exampleResponse "uri" []).2.1 (by decide)).1⟩

/-! ### The expectations of burrow_test.go -/

/-- The record that `TestGroupSummaryMeasurement` expects for `group1`. -/
theorem publishGroupSummary_group1 :
    publishGroupSummary exampleClient exampleResponse "uri" []
      = [⟨"burrow_group_summary",
          [("status", FieldValue.str "WARN"), ("status_code", FieldValue.int 3),
           ("maxlag.topic", FieldValue.str "topicA"), ("maxlag.parittion", FieldValue.int 0),
           ("maxlag.status", FieldValue.str "WARN"), ("maxlag.status_code", FieldValue.int 3),
           ("maxlag.start.offset", FieldValue.int 823889),
           ("maxlag.start.timestamp", FieldValue.int 1432423256000),
           ("maxlag.start.lag", FieldValue.int 20),
           ("maxlag.end.offset", FieldValue.int 824743),
           ("maxlag.end.timestamp", FieldValue.int 1432423796001),
           ("maxlag.end.lag", FieldValue.int 25)],
          [("cluster", "clustername1"), ("group", "group1")]⟩] := by
  decide

/-- The record that `TestGroupTopicMeasurement` expects for `group1`. -/
theorem publishGroupTopic_group1 :
    publishGroupTopic exampleClient exampleResponse "uri" []
      = [⟨"burrow_group_topic",
          [("start.offset", FieldValue.int 823889), ("start.lag", FieldValue.int 20),
           ("start.timestamp", FieldValue.int 1432423256000),
           ("end.offset", FieldValue.int 824743), ("end.lag", FieldValue.int 25),
           ("end.timestamp", FieldValue.int 1432423796001),
           ("status", FieldValue.str "WARN"), ("status_code", FieldValue.int 3)],
          [("cluster", "clustername1"), ("group", "group1"), ("topic", "topicA"),
           ("partition", "0")]⟩] := by
  decide

/-- Percent-escaping of a path segment on a few names. -/
theorem PathEscape_examples :
    PathEscape "a/b c" = "a%2Fb%20c" ∧ PathEscape "grp-1_x.y~z" = "grp-1_x.y~z" ∧
    PathEscape "é" = "%C3%A9" ∧ PathEscape "a:b@c,d;e?f" = "a:b@c%2Cd%3Be%3Ff" := by
  decide

/-- One run of `gatherGroupStats` over one cluster with two workers, to its end. -/
theorem gatherGroupStats_example_run :
    (runSchedule exampleHandle
      [Event.main, Event.main, Event.main, Event.main, Event.main,
       Event.worker 1, Event.worker 1, Event.worker 1,
       Event.main, Event.main, Event.main, Event.worker 0, Event.worker 1]
      (initPool (gatherGroupStats exampleClient ["c1"]) [])).map
        (fun s => (s.script, s.wg, s.workers, s.handled, s.received))
      = some ([], 1, [Worker.exited, Worker.exited],
          ["http://burrow:8000/v2/kafka/c1/consumer"], 1) := by
  decide

end Burrow

namespace Burrow

theorem flatMap_set_perm (f : Worker → List String) (ws : List Worker) (i : Nat)
    (w w' : Worker) (h : ws[i]? = some w) :
    (f w ++ (ws.set i w').flatMap f).Perm (f w' ++ ws.flatMap f) := by
  induction ws generalizing i with
  | nil => simp at h
  | cons x xs ih =>
    cases i with
    | zero =>
      simp only [List.getElem?_cons_zero, Option.some.injEq] at h
      subst h
      simp only [List.set_cons_zero, List.flatMap_cons]
      exact List.perm_append_comm_assoc _ _ _
    | succ j =>
      simp only [List.getElem?_cons_succ] at h
      simp only [List.set_cons_succ, List.flatMap_cons]
      refine (List.perm_append_comm_assoc _ _ _).trans ?_
      refine ((ih j h).append_left (f x)).trans ?_
      exact List.perm_append_comm_assoc _ _ _

theorem signalCount_set (ws : List Worker) (i : Nat) (w w' : Worker) (h : ws[i]? = some w) :
    signalCount (ws.set i w') + workerSignal w = signalCount ws + workerSignal w' :=
  sum_map_set workerSignal ws i w w' h

theorem HandledInv_init (handle : String → Accumulator → Accumulator) (script : List Op)
    (acc0 : Accumulator) : HandledInv handle acc0 (initPool script acc0) :=
  ⟨by simp [initPool, busyUris], by simp [initPool, signalCount], rfl⟩

theorem HandledInv_stepMain (handle : String → Accumulator → Accumulator) (acc0 : Accumulator)
    (s t : Pool) (hi : HandledInv handle acc0 s) (h : stepMain s = some t) :
    HandledInv handle acc0 t := by
  obtain ⟨hp, hc, ha⟩ := hi
  cases hs : s.script with
  | nil => simp [stepMain, hs] at h
  | cons op rest =>
    cases op with
    | makeProducer c =>
      simp only [stepMain, hs, Option.some.injEq] at h; subst h; exact ⟨hp, hc, ha⟩
    | makeDone c =>
      simp only [stepMain, hs, Option.some.injEq] at h; subst h; exact ⟨hp, hc, ha⟩
    | spawn hd =>
      simp only [stepMain, hs, Option.some.injEq] at h; subst h
      refine ⟨?_, ?_, ha⟩
      · simpa [busyUris, workerUri] using hp
      · simpa [signalCount, workerSignal] using hc
    | send a =>
      simp only [stepMain, hs] at h
      split at h
      · simp only [Option.some.injEq] at h; subst h
        refine ⟨?_, hc, ha⟩
        simp only
        rw [← List.append_assoc, ← List.append_assoc]
        refine List.Perm.append_right [a] ?_
        rw [List.append_assoc]; exact hp
      · cases h
    | recvDone =>
      simp only [stepMain, hs] at h
      split at h
      · simp only [Option.some.injEq] at h; subst h
        refine ⟨hp, ?_, ha⟩
        simp only; omega
      · cases h
    | closeProducer =>
      simp only [stepMain, hs, Option.some.injEq] at h; subst h; exact ⟨hp, hc, ha⟩
    | wgDone =>
      simp only [stepMain, hs, Option.some.injEq] at h; subst h; exact ⟨hp, hc, ha⟩

theorem HandledInv_stepWorker (handle : String → Accumulator → Accumulator)
    (acc0 : Accumulator) (s t : Pool) (i : Nat) (hi : HandledInv handle acc0 s)
    (h : stepWorker handle s i = some t) : HandledInv handle acc0 t := by
  obtain ⟨hp, hc, ha⟩ := hi
  cases hw : s.workers[i]? with
  | none => simp [stepWorker, hw] at h
  | some w =>
    cases w with
    | idle =>
      cases hpr : s.producer with
      | nil =>
        simp only [stepWorker, hw, hpr] at h
        split at h
        · simp only [Option.some.injEq] at h; subst h
          have h1 := flatMap_set_perm workerUri s.workers i _ Worker.exited hw
          have h2 := signalCount_set s.workers i _ Worker.exited hw
          simp only [workerUri, workerSignal, List.nil_append] at h1 h2
          rw [hpr] at hp
          refine ⟨?_, ?_, ha⟩
          · exact (List.Perm.append_left _ (List.Perm.append_right _ h1)).trans hp
          · simp only; omega
        · cases h
      | cons uri rest =>
        simp only [stepWorker, hw, hpr, Option.some.injEq] at h; subst h
        have h1 := flatMap_set_perm workerUri s.workers i _ (Worker.busy uri) hw
        have h2 := signalCount_set s.workers i _ (Worker.busy uri) hw
        simp only [workerUri, workerSignal, List.nil_append] at h1 h2
        rw [hpr] at hp
        refine ⟨?_, ?_, ha⟩
        · refine List.Perm.trans ?_ hp
          refine List.Perm.append_left _ ?_
          refine (List.Perm.append_right rest h1).trans ?_
          simp only [busyUris, List.singleton_append, List.cons_append]
          exact List.perm_middle.symm
        · simp only; omega
    | busy uri =>
      simp only [stepWorker, hw, Option.some.injEq] at h; subst h
      have h1 := flatMap_set_perm workerUri s.workers i _ Worker.signalling hw
      have h2 := signalCount_set s.workers i _ Worker.signalling hw
      simp only [workerUri, workerSignal, List.nil_append] at h1 h2
      refine ⟨?_, ?_, ?_⟩
      · refine List.Perm.trans ?_ hp
        simp only [List.append_assoc]
        refine List.Perm.append_left _ ?_
        rw [← List.append_assoc]
        exact List.Perm.append_right _ h1
      · simp only [List.length_append, List.length_singleton]; omega
      · simp only [List.foldl_append, List.foldl_cons, List.foldl_nil, ha]
    | signalling =>
      simp only [stepWorker, hw] at h
      split at h
      · simp only [Option.some.injEq] at h; subst h
        have h1 := flatMap_set_perm workerUri s.workers i _ Worker.idle hw
        have h2 := signalCount_set s.workers i _ Worker.idle hw
        simp only [workerUri, workerSignal, List.nil_append] at h1 h2
        refine ⟨?_, ?_, ha⟩
        · exact (List.Perm.append_left _ (List.Perm.append_right _ h1)).trans hp
        · simp only; omega
      · cases h
    | exited => simp [stepWorker, hw] at h

theorem HandledInv_Reachable (handle : String → Accumulator → Accumulator)
    (acc0 : Accumulator) (s t : Pool) (hi : HandledInv handle acc0 s)
    (hr : Reachable handle s t) : HandledInv handle acc0 t := by
  induction hr with
  | refl => exact hi
  | tail _ hstep ih =>
    obtain ⟨e, he⟩ := hstep
    cases e with
    | main => exact HandledInv_stepMain handle acc0 _ _ ih he
    | worker i => exact HandledInv_stepWorker handle acc0 _ _ i ih he

end Burrow

namespace Burrow

theorem PoolInv_closed_of_done (W : Nat) (h : Handler) (addrs : List String) (t : Nat)
    (s : Pool) (hi : PoolInv W h addrs t s) (hd : s.script = [] ∨ 0 < s.wg) :
    s.closed = true := by
  obtain ⟨_, hp⟩ := hi
  cases hp with
  | start script _ _ _ _ wg =>
    rcases hd with hd | hd
    · rw [hd] at script; cases script
    · omega
  | made script _ _ _ _ _ wg =>
    rcases hd with hd | hd
    · rw [hd] at script; cases script
    · omega
  | running w as r script _ _ _ _ _ _ _ _ wg =>
    rcases hd with hd | hd
    · rw [hd] at script; simp [block] at script
    · omega
  | closing j _ _ closed _ _ _ _ _ => exact closed

theorem handled_facts (handle : String → Accumulator → Accumulator) (W : Nat) (h : Handler)
    (addrs : List String) (t : Nat) (acc0 : Accumulator) (s : Pool)
    (hi : PoolInv W h addrs t s) (hh : HandledInv handle acc0 s) :
    s.handled.length ≤ addrs.length ∧ s.received ≤ s.handled.length ∧
      (s.closed = true → s.handled.Perm addrs) := by
  have hf := PoolInv_facts W h addrs t s hi
  have hlen := hh.perm.length_eq
  simp only [List.length_append] at hlen
  have hsent := hf.2.2.1.length_le
  refine ⟨by omega, by have := hh.count; omega, fun hc => ?_⟩
  obtain ⟨hs, hr⟩ := hf.2.2.2.2.2.1 hc
  have hcount := hh.count
  have hs' := congrArg List.length hs
  have hb : busyUris s.workers ++ s.producer = [] :=
    List.length_eq_zero.mp (by simp only [List.length_append]; omega)
  have hp := hh.perm
  rw [hb, List.append_nil, hs] at hp
  exact hp

theorem PoolInv_main_of_empty (W : Nat) (h : Handler) (t : Nat) (s : Pool)
    (hi : PoolInv W h [] t s) (hne : s.script ≠ []) : ∃ s', stepMain s = some s' := by
  obtain ⟨_, hp⟩ := hi
  cases hp with
  | start script _ _ _ _ _ =>
    exact stepMain_isSome_of_head s _ _ script (fun a ha => by cases ha) (fun ha => by cases ha)
  | made script _ _ _ _ _ _ =>
    exact stepMain_isSome_of_head s _ _ script (fun a ha => by cases ha) (fun ha => by cases ha)
  | running w as r script _ _ _ sent received _ _ _ _ =>
    have has : as = [] := (List.append_eq_nil.mp sent).2
    have hr : r = 0 := by simp only [List.length_nil] at received; omega
    subst has; subst hr
    cases w with
    | succ w' =>
      rw [block_spawn] at script
      exact stepMain_isSome_of_head s _ _ script (fun a ha => by cases ha)
        (fun ha => by cases ha)
    | zero =>
      rw [block_close] at script
      exact stepMain_isSome_of_head s _ _ script (fun a ha => by cases ha)
        (fun ha => by cases ha)
  | closing j script _ _ _ _ _ _ _ =>
    cases j with
    | zero => exact absurd script hne
    | succ j' =>
      rw [List.replicate_succ] at script
      exact stepMain_isSome_of_head s _ _ script (fun a ha => by cases ha)
        (fun ha => by cases ha)

theorem IdleInv_main (t : Nat) (acc0 : Accumulator) (s : Pool) (hi : IdleInv t acc0 s)
    (hne : s.script ≠ []) : ∃ s', stepMain s = some s' := by
  obtain ⟨j, hscript, _⟩ := hi.script
  cases j with
  | zero => exact absurd hscript hne
  | succ j' =>
    rw [List.replicate_succ] at hscript
    exact stepMain_isSome_of_head s _ _ hscript (fun a ha => by cases ha)
      (fun ha => by cases ha)

theorem script_nil_of_terminal_of_main (handle : String → Accumulator → Accumulator) (s : Pool)
    (hmain : s.script ≠ [] → ∃ s', stepMain s = some s') (hterm : Terminal handle s) :
    s.script = [] := by
  by_contra hne
  obtain ⟨s', hs'⟩ := hmain hne
  exact hterm s' ⟨Event.main, hs'⟩

end Burrow

namespace Burrow

theorem sentAddresses_wgDones (t : Nat) : sentAddresses (List.replicate t Op.wgDone) = [] := by
  induction t with
  | zero => rfl
  | succ n ih => rw [List.replicate_succ]; simp [sentAddresses]

/-- Every run of a pool over `addrs`: the log of handled addresses never exceeds the
addresses, the signals received never exceed the handled addresses, once the orchestrating
goroutine is past its receives every address has been handled exactly as often as it was
sent, and with a worker (or nothing to do) a run ends only with the script finished and all
workers returned. -/
theorem pool_run_handled (handle : String → Accumulator → Accumulator) (c : Int) (h : Handler)
    (addrs : List String) (t : Nat) (acc0 : Accumulator) (s : Pool)
    (hr : Reachable handle (initPool (poolOps c h addrs ++ List.replicate t Op.wgDone) acc0) s) :
    s.handled.length ≤ addrs.length ∧ s.received ≤ s.handled.length ∧
      (s.script = [] ∨ 0 < s.wg ∨ s.closed = true → s.handled.Perm addrs) ∧
      s.acc = s.handled.foldl (fun a uri => handle uri a) acc0 ∧
      (1 ≤ c ∨ addrs = [] → Terminal handle s →
        s.script = [] ∧ ∀ w ∈ s.workers, w = Worker.exited) := by
  have hi := PoolInv_Reachable handle _ _ _ t _ s (PoolInv_init c h addrs t acc0) hr
  have hh := HandledInv_Reachable handle acc0 _ s (HandledInv_init handle _ acc0) hr
  have hf := handled_facts handle _ h addrs t acc0 s hi hh
  refine ⟨hf.1, hf.2.1, ?_, hh.acc, ?_⟩
  · intro hd
    apply hf.2.2
    rcases hd with hd | hd | hd
    · exact PoolInv_closed_of_done _ h addrs t s hi (Or.inl hd)
    · exact PoolInv_closed_of_done _ h addrs t s hi (Or.inr hd)
    · exact hd
  · intro hW hterm
    have hW' : 1 ≤ loopCount c ∨ addrs = [] := by
      rcases hW with hW | hW
      · exact Or.inl (one_le_loopCount c hW)
      · exact Or.inr hW
    have := PoolInv_terminal handle _ h addrs t s hi hW' hterm
    exact ⟨this.1, this.2.2.2.2.2.2.2.2⟩

/-- Every run of a goroutine that only calls `wg.Done()`. -/
theorem idle_run (handle : String → Accumulator → Accumulator) (t : Nat)
    (acc0 : Accumulator) (s : Pool)
    (hr : Reachable handle (initPool (List.replicate t Op.wgDone) acc0) s) :
    s.handled = [] ∧ s.sent = [] ∧ s.workers = [] ∧ s.acc = acc0 ∧ s.received ≤ 0 ∧
      (s.script ≠ [] → ∃ s', stepMain s = some s') ∧
      (Terminal handle s → s.script = []) := by
  have hi := IdleInv_Reachable handle t acc0 _ s (IdleInv_init t acc0) hr
  have hh := HandledInv_Reachable handle acc0 _ s (HandledInv_init handle _ acc0) hr
  have hrec : s.received ≤ 0 := by
    have := hh.count
    rw [hi.handled] at this
    simp only [List.length_nil] at this
    omega
  exact ⟨hi.handled, hi.sent, hi.workers, hi.acc, hrec, IdleInv_main t acc0 s hi,
    script_nil_of_terminal_of_main handle s (IdleInv_main t acc0 s hi)⟩

/-- C11: with at least one worker, in every run of `gatherGroupStats` and of `fetchGroup`,
whatever the handler does with an address (also when its fetch fails and it adds nothing):
at no time have more addresses been handled than were enqueued, and a completion signal is
received only for a handled address; once the orchestrating goroutine is past its receives
(its operations are finished, or it has called `wg.Done()`), the handled addresses are the
enqueued addresses, each handled exactly as often as it was enqueued, so the handler has run
exactly `K` times; every run ends, and it ends only with the operations finished and every
worker returned, also when there are more workers than addresses. -/
theorem pool_handles_each_once (handle : String → Accumulator → Accumulator)
    (api : apiClient) (clusterList : List String) (res : apiResponse) (uri : String)
    (acc0 : Accumulator) (hW : 1 ≤ api.workerCount) :
    (∀ s, Reachable handle (initPool (gatherGroupStats api clusterList) acc0) s →
      s.handled.length ≤ (sentAddresses (gatherGroupStats api clusterList)).length ∧
      s.received ≤ s.handled.length ∧
      (s.script = [] ∨ 0 < s.wg →
        s.handled.Perm (sentAddresses (gatherGroupStats api clusterList)) ∧
        s.handled.length = (sentAddresses (gatherGroupStats api clusterList)).length) ∧
      (Terminal handle s → s.script = [] ∧ ∀ w ∈ s.workers, w = Worker.exited) ∧
      ∃ s', Reachable handle s s' ∧ Terminal handle s') ∧
    (∀ s, Reachable handle (initPool (fetchGroup api res uri) acc0) s →
      s.handled.length ≤ (sentAddresses (fetchGroup api res uri)).length ∧
      s.received ≤ s.handled.length ∧
      (s.script = [] →
        s.handled.Perm (sentAddresses (fetchGroup api res uri)) ∧
        s.handled.length = (sentAddresses (fetchGroup api res uri)).length) ∧
      (Terminal handle s → s.script = [] ∧ ∀ w ∈ s.workers, w = Worker.exited) ∧
      ∃ s', Reachable handle s s' ∧ Terminal handle s') := by
  constructor
  · intro s hr
    by_cases hd : api.disableGroupSummary = true ∧ api.disableGroupTopics = true
    · have hEq := gatherGroupStats_of_disabled api clusterList hd.1 hd.2
      rw [hEq] at hr ⊢
      have hi := idle_run handle 1 acc0 s hr
      rw [sentAddresses_wgDones, hi.1]
      exact ⟨Nat.le_refl _, hi.2.2.2.2.1, fun _ => ⟨List.Perm.refl _, rfl⟩,
        fun hterm => ⟨hi.2.2.2.2.2.2 hterm, by rw [hi.2.2.1]; intro w hw; cases hw⟩,
        exists_terminal handle s⟩
    · have hEq := gatherGroupStats_of_enabled api clusterList hd
      rw [hEq] at hr ⊢
      have hp := pool_run_handled handle _ _ _ 1 acc0 s hr
      rw [sentAddresses_append, sentAddresses_poolOps, sentAddresses_wgDones, List.append_nil]
      refine ⟨hp.1, hp.2.1, fun hdone => ?_, hp.2.2.2.2 (Or.inl hW), exists_terminal handle s⟩
      have hperm := hp.2.2.1 (by rcases hdone with h1 | h1
                                 · exact Or.inl h1
                                 · exact Or.inr (Or.inl h1))
      exact ⟨hperm, hperm.length_eq⟩
  · intro s hr
    have hEq := fetchGroup_eq api res uri
    rw [hEq] at hr ⊢
    have hp := pool_run_handled handle _ _ _ 0 acc0 s hr
    rw [sentAddresses_append, sentAddresses_poolOps, sentAddresses_wgDones, List.append_nil]
    refine ⟨hp.1, hp.2.1, fun hdone => ?_, hp.2.2.2.2 (Or.inl hW), exists_terminal handle s⟩
    have hperm := hp.2.2.1 (Or.inl hdone)
    exact ⟨hperm, hperm.length_eq⟩

theorem pool_handles_each_once_witness :
    1 ≤ exampleClient.workerCount ∧
    ∀ s, Reachable exampleHandle
        (initPool (gatherGroupStats exampleClient ["clustername1", "clustername2"]) []) s →
      s.script = [] →
        s.handled.Perm ["http://burrow:8000/v2/kafka/clustername1/consumer",
          "http://burrow:8000/v2/kafka/clustername2/consumer"] := by
  refine ⟨by decide, ?_⟩
  intro s hr hs
  have h := ((pool_handles_each_once exampleHandle exampleClient
    ["clustername1", "clustername2"] exampleResponse "uri" [] (by decide)).1 s hr).2.2.1
    (Or.inl hs)
  have he : sentAddresses (gatherGroupStats exampleClient ["clustername1", "clustername2"])
      = ["http://burrow:8000/v2/kafka/clustername1/consumer",
          "http://burrow:8000/v2/kafka/clustername2/consumer"] := by decide
  rw [he] at h
  exact h.1

/-- C13: when the cluster list of `gatherGroupStats`, or the filtered group list of
`fetchGroup`, is empty, then for every worker count the operations contain no send and no
receive of a completion signal, and in every state of every run no address has been sent,
no address has been handled (so there is no fetch and no fetch error), no completion signal
has been received, the accumulator is unchanged, and the orchestrating goroutine is never
blocked: while it has an operation left, that operation can be performed; a run ends only
with the operations finished and every worker returned. -/
theorem empty_level_noop (handle : String → Accumulator → Accumulator)
    (api : apiClient) (clusterList : List String) (res : apiResponse) (uri : String)
    (acc0 : Accumulator) :
    (clusterList = [] →
      sentAddresses (gatherGroupStats api clusterList) = [] ∧
      (gatherGroupStats api clusterList).count Op.recvDone = 0 ∧
      ∀ s, Reachable handle (initPool (gatherGroupStats api clusterList) acc0) s →
        s.sent = [] ∧ s.handled = [] ∧ s.received = 0 ∧ s.acc = acc0 ∧
        (s.script ≠ [] → ∃ s', stepMain s = some s') ∧
        (Terminal handle s → s.script = [] ∧ ∀ w ∈ s.workers, w = Worker.exited) ∧
        ∃ s', Reachable handle s s' ∧ Terminal handle s') ∧
    (whitelistSlice res.Groups api.limitGroups = [] →
      sentAddresses (fetchGroup api res uri) = [] ∧
      (fetchGroup api res uri).count Op.recvDone = 0 ∧
      ∀ s, Reachable handle (initPool (fetchGroup api res uri) acc0) s →
        s.sent = [] ∧ s.handled = [] ∧ s.received = 0 ∧ s.acc = acc0 ∧
        (s.script ≠ [] → ∃ s', stepMain s = some s') ∧
        (Terminal handle s → s.script = [] ∧ ∀ w ∈ s.workers, w = Worker.exited) ∧
        ∃ s', Reachable handle s s' ∧ Terminal handle s') := by
  have key : ∀ (c : Int) (h : Handler) (t : Nat) (s : Pool),
      Reachable handle (initPool (poolOps c h [] ++ List.replicate t Op.wgDone) acc0) s →
        s.sent = [] ∧ s.handled = [] ∧ s.received = 0 ∧ s.acc = acc0 ∧
        (s.script ≠ [] → ∃ s', stepMain s = some s') ∧
        (Terminal handle s → s.script = [] ∧ ∀ w ∈ s.workers, w = Worker.exited) ∧
        ∃ s', Reachable handle s s' ∧ Terminal handle s' := by
    intro c h t s hr
    have hi := PoolInv_Reachable handle _ _ _ t _ s (PoolInv_init c h [] t acc0) hr
    have hp := pool_run_handled handle c h [] t acc0 s hr
    have hf := PoolInv_facts _ h [] t s hi
    have hsent : s.sent = [] := List.prefix_nil.mp hf.2.2.1
    have hhandled : s.handled = [] := List.length_eq_zero.mp (Nat.le_zero.mp hp.1)
    refine ⟨hsent, hhandled, Nat.le_zero.mp hf.2.2.2.1, ?_,
      PoolInv_main_of_empty _ h t s hi, hp.2.2.2.2 (Or.inr rfl), exists_terminal handle s⟩
    rw [hp.2.2.2.1, hhandled]; rfl
  constructor
  · intro hnil
    subst hnil
    by_cases hd : api.disableGroupSummary = true ∧ api.disableGroupTopics = true
    · have hEq := gatherGroupStats_of_disabled api [] hd.1 hd.2
      rw [hEq]
      refine ⟨by decide, by decide, fun s hr => ?_⟩
      have hi := idle_run handle 1 acc0 s hr
      exact ⟨hi.2.1, hi.1, Nat.le_zero.mp hi.2.2.2.2.1, hi.2.2.2.1, hi.2.2.2.2.2.1,
        fun hterm => ⟨hi.2.2.2.2.2.2 hterm, by rw [hi.2.2.1]; intro w hw; cases hw⟩,
        exists_terminal handle s⟩
    · have hEq := gatherGroupStats_of_enabled api [] hd
      rw [hEq]
      refine ⟨?_, ?_, fun s hr => key _ _ 1 s hr⟩
      · rw [sentAddresses_append, sentAddresses_poolOps, sentAddresses_wgDones]; rfl
      · simp [poolOps, List.count_append, List.count_replicate]
  · intro hnil
    have hEq := fetchGroup_eq api res uri
    rw [hEq, hnil]
    refine ⟨?_, ?_, fun s hr => key _ _ 0 s hr⟩
    · rw [sentAddresses_append, sentAddresses_poolOps, sentAddresses_wgDones]; rfl
    · simp [poolOps, List.count_append, List.count_replicate]

theorem empty_level_noop_witness :
    sentAddresses (gatherGroupStats exampleClient []) = [] ∧
    ∀ s, Reachable exampleHandle (initPool (gatherGroupStats exampleClient []) []) s →
      s.sent = [] ∧ s.handled = [] ∧ s.received = 0 ∧ s.acc = [] :=
  ⟨((empty_level_noop exampleHandle exampleClient [] exampleResponse "uri" []).1 rfl).1,
   fun s hr =>
    have h := ((empty_level_noop exampleHandle exampleClient [] exampleResponse "uri" []).1
      rfl).2.2 s hr
    ⟨h.1, h.2.1, h.2.2.1, h.2.2.2.1⟩⟩

end Burrow

namespace Burrow

/-! ### Percent-escaping is injective -/

theorem flatMap_injective_of_prefix_free {α β : Type} (f : α → List β) (S : α → Prop)
    (hfree : ∀ a b, S a → S b → ∀ x y, f a ++ x = f b ++ y → a = b)
    (hne : ∀ a, S a → f a ≠ []) :
    ∀ l₁ l₂ : List α, (∀ a ∈ l₁, S a) → (∀ a ∈ l₂, S a) →
      l₁.flatMap f = l₂.flatMap f → l₁ = l₂ := by
  intro l₁
  induction l₁ with
  | nil =>
    intro l₂ _ h₂ h
    cases l₂ with
    | nil => rfl
    | cons b l₂' =>
      simp only [List.flatMap_nil, List.flatMap_cons] at h
      have := (List.append_eq_nil.mp h.symm).1
      exact absurd this (hne b (h₂ b (List.mem_cons_self _ _)))
  | cons a l₁' ih =>
    intro l₂ h₁ h₂ h
    cases l₂ with
    | nil =>
      simp only [List.flatMap_nil, List.flatMap_cons] at h
      have := (List.append_eq_nil.mp h).1
      exact absurd this (hne a (h₁ a (List.mem_cons_self _ _)))
    | cons b l₂' =>
      simp only [List.flatMap_cons] at h
      have hab : a = b := hfree a b (h₁ a (List.mem_cons_self _ _))
        (h₂ b (List.mem_cons_self _ _)) _ _ h
      subst hab
      have htail := List.append_cancel_left h
      rw [ih l₂' (fun x hx => h₁ x (List.mem_cons_of_mem _ hx))
        (fun x hx => h₂ x (List.mem_cons_of_mem _ hx)) htail]

theorem char_toNat_lt (c : Char) : c.toNat < 0x110000 := by
  have h := c.valid
  simp only [UInt32.isValidChar, Nat.isValidChar] at h
  show c.val.toNat < 0x110000
  omega

theorem char_eq_of_toNat_eq (c d : Char) (h : c.toNat = d.toNat) : c = d := by
  rw [← Char.ofNat_toNat c, ← Char.ofNat_toNat d, h]

theorem utf8Bytes_ne_nil (c : Char) : utf8Bytes c ≠ [] := by
  unfold utf8Bytes
  simp only
  split_ifs <;> simp

theorem utf8Bytes_lt (c : Char) : ∀ b ∈ utf8Bytes c, b < 256 := by
  have hc := char_toNat_lt c
  intro b hb
  unfold utf8Bytes at hb
  simp only at hb
  split_ifs at hb <;> simp only [List.mem_cons, List.mem_singleton, List.not_mem_nil,
    or_false] at hb <;> omega

theorem utf8Bytes_prefix_free (c d : Char) (x y : List Nat)
    (h : utf8Bytes c ++ x = utf8Bytes d ++ y) : c = d := by
  have hc := char_toNat_lt c
  have hd := char_toNat_lt d
  apply char_eq_of_toNat_eq
  unfold utf8Bytes at h
  simp only at h
  split_ifs at h <;> simp only [List.cons_append, List.nil_append, List.cons.injEq] at h <;>
    omega

theorem upperhex_injective : ∀ i < 16, ∀ j < 16, upperhex i = upperhex j → i = j := by
  decide

theorem ofNat_ne_percent_of_kept : ∀ b < 127, shouldEscape b = false → Char.ofNat b ≠ '%' := by
  decide

theorem toNat_ofNat_of_lt : ∀ b < 127, (Char.ofNat b).toNat = b := by
  decide

theorem escapeByte_ne_nil (b : Nat) : escapeByte b ≠ [] := by
  unfold escapeByte
  split_ifs <;> simp

theorem escapeByte_prefix_free (a b : Nat) (ha : a < 256) (hb : b < 256) (x y : List Char)
    (h : escapeByte a ++ x = escapeByte b ++ y) : a = b := by
  unfold escapeByte at h
  by_cases hea : shouldEscape a = true
  · by_cases heb : shouldEscape b = true
    · simp only [hea, heb, if_true, List.cons_append, List.nil_append, List.cons.injEq,
        true_and] at h
      have h1 := upperhex_injective (a / 16) (by omega) (b / 16) (by omega) h.1
      have h2 := upperhex_injective (a % 16) (by omega) (b % 16) (by omega) h.2.1
      omega
    · have hfb : shouldEscape b = false := by simpa using heb
      simp only [hea, hfb, if_true, Bool.false_eq_true, if_false, List.cons_append,
        List.nil_append, List.cons.injEq] at h
      exact absurd h.1.symm (ofNat_ne_percent_of_kept b (shouldEscape_false_lt b hfb) hfb)
  · have hfa : shouldEscape a = false := by simpa using hea
    by_cases heb : shouldEscape b = true
    · simp only [hfa, heb, if_true, Bool.false_eq_true, if_false, List.cons_append,
        List.nil_append, List.cons.injEq] at h
      exact absurd h.1 (ofNat_ne_percent_of_kept a (shouldEscape_false_lt a hfa) hfa)
    · have hfb : shouldEscape b = false := by simpa using heb
      simp only [hfa, hfb, Bool.false_eq_true, if_false, List.cons_append,
        List.nil_append, List.cons.injEq] at h
      have := congrArg Char.toNat h.1
      rwa [toNat_ofNat_of_lt a (shouldEscape_false_lt a hfa),
        toNat_ofNat_of_lt b (shouldEscape_false_lt b hfb)] at this

/-- Distinct names have distinct percent-escaped forms. -/
theorem PathEscape_injective (s t : String) (h : PathEscape s = PathEscape t) : s = t := by
  have h1 : (s.toList.flatMap utf8Bytes).flatMap escapeByte
      = (t.toList.flatMap utf8Bytes).flatMap escapeByte := congrArg String.data h
  have hbytes : ∀ u : String, ∀ b ∈ u.toList.flatMap utf8Bytes, b < 256 := by
    intro u b hb
    obtain ⟨c, _, hc⟩ := List.mem_flatMap.mp hb
    exact utf8Bytes_lt c b hc
  have h2 := flatMap_injective_of_prefix_free escapeByte (fun b => b < 256)
    (fun a b ha hb x y hxy => escapeByte_prefix_free a b ha hb x y hxy)
    (fun a _ => escapeByte_ne_nil a) _ _ (hbytes s) (hbytes t) h1
  have h3 := flatMap_injective_of_prefix_free utf8Bytes (fun _ => True)
    (fun a b _ _ x y hxy => utf8Bytes_prefix_free a b x y hxy)
    (fun a _ => utf8Bytes_ne_nil a) _ _ (fun _ _ => trivial) (fun _ _ => trivial) h2
  exact String.ext h3

theorem consumerAddress_injective (apiPrefix : String) :
    Function.Injective (consumerAddress apiPrefix) := by
  intro a b h
  have hd := congrArg String.data h
  simp only [consumerAddress, String.data_append] at hd
  have h1 := List.append_cancel_right hd
  have h2 := List.append_cancel_left h1
  exact PathEscape_injective a b (String.ext h2)

theorem lagAddress_injective (uri : String) : Function.Injective (lagAddress uri) := by
  intro a b h
  have hd := congrArg String.data h
  simp only [lagAddress, String.data_append] at hd
  have h1 := List.append_cancel_right hd
  have h2 := List.append_cancel_left h1
  exact PathEscape_injective a b (String.ext h2)

theorem whitelistSlice_nodup (C A : List String) (h : C.Nodup) : (whitelistSlice C A).Nodup := by
  cases A with
  | nil => exact h
  | cons a as =>
    simp only [whitelistSlice]
    rw [whitelistSlice_go_eq_filter]
    exact h.filter _

/-- C12, as stated, fails: a cluster name that occurs twice in the list is enqueued twice,
under the same address. -/
theorem addresses_distinct_counterexample :
    sentAddresses (gatherGroupStats exampleClient ["clustername1", "clustername1"])
      = ["http://burrow:8000/v2/kafka/clustername1/consumer",
         "http://burrow:8000/v2/kafka/clustername1/consumer"] ∧
    ¬ (sentAddresses (gatherGroupStats exampleClient ["clustername1", "clustername1"])).Nodup := by
  decide

/-- C12, amended: the addresses enqueued by `gatherGroupStats` are pairwise distinct exactly
when the names of the cluster list are (or nothing is enqueued, both statistics being
disabled), and the addresses enqueued by `fetchGroup` are pairwise distinct exactly when the
names of the filtered group list are, which is the case when those of `res.Groups` are;
distinct names always give distinct addresses, percent-escaping being injective. Nothing
removes a repeated name: unless both statistics are disabled, `gatherGroupStats` enqueues the
address of a cluster as many times as its name occurs in the cluster list, and `fetchGroup`
enqueues the address of a group as many times as its name occurs in the filtered group
list. -/
theorem addresses_distinct (api : apiClient) (clusterList : List String) (res : apiResponse)
    (uri : String) :
    (clusterList.Nodup → (sentAddresses (gatherGroupStats api clusterList)).Nodup) ∧
    (¬ (api.disableGroupSummary = true ∧ api.disableGroupTopics = true) →
      ((sentAddresses (gatherGroupStats api clusterList)).Nodup ↔ clusterList.Nodup)) ∧
    ((sentAddresses (fetchGroup api res uri)).Nodup
      ↔ (whitelistSlice res.Groups api.limitGroups).Nodup) ∧
    (res.Groups.Nodup → (sentAddresses (fetchGroup api res uri)).Nodup) ∧
    (∀ a b : String, a ≠ b →
      api.apiPrefix ++ "/" ++ PathEscape a ++ "/consumer"
        ≠ api.apiPrefix ++ "/" ++ PathEscape b ++ "/consumer" ∧
      uri ++ "/" ++ PathEscape a ++ "/lag" ≠ uri ++ "/" ++ PathEscape b ++ "/lag") ∧
    (api.disableGroupSummary = true ∧ api.disableGroupTopics = true →
      sentAddresses (gatherGroupStats api clusterList) = []) ∧
    (¬ (api.disableGroupSummary = true ∧ api.disableGroupTopics = true) →
      ∀ cluster : String,
        (sentAddresses (gatherGroupStats api clusterList)).count
            (api.apiPrefix ++ "/" ++ PathEscape cluster ++ "/consumer")
          = clusterList.count cluster) ∧
    (∀ group : String,
      (sentAddresses (fetchGroup api res uri)).count
          (uri ++ "/" ++ PathEscape group ++ "/lag")
        = (whitelistSlice res.Groups api.limitGroups).count group) := by
  have hg : ¬ (api.disableGroupSummary = true ∧ api.disableGroupTopics = true) →
      sentAddresses (gatherGroupStats api clusterList)
        = clusterList.map (consumerAddress api.apiPrefix) := by
    intro hd
    rw [gatherGroupStats_of_enabled api clusterList hd, sentAddresses_append,
      sentAddresses_poolOps]
    simp [sentAddresses]
  have hf : sentAddresses (fetchGroup api res uri)
      = (whitelistSlice res.Groups api.limitGroups).map (lagAddress uri) := by
    rw [fetchGroup_eq, sentAddresses_append, sentAddresses_poolOps]
    simp [sentAddresses]
  refine ⟨?_, ?_, ?_, ?_, ?_, ?_, ?_, ?_⟩
  · intro hn
    by_cases hd : api.disableGroupSummary = true ∧ api.disableGroupTopics = true
    · rw [gatherGroupStats_of_disabled api clusterList hd.1 hd.2]
      exact List.nodup_nil
    · rw [hg hd]
      exact hn.map (consumerAddress_injective api.apiPrefix)
  · intro hd
    rw [hg hd]
    exact List.nodup_map_iff (consumerAddress_injective api.apiPrefix)
  · rw [hf]
    exact List.nodup_map_iff (lagAddress_injective uri)
  · intro hn
    rw [hf]
    exact (whitelistSlice_nodup _ _ hn).map (lagAddress_injective uri)
  · intro a b hab
    exact ⟨fun h => hab (consumerAddress_injective api.apiPrefix h),
      fun h => hab (lagAddress_injective uri h)⟩
  · intro hd
    rw [gatherGroupStats_of_disabled api clusterList hd.1 hd.2]
    rfl
  · intro hd cluster
    rw [hg hd]
    exact List.count_map_of_injective clusterList (consumerAddress api.apiPrefix)
      (consumerAddress_injective api.apiPrefix) cluster
  · intro group
    rw [hf]
    exact List.count_map_of_injective _ (lagAddress uri) (lagAddress_injective uri) group

theorem addresses_distinct_witness :
    (["a/b", "a%2Fb"].Nodup ∧
      (sentAddresses (gatherGroupStats exampleClient ["a/b", "a%2Fb"])).Nodup) ∧
    (groupsResponse.Groups.Nodup ∧
      sentAddresses (fetchGroup exampleClient groupsResponse "uri")
        = ["uri/group1/lag", "uri/group2/lag"] ∧
      (sentAddresses (fetchGroup exampleClient groupsResponse "uri")).Nodup) ∧
    (¬ (exampleClient.disableGroupSummary = true ∧ exampleClient.disableGroupTopics = true) ∧
      (sentAddresses (gatherGroupStats exampleClient ["clustername1", "clustername1"])).count
          (exampleClient.apiPrefix ++ "/" ++ PathEscape "clustername1" ++ "/consumer") = 2) ∧
    ((disabledClient.disableGroupSummary = true ∧ disabledClient.disableGroupTopics = true) ∧
      sentAddresses (gatherGroupStats disabledClient ["clustername1", "clustername1"]) = []) ∧
    (whitelistSlice repeatedGroupsResponse.Groups exampleClient.limitGroups
        = ["group1", "group1"] ∧
      (sentAddresses (fetchGroup exampleClient repeatedGroupsResponse "uri")).count
          ("uri" ++ "/" ++ PathEscape "group1" ++ "/lag") = 2) :=
  ⟨⟨by decide,
    (addresses_distinct exampleClient ["a/b", "a%2Fb"] groupsResponse "uri").1 (by decide)⟩,
   ⟨by decide, by decide,
    (addresses_distinct exampleClient ["a/b", "a%2Fb"] groupsResponse "uri").2.2.2.1
      (by decide)⟩,
   ⟨by decide,
    ((addresses_distinct exampleClient ["clustername1", "clustername1"] groupsResponse
      "uri").2.2.2.2.2.2.1 (by decide) "clustername1").trans (by decide)⟩,
   ⟨by decide,
    (addresses_distinct disabledClient ["clustername1", "clustername1"] groupsResponse
      "uri").2.2.2.2.2.1 (by decide)⟩,
   ⟨by decide,
    ((addresses_distinct exampleClient [] repeatedGroupsResponse
      "uri").2.2.2.2.2.2.2 "group1").trans (by decide)⟩⟩

end Burrow

namespace NginxUpstreamCheck

/-! ### nginx_upstream_check -/

theorem foldl_AddFields (address : URL) (servers : List NginxUpstreamCheckServer) :
    ∀ acc : Accumulator,
      servers.foldl (fun acc server =>
          AddFields acc "nginx_upstream_check" (getFields server) (getTags server address)) acc
        = { acc with metrics := acc.metrics ++ servers.map (fun server =>
            ⟨"nginx_upstream_check", getFields server, getTags server address⟩) } := by
  induction servers with
  | nil => intro acc; simp
  | cons s rest ih =>
    intro acc
    rw [List.foldl_cons, ih]
    simp [AddFields]

theorem gatherStatusURL_errors (w : World) (body : String) (address : URL) (acc : Accumulator) :
    (gatherStatusURL w body address acc).2.errors = acc.errors ∧
    ∀ acc' : Accumulator,
      (gatherStatusURL w body address acc').1 = (gatherStatusURL w body address acc).1 := by
  unfold gatherStatusURL
  cases w.decode body with
  | none => exact ⟨rfl, fun _ => rfl⟩
  | some d => exact ⟨by simp only [foldl_AddFields], fun _ => rfl⟩

theorem gatherURL_errors (w : World) (address : URL) (acc : Accumulator) :
    (gatherURL w address acc).2.errors = acc.errors ∧
    ∀ acc' : Accumulator, (gatherURL w address acc').1 = (gatherURL w address acc).1 := by
  unfold gatherURL
  cases w.get address.text with
  | error e => exact ⟨rfl, fun _ => rfl⟩
  | ok r =>
    simp only
    split_ifs
    · exact ⟨rfl, fun _ => rfl⟩
    · exact gatherStatusURL_errors w r.Body address acc
    · exact ⟨rfl, fun _ => rfl⟩

theorem AddError_errors (acc : Accumulator) (err : Option String) :
    (AddError acc err).errors = acc.errors ++ err.toList := by
  cases err with
  | none => simp [AddError]
  | some e => simp [AddError]

theorem AddError_metrics (acc : Accumulator) (err : Option String) :
    (AddError acc err).metrics = acc.metrics := by
  cases err with
  | none => simp [AddError]
  | some e => simp [AddError]

/-- A call of `gatherURL` uses the accumulator only to add records: it returns the error and
adds the records that it returns and adds on the empty accumulator. -/
theorem gatherURL_append (w : World) (address : URL) (acc : Accumulator) :
    gatherURL w address acc
      = ((gatherURL w address emptyAccumulator).1,
         { acc with
           metrics := acc.metrics ++ (gatherURL w address emptyAccumulator).2.metrics }) := by
  unfold gatherURL
  cases w.get address.text with
  | error e => simp [emptyAccumulator]
  | ok r =>
    simp only
    split_ifs
    · simp [emptyAccumulator]
    · unfold gatherStatusURL
      cases w.decode r.Body with
      | none => simp [emptyAccumulator]
      | some d => simp [foldl_AddFields, emptyAccumulator]
    · simp [emptyAccumulator]

theorem flatMap_set_perm_of {α β : Type} (f : α → List β) (l : List α) (i : Nat) (a b : α)
    (x : List β) (h : l[i]? = some a) (hf : f a = x ++ f b) :
    (x ++ (l.set i b).flatMap f).Perm (l.flatMap f) := by
  induction l generalizing i with
  | nil => simp at h
  | cons y ys ih =>
    cases i with
    | zero =>
      simp only [List.getElem?_cons_zero, Option.some.injEq] at h
      subst h
      simp only [List.set_cons_zero, List.flatMap_cons, hf, List.append_assoc]
      exact List.Perm.refl _
    | succ j =>
      simp only [List.getElem?_cons_succ] at h
      simp only [List.set_cons_succ, List.flatMap_cons]
      have hswap : (x ++ (f y ++ (ys.set j b).flatMap f)).Perm
          (f y ++ (x ++ (ys.set j b).flatMap f)) := by
        rw [← List.append_assoc, ← List.append_assoc]
        exact List.Perm.append_right _ List.perm_append_comm
      exact hswap.trans (List.Perm.append_left _ (ih j h))

theorem flatMap_set_of_eq {α β : Type} (f : α → List β) (l : List α) (i : Nat) (a b : α)
    (h : l[i]? = some a) (hf : f b = f a) :
    (l.set i b).flatMap f = l.flatMap f := by
  induction l generalizing i with
  | nil => simp at h
  | cons x xs ih =>
    cases i with
    | zero =>
      simp only [List.getElem?_cons_zero, Option.some.injEq] at h
      subst h
      simp only [List.set_cons_zero, List.flatMap_cons, hf]
    | succ j =>
      simp only [List.getElem?_cons_succ] at h
      simp only [List.set_cons_succ, List.flatMap_cons, ih j h]

theorem sum_map_set_of {α : Type} (f : α → Nat) (l : List α) (i : Nat) (a b : α)
    (h : l[i]? = some a) :
    ((l.set i b).map f).sum + f a = (l.map f).sum + f b := by
  induction l generalizing i with
  | nil => simp at h
  | cons x xs ih =>
    cases i with
    | zero =>
      simp only [List.getElem?_cons_zero, Option.some.injEq] at h
      subst h
      simp only [List.set_cons_zero, List.map_cons, List.sum_cons]
      omega
    | succ j =>
      simp only [List.getElem?_cons_succ] at h
      simp only [List.set_cons_succ, List.map_cons, List.sum_cons]
      have := ih j h
      omega

theorem filterMap_cons_toList {α β : Type} (f : α → Option β) (a : α) (l : List α) :
    (a :: l).filterMap f = (f a).toList ++ l.filterMap f := by
  rw [List.filterMap_cons]
  cases f a <;> rfl

theorem parse_message (e : String) :
    "Unable to parse address '" ++ formatURL none ++ "': " ++ e
      = "Unable to parse address '<nil>': " ++ e := by
  apply String.ext
  simp [formatURL, String.data_append]

/-- Every step uses up at least one of the steps that the measure counts. -/
theorem measure_step (w : World) (check : NginxUpstreamCheck) (s t : Run) (e : Event)
    (h : step w check s e = some t) : measure w check t < measure w check s := by
  cases e with
  | main =>
    simp only [step, stepMain] at h
    cases hm : s.main with
    | guard =>
      rw [hm] at h
      simp only at h
      split at h
      · cases htls : w.tlsConfig with
        | error err =>
          rw [htls] at h
          simp only [Option.some.injEq] at h
          subst h
          simp only [measure, Main.weight, hm]
          omega
        | ok u =>
          rw [htls] at h
          simp only [Option.some.injEq] at h
          subst h
          simp only [measure, Main.weight, hm]
          omega
      · simp only [Option.some.injEq] at h
        subst h
        simp only [measure, Main.weight, hm]
        omega
    | loop urls =>
      rw [hm] at h
      cases urls with
      | nil =>
        simp only at h
        split at h
        · simp only [Option.some.injEq] at h
          subst h
          simp only [measure, Main.weight, hm]
          omega
        · cases h
      | cons a rest =>
        simp only at h
        cases hp : w.parse a with
        | error err =>
          rw [hp] at h
          simp only [Option.some.injEq] at h
          subst h
          simp only [measure, Main.weight, hm, List.map_cons, List.sum_cons, visitWeight, hp]
          omega
        | ok u =>
          rw [hp] at h
          simp only [Option.some.injEq] at h
          subst h
          simp only [measure, Main.weight, hm, List.map_cons, List.sum_cons, visitWeight, hp,
            List.map_append, List.sum_append, List.map_nil, List.sum_nil]
          omega
    | returned err =>
      rw [hm] at h
      cases h
  | goroutine i =>
    simp only [step, stepGoroutine] at h
    cases hg : s.goroutines[i]? with
    | none => rw [hg] at h; cases h
    | some g =>
      rw [hg] at h
      cases g with
      | called address =>
        simp only [Option.some.injEq] at h
        subst h
        have := sum_map_set_of (Goroutine.weight w) s.goroutines i _
          (Goroutine.adding (gatherURL w address emptyAccumulator).2.metrics
            (gatherURL w address emptyAccumulator).1) hg
        simp only [measure, Goroutine.weight] at this ⊢
        omega
      | adding pending err =>
        cases pending with
        | nil =>
          simp only [Option.some.injEq] at h
          subst h
          have := sum_map_set_of (Goroutine.weight w) s.goroutines i _ Goroutine.reported hg
          simp only [measure, Goroutine.weight, List.length_nil] at this ⊢
          omega
        | cons m rest =>
          simp only [Option.some.injEq] at h
          subst h
          have := sum_map_set_of (Goroutine.weight w) s.goroutines i _
            (Goroutine.adding rest err) hg
          simp only [measure, Goroutine.weight, List.length_cons] at this ⊢
          omega
      | reported =>
        simp only [Option.some.injEq] at h
        subst h
        have := sum_map_set_of (Goroutine.weight w) s.goroutines i _ Goroutine.ended hg
        simp only [measure, Goroutine.weight] at this ⊢
        omega
      | ended => cases h

theorem perm_move {β : Type} (new x S S' R : List β) (h : (x ++ S').Perm S) :
    ((new ++ x) ++ S' ++ R).Perm (new ++ S ++ R) := by
  rw [List.append_assoc new x S']
  exact List.Perm.append_right _ (List.Perm.append_left _ h)

theorem perm_visit {β : Type} (new x S R : List β) :
    ((new ++ x) ++ S ++ R).Perm (new ++ S ++ (x ++ R)) := by
  rw [List.append_assoc new x S, ← List.append_assoc (new ++ S) x R,
    List.append_assoc new S x]
  exact List.Perm.append_right _ (List.Perm.append_left _ List.perm_append_comm)

/-- The counter of `waitGroup` is the number of goroutines that have not ended. -/
theorem waitGroup_step (w : World) (check : NginxUpstreamCheck) (s t : Run) (e : Event)
    (hw : s.waitGroup = (s.goroutines.map Goroutine.live).sum)
    (h : step w check s e = some t) :
    t.waitGroup = (t.goroutines.map Goroutine.live).sum := by
  cases e with
  | main =>
    simp only [step, stepMain] at h
    cases hm : s.main with
    | guard =>
      rw [hm] at h
      simp only at h
      split at h
      · cases htls : w.tlsConfig with
        | error err =>
          rw [htls] at h
          simp only [Option.some.injEq] at h
          subst h
          exact hw
        | ok u =>
          rw [htls] at h
          simp only [Option.some.injEq] at h
          subst h
          exact hw
      · simp only [Option.some.injEq] at h
        subst h
        exact hw
    | loop urls =>
      rw [hm] at h
      cases urls with
      | nil =>
        simp only at h
        split at h
        · simp only [Option.some.injEq] at h
          subst h
          exact hw
        · cases h
      | cons a rest =>
        simp only at h
        cases hp : w.parse a with
        | error err =>
          rw [hp] at h
          simp only [Option.some.injEq] at h
          subst h
          exact hw
        | ok u =>
          rw [hp] at h
          simp only [Option.some.injEq] at h
          subst h
          simp only [List.map_append, List.sum_append, List.map_cons, List.map_nil,
            List.sum_cons, List.sum_nil, Goroutine.live]
          omega
    | returned err =>
      rw [hm] at h
      cases h
  | goroutine i =>
    simp only [step, stepGoroutine] at h
    cases hg : s.goroutines[i]? with
    | none => rw [hg] at h; cases h
    | some g =>
      rw [hg] at h
      cases g with
      | called address =>
        simp only [Option.some.injEq] at h
        subst h
        have := sum_map_set_of Goroutine.live s.goroutines i _
          (Goroutine.adding (gatherURL w address emptyAccumulator).2.metrics
            (gatherURL w address emptyAccumulator).1) hg
        simp only [Goroutine.live] at this ⊢
        omega
      | adding pending err =>
        cases pending with
        | nil =>
          simp only [Option.some.injEq] at h
          subst h
          have := sum_map_set_of Goroutine.live s.goroutines i _ Goroutine.reported hg
          simp only [Goroutine.live] at this ⊢
          omega
        | cons m rest =>
          simp only [Option.some.injEq] at h
          subst h
          have := sum_map_set_of Goroutine.live s.goroutines i _
            (Goroutine.adding rest err) hg
          simp only [Goroutine.live] at this ⊢
          omega
      | reported =>
        simp only [Option.some.injEq] at h
        subst h
        have := sum_map_set_of Goroutine.live s.goroutines i _ Goroutine.ended hg
        simp only [Goroutine.live] at this ⊢
        omega
      | ended => cases h

theorem RunInv_init (w : World) (check : NginxUpstreamCheck) (acc : Accumulator) :
    RunInv w check acc (initRun acc) where
  waitGroup := rfl
  invoked := by simp [initRun, Main.urls]
  errors := ⟨[], by simp [initRun], by simp [initRun, Main.urls]⟩
  metrics := ⟨[], by simp [initRun], by simp [initRun, Main.urls]⟩
  returned := by intro err h; cases h

theorem RunInv_step (w : World) (check : NginxUpstreamCheck) (acc0 : Accumulator)
    (hclient : check.hasClient = true ∨ ∃ u, w.tlsConfig = Except.ok u)
    (s t : Run) (e : Event) (hinv : RunInv w check acc0 s)
    (h : step w check s e = some t) : RunInv w check acc0 t := by
  have hwg := waitGroup_step w check s t e hinv.waitGroup h
  obtain ⟨newE, hE1, hE2⟩ := hinv.errors
  obtain ⟨newM, hM1, hM2⟩ := hinv.metrics
  have hI := hinv.invoked
  cases e with
  | main =>
    simp only [step, stepMain] at h
    cases hm : s.main with
    | guard =>
      have ht : t = { s with main := Main.loop check.Urls } := by
        rw [hm] at h
        simp only at h
        rcases hclient with hc | ⟨u, hu⟩
        · simp only [hc, Bool.true_eq_false, if_false, Option.some.injEq] at h
          exact h.symm
        · split at h
          · rw [hu] at h
            simp only [Option.some.injEq] at h
            exact h.symm
          · simp only [Option.some.injEq] at h
            exact h.symm
      subst ht
      rw [hm] at hI hE2 hM2
      exact ⟨hwg, hI, ⟨newE, hE1, hE2⟩, ⟨newM, hM1, hM2⟩, by intro err h; cases h⟩
    | loop urls =>
      rw [hm] at h hI hE2 hM2
      cases urls with
      | nil =>
        simp only at h
        split at h
        · rename_i hzero
          simp only [Option.some.injEq] at h
          subst h
          refine ⟨hwg, hI, ⟨newE, hE1, hE2⟩, ⟨newM, hM1, hM2⟩, ?_⟩
          intro err herr
          simp only [Main.returned.injEq] at herr
          exact ⟨herr.symm, hzero⟩
        · cases h
      | cons a rest =>
        simp only at h
        cases hp : w.parse a with
        | error err =>
          rw [hp] at h
          simp only [Option.some.injEq] at h
          subst h
          have hpa : parsed w a = none := by simp [parsed, hp]
          have hra : recordedError w a = some ("Unable to parse address '<nil>': " ++ err) := by
            simp [recordedError, hp]
          have hga : gatheredRecords w a = [] := by simp [gatheredRecords, hp]
          simp only [Main.urls, List.filterMap_cons, hpa, hra, List.flatMap_cons, hga,
            List.nil_append] at hI hE2 hM2
          refine ⟨hwg, by simpa [Main.urls] using hI, ?_, ?_, by intro err h; cases h⟩
          · refine ⟨newE ++ ["Unable to parse address '<nil>': " ++ err], ?_, ?_⟩
            · simp [AddError, hE1, parse_message]
            · exact (perm_visit newE _ _ _).trans hE2
          · refine ⟨newM, ?_, ?_⟩
            · simp [AddError, hM1]
            · simpa [Main.urls] using hM2
        | ok u =>
          rw [hp] at h
          simp only [Option.some.injEq] at h
          subst h
          have hpa : parsed w a = some u := by simp [parsed, hp]
          have hra : recordedError w a = (gatherURL w u emptyAccumulator).1 := by
            simp [recordedError, hp]
          have hga : gatheredRecords w a = (gatherURL w u emptyAccumulator).2.metrics := by
            simp [gatheredRecords, hp]
          simp only [Main.urls, filterMap_cons_toList, hpa, hra, List.flatMap_cons, hga,
            Option.toList] at hI hE2 hM2
          refine ⟨hwg, ?_, ⟨newE, hE1, ?_⟩, ⟨newM, hM1, ?_⟩, by intro err h; cases h⟩
          · simp only [Main.urls, List.flatMap_append, List.flatMap_cons, List.flatMap_nil,
              Goroutine.toInvoke, List.append_nil]
            simpa [List.append_assoc] using hI
          · simp only [Main.urls, List.flatMap_append, List.flatMap_cons, List.flatMap_nil,
              Goroutine.toReport, List.append_nil]
            simpa [List.append_assoc] using hE2
          · simp only [Main.urls, List.flatMap_append, List.flatMap_cons, List.flatMap_nil,
              Goroutine.toAdd, List.append_nil]
            simpa [List.append_assoc] using hM2
    | returned err =>
      rw [hm] at h
      cases h
  | goroutine i =>
    simp only [step, stepGoroutine] at h
    have hret : ∀ t' : Run, t'.main = s.main → t'.waitGroup ≤ s.waitGroup →
        ∀ err, t'.main = Main.returned err → err = none ∧ t'.waitGroup = 0 := by
      intro t' hmain hle err herr
      rw [hmain] at herr
      have := hinv.returned err herr
      exact ⟨this.1, by omega⟩
    cases hg : s.goroutines[i]? with
    | none => rw [hg] at h; cases h
    | some g =>
      rw [hg] at h
      cases g with
      | called address =>
        simp only [Option.some.injEq] at h
        subst h
        refine ⟨hwg, ?_, ⟨newE, hE1, ?_⟩, ⟨newM, hM1, ?_⟩, hret _ rfl (le_refl _)⟩
        · exact (perm_move s.invoked [address] _ _ _
            (flatMap_set_perm_of Goroutine.toInvoke s.goroutines i _ _ [address] hg
              (by simp [Goroutine.toInvoke]))).trans hI
        · simp only
          rw [flatMap_set_of_eq (Goroutine.toReport w) s.goroutines i _ _ hg
            (by simp [Goroutine.toReport])]
          exact hE2
        · simp only
          rw [flatMap_set_of_eq (Goroutine.toAdd w) s.goroutines i _ _ hg
            (by simp [Goroutine.toAdd])]
          exact hM2
      | adding pending err =>
        cases pending with
        | nil =>
          simp only [Option.some.injEq] at h
          subst h
          refine ⟨hwg, ?_, ⟨newE ++ err.toList, ?_, ?_⟩, ⟨newM, ?_, ?_⟩,
            hret _ rfl (le_refl _)⟩
          · simp only
            rw [flatMap_set_of_eq Goroutine.toInvoke s.goroutines i _ _ hg
              (by simp [Goroutine.toInvoke])]
            exact hI
          · simp [AddError_errors, hE1]
          · exact (perm_move newE err.toList _ _ _
              (flatMap_set_perm_of (Goroutine.toReport w) s.goroutines i _ _ err.toList hg
                (by simp [Goroutine.toReport]))).trans hE2
          · simp [AddError_metrics, hM1]
          · simp only
            rw [flatMap_set_of_eq (Goroutine.toAdd w) s.goroutines i _ _ hg
              (by simp [Goroutine.toAdd])]
            exact hM2
        | cons m rest =>
          simp only [Option.some.injEq] at h
          subst h
          refine ⟨hwg, ?_, ⟨newE, ?_, ?_⟩, ⟨newM ++ [m], ?_, ?_⟩, hret _ rfl (le_refl _)⟩
          · simp only
            rw [flatMap_set_of_eq Goroutine.toInvoke s.goroutines i _ _ hg
              (by simp [Goroutine.toInvoke])]
            exact hI
          · simp [AddFields, hE1]
          · simp only
            rw [flatMap_set_of_eq (Goroutine.toReport w) s.goroutines i _ _ hg
              (by simp [Goroutine.toReport])]
            exact hE2
          · simp [AddFields, hM1]
          · exact (perm_move newM [m] _ _ _
              (flatMap_set_perm_of (Goroutine.toAdd w) s.goroutines i _ _ [m] hg
                (by simp [Goroutine.toAdd]))).trans hM2
      | reported =>
        simp only [Option.some.injEq] at h
        subst h
        refine ⟨hwg, ?_, ⟨newE, hE1, ?_⟩, ⟨newM, hM1, ?_⟩,
          hret _ rfl (Nat.sub_le _ _)⟩
        · simp only
          rw [flatMap_set_of_eq Goroutine.toInvoke s.goroutines i _ _ hg
            (by simp [Goroutine.toInvoke])]
          exact hI
        · simp only
          rw [flatMap_set_of_eq (Goroutine.toReport w) s.goroutines i _ _ hg
            (by simp [Goroutine.toReport])]
          exact hE2
        · simp only
          rw [flatMap_set_of_eq (Goroutine.toAdd w) s.goroutines i _ _ hg
            (by simp [Goroutine.toAdd])]
          exact hM2
      | ended => cases h

theorem runSchedule_append (w : World) (check : NginxUpstreamCheck) (es es' : List Event) :
    ∀ s : Run, runSchedule w check (es ++ es') s
      = (runSchedule w check es s).bind (runSchedule w check es') := by
  induction es with
  | nil => intro s; rfl
  | cons e es ih =>
    intro s
    simp only [List.cons_append, runSchedule]
    cases step w check s e with
    | none => rfl
    | some t => exact ih t

theorem waitGroup_run (w : World) (check : NginxUpstreamCheck) (es : List Event) :
    ∀ s t : Run, s.waitGroup = (s.goroutines.map Goroutine.live).sum →
      runSchedule w check es s = some t →
      t.waitGroup = (t.goroutines.map Goroutine.live).sum := by
  induction es with
  | nil =>
    intro s t hw h
    simp only [runSchedule, Option.some.injEq] at h
    subst h
    exact hw
  | cons e es ih =>
    intro s t hw h
    simp only [runSchedule] at h
    cases hs : step w check s e with
    | none => rw [hs] at h; cases h
    | some s' =>
      rw [hs] at h
      exact ih s' t (waitGroup_step w check s s' e hw hs) h

theorem RunInv_run (w : World) (check : NginxUpstreamCheck) (acc0 : Accumulator)
    (hclient : check.hasClient = true ∨ ∃ u, w.tlsConfig = Except.ok u) (es : List Event) :
    ∀ s t : Run, RunInv w check acc0 s → runSchedule w check es s = some t →
      RunInv w check acc0 t := by
  induction es with
  | nil =>
    intro s t hinv h
    simp only [runSchedule, Option.some.injEq] at h
    subst h
    exact hinv
  | cons e es ih =>
    intro s t hinv h
    simp only [runSchedule] at h
    cases hs : step w check s e with
    | none => rw [hs] at h; cases h
    | some s' =>
      rw [hs] at h
      exact ih s' t (RunInv_step w check acc0 hclient s s' e hinv hs) h

theorem measure_run (w : World) (check : NginxUpstreamCheck) (es : List Event) :
    ∀ s t : Run, runSchedule w check es s = some t →
      es.length + measure w check t ≤ measure w check s := by
  induction es with
  | nil =>
    intro s t h
    simp only [runSchedule, Option.some.injEq] at h
    subst h
    simp
  | cons e es ih =>
    intro s t h
    simp only [runSchedule] at h
    cases hs : step w check s e with
    | none => rw [hs] at h; cases h
    | some s' =>
      rw [hs] at h
      have h1 := measure_step w check s s' e hs
      have h2 := ih s' t h
      simp only [List.length_cons]
      omega

theorem exists_live (l : List Goroutine) (h : 0 < (l.map Goroutine.live).sum) :
    ∃ (i : Nat) (g : Goroutine), l[i]? = some g ∧ g ≠ Goroutine.ended := by
  induction l with
  | nil => simp at h
  | cons x xs ih =>
    by_cases hx : x = Goroutine.ended
    · subst hx
      simp only [List.map_cons, List.sum_cons, Goroutine.live, Nat.zero_add] at h
      obtain ⟨i, g, hi, hg⟩ := ih h
      exact ⟨i + 1, g, by simpa using hi, hg⟩
    · exact ⟨0, x, by simp, hx⟩

theorem all_ended (l : List Goroutine) (h : (l.map Goroutine.live).sum = 0) :
    ∀ g ∈ l, g = Goroutine.ended := by
  induction l with
  | nil => intro g hg; cases hg
  | cons x xs ih =>
    simp only [List.map_cons, List.sum_cons] at h
    intro g hg
    rcases List.mem_cons.mp hg with hgx | hgx
    · subst hgx
      cases g <;> simp [Goroutine.live] at h ⊢
    · exact ih (by omega) g hgx

theorem flatMap_ended {β : Type} (f : Goroutine → List β) (hf : f Goroutine.ended = [])
    (l : List Goroutine) (h : ∀ g ∈ l, g = Goroutine.ended) : l.flatMap f = [] := by
  induction l with
  | nil => rfl
  | cons x xs ih =>
    rw [List.flatMap_cons, h x (List.mem_cons_self _ _), hf,
      ih (fun g hg => h g (List.mem_cons_of_mem _ hg))]
    rfl

/-- A call of `Gather` that has not returned can take a step: the goroutine of `Gather`
itself, or, when it waits in `waitGroup.Wait()`, a goroutine that has not ended. -/
theorem progress (w : World) (check : NginxUpstreamCheck) (s : Run)
    (hw : s.waitGroup = (s.goroutines.map Goroutine.live).sum) :
    (∃ err, s.main = Main.returned err) ∨ ∃ e t, step w check s e = some t := by
  cases hm : s.main with
  | returned err => exact Or.inl ⟨err, rfl⟩
  | guard =>
    right
    refine ⟨Event.main, ?_⟩
    simp only [step, stepMain, hm]
    split
    · cases w.tlsConfig with
      | error err => exact ⟨_, rfl⟩
      | ok u => exact ⟨_, rfl⟩
    · exact ⟨_, rfl⟩
  | loop urls =>
    right
    cases urls with
    | cons a rest =>
      refine ⟨Event.main, ?_⟩
      simp only [step, stepMain, hm]
      cases w.parse a with
      | error err => exact ⟨_, rfl⟩
      | ok u => exact ⟨_, rfl⟩
    | nil =>
      by_cases hz : s.waitGroup = 0
      · refine ⟨Event.main, ?_⟩
        simp only [step, stepMain, hm, hz, if_true]
        exact ⟨_, rfl⟩
      · obtain ⟨i, g, hi, hg⟩ := exists_live s.goroutines (by omega)
        refine ⟨Event.goroutine i, ?_⟩
        simp only [step, stepGoroutine, hi]
        cases g with
        | called address => exact ⟨_, rfl⟩
        | adding pending err =>
          cases pending with
          | nil => exact ⟨_, rfl⟩
          | cons m rest => exact ⟨_, rfl⟩
        | reported => exact ⟨_, rfl⟩
        | ended => exact absurd rfl hg

theorem completion_aux (w : World) (check : NginxUpstreamCheck) :
    ∀ (n : Nat) (s : Run), measure w check s ≤ n →
      s.waitGroup = (s.goroutines.map Goroutine.live).sum →
      ∃ rest s' err, runSchedule w check rest s = some s' ∧ s'.main = Main.returned err := by
  intro n
  induction n with
  | zero =>
    intro s hn hw
    rcases progress w check s hw with ⟨err, herr⟩ | ⟨e, t, ht⟩
    · exact ⟨[], s, err, rfl, herr⟩
    · have := measure_step w check s t e ht
      omega
  | succ n ih =>
    intro s hn hw
    rcases progress w check s hw with ⟨err, herr⟩ | ⟨e, t, ht⟩
    · exact ⟨[], s, err, rfl, herr⟩
    · have hlt := measure_step w check s t e ht
      obtain ⟨rest, s', err, hrun, herr⟩ :=
        ih t (by omega) (waitGroup_step w check s t e hw ht)
      exact ⟨e :: rest, s', err, by simp [runSchedule, ht, hrun], herr⟩

/-- Every run of `Gather` can be continued until `Gather` has returned. -/
theorem completion (w : World) (check : NginxUpstreamCheck) (acc : Accumulator)
    (schedule : List Event) (s : Run) (h : Gather w check acc schedule = some s) :
    ∃ rest s' err, Gather w check acc (schedule ++ rest) = some s' ∧
      s'.main = Main.returned err := by
  obtain ⟨rest, s', err, hrun, herr⟩ := completion_aux w check (measure w check s) s (le_refl _)
    (waitGroup_run w check schedule (initRun acc) s rfl h)
  refine ⟨rest, s', err, ?_, herr⟩
  unfold Gather at h ⊢
  rw [runSchedule_append, h]
  exact hrun

/-- When no client is set and none can be created, the only step of any run is the return
of the error by `Gather`. -/
theorem guard_failed_run (w : World) (check : NginxUpstreamCheck) (acc : Accumulator)
    (e : String) (hc : check.hasClient = false) (htls : w.tlsConfig = Except.error e)
    (schedule : List Event) (s : Run) (h : Gather w check acc schedule = some s) :
    (schedule = [] ∧ s = initRun acc) ∨
    (schedule = [Event.main] ∧ s = { initRun acc with main := Main.returned (some e) }) := by
  unfold Gather at h
  cases schedule with
  | nil =>
    simp only [runSchedule, Option.some.injEq] at h
    exact Or.inl ⟨rfl, h.symm⟩
  | cons ev es =>
    right
    cases ev with
    | goroutine i => simp [runSchedule, step, stepGoroutine, initRun] at h
    | main =>
      have hstep : step w check (initRun acc) Event.main
          = some { initRun acc with main := Main.returned (some e) } := by
        simp [step, stepMain, initRun, hc, htls]
      simp only [runSchedule, hstep, Option.some_bind] at h
      cases es with
      | nil =>
        simp only [runSchedule, Option.some.injEq] at h
        exact ⟨rfl, h.symm⟩
      | cons ev' es' =>
        cases ev' with
        | main => simp [runSchedule, step, stepMain, initRun] at h
        | goroutine i => simp [runSchedule, step, stepGoroutine, initRun] at h

/-- What the bookkeeping says once `Gather` has returned. -/
theorem RunInv_returned (w : World) (check : NginxUpstreamCheck) (acc0 : Accumulator)
    (s : Run) (err : Option String) (hinv : RunInv w check acc0 s)
    (hret : s.main = Main.returned err) :
    err = none ∧
    s.invoked.Perm (check.Urls.filterMap (parsed w)) ∧
    (∃ new, s.acc.errors = acc0.errors ++ new ∧
      new.Perm (check.Urls.filterMap (recordedError w))) ∧
    (∃ new, s.acc.metrics = acc0.metrics ++ new ∧
      new.Perm (check.Urls.flatMap (gatheredRecords w))) ∧
    (∀ g ∈ s.goroutines, g = Goroutine.ended) := by
  obtain ⟨hnone, hzero⟩ := hinv.returned err hret
  have hended := all_ended s.goroutines (by rw [← hinv.waitGroup]; exact hzero)
  obtain ⟨newE, hE1, hE2⟩ := hinv.errors
  obtain ⟨newM, hM1, hM2⟩ := hinv.metrics
  have hI := hinv.invoked
  rw [hret] at hI hE2 hM2
  simp only [Main.urls, List.filterMap_nil, List.flatMap_nil, List.append_nil,
    flatMap_ended Goroutine.toInvoke rfl s.goroutines hended,
    flatMap_ended (Goroutine.toReport w) rfl s.goroutines hended,
    flatMap_ended (Goroutine.toAdd w) rfl s.goroutines hended] at hI hE2 hM2
  exact ⟨hnone, hI, ⟨newE, hE1, hE2⟩, ⟨newM, hM1, hM2⟩, hended⟩

end NginxUpstreamCheck

namespace NginxUpstreamCheck

/-- C14, as stated, fails: when `check.client` is not set and the TLS set-up fails, `Gather`
returns that error, although the configured address parses: in no run is `gatherURL` called
or anything recorded, and no run returns nil. -/
theorem Gather_spec_counterexample :
    parsed brokenTLSWorld "http://localhost/status?format=json"
      = some ⟨"http://localhost/status?format=json"⟩ ∧
    Gather brokenTLSWorld ⟨["http://localhost/status?format=json"], false⟩ emptyAccumulator
        [Event.main]
      = some ⟨Main.returned (some "could not load keypair"), [], 0, [], emptyAccumulator⟩ ∧
    (∀ schedule s,
      Gather brokenTLSWorld ⟨["http://localhost/status?format=json"], false⟩ emptyAccumulator
          schedule = some s →
        s.main ≠ Main.returned none ∧ s.invoked = [] ∧ s.acc = emptyAccumulator) := by
  refine ⟨by decide, by decide, ?_⟩
  intro schedule s h
  rcases guard_failed_run brokenTLSWorld _ emptyAccumulator "could not load keypair" rfl rfl
    schedule s h with ⟨_, hs⟩ | ⟨_, hs⟩
  · subst hs
    exact ⟨by decide, rfl, rfl⟩
  · subst hs
    exact ⟨by decide, rfl, rfl⟩

/-- C14, amended: `Gather` starts a goroutine for every configured address that parses and
goes on without waiting for it, so that the calls of `gatherURL`, the records and the errors
come in an order that depends on the schedule. Every run of `Gather` is finite and can be
continued until `Gather` has returned. When `check.client` is set or can be created, then in
every run in which `Gather` has returned, it has returned nil, every goroutine has ended,
`gatherURL` has been called exactly on the addresses that parse, once for each; the errors
recorded are, up to their order, one for every address that fails to parse and the error of
`gatherURL`, if any, for every address that parses; the records added are, up to their order,
those of `gatherURL` for the addresses that parse; and an address that fails to parse changes
nothing for the others, wherever it sits. When the client cannot be created, `Gather` returns
that error in its first step: nothing is called and nothing is recorded. -/
theorem Gather_spec (w : World) (check : NginxUpstreamCheck) (acc : Accumulator) :
    (∀ schedule s, Gather w check acc schedule = some s →
      schedule.length ≤ measure w check (initRun acc) ∧
      ∃ rest s' err, Gather w check acc (schedule ++ rest) = some s' ∧
        s'.main = Main.returned err) ∧
    ((check.hasClient = true ∨ ∃ u, w.tlsConfig = Except.ok u) →
      ∀ schedule s err, Gather w check acc schedule = some s → s.main = Main.returned err →
        err = none ∧
        s.invoked.Perm (check.Urls.filterMap (parsed w)) ∧
        (∃ new, s.acc.errors = acc.errors ++ new ∧
          new.Perm (check.Urls.filterMap (recordedError w))) ∧
        (∃ new, s.acc.metrics = acc.metrics ++ new ∧
          new.Perm (check.Urls.flatMap (gatheredRecords w))) ∧
        (∀ g ∈ s.goroutines, g = Goroutine.ended) ∧
        (∀ pre post bad, check.Urls = pre ++ bad :: post → parsed w bad = none →
          s.invoked.Perm ((pre ++ post).filterMap (parsed w)) ∧
          ∃ e new, recordedError w bad = some e ∧ s.acc.errors = acc.errors ++ new ∧
            new.Perm (e :: (pre ++ post).filterMap (recordedError w)))) ∧
    (∀ a : String,
      (∀ e, w.parse a = Except.error e →
        parsed w a = none ∧
        recordedError w a = some ("Unable to parse address '<nil>': " ++ e) ∧
        gatheredRecords w a = []) ∧
      (∀ u, w.parse a = Except.ok u →
        parsed w a = some u ∧
        ∀ acc' : Accumulator, gatherURL w u acc'
          = (recordedError w a,
             { acc' with metrics := acc'.metrics ++ gatheredRecords w a }))) ∧
    (check.hasClient = false → ∀ e, w.tlsConfig = Except.error e →
      ∀ schedule s, Gather w check acc schedule = some s →
        (schedule = [] ∧ s = initRun acc) ∨
        (schedule = [Event.main] ∧ s = ⟨Main.returned (some e), [], 0, [], acc⟩)) := by
  refine ⟨?_, ?_, ?_, ?_⟩
  · intro schedule s h
    refine ⟨?_, completion w check acc schedule s h⟩
    have := measure_run w check schedule (initRun acc) s h
    omega
  · intro hclient schedule s err h hret
    have hinv := RunInv_run w check acc hclient schedule (initRun acc) s
      (RunInv_init w check acc) h
    obtain ⟨h1, h2, ⟨newE, hE1, hE2⟩, h4, h5⟩ := RunInv_returned w check acc s err hinv hret
    refine ⟨h1, h2, ⟨newE, hE1, hE2⟩, h4, h5, ?_⟩
    intro pre post bad hurls hbad
    have hex : ∃ e, recordedError w bad = some e := by
      unfold parsed at hbad
      unfold recordedError
      cases hp : w.parse bad with
      | error e => exact ⟨_, rfl⟩
      | ok u => rw [hp] at hbad; cases hbad
    obtain ⟨e, he⟩ := hex
    constructor
    · rw [hurls] at h2
      simpa [List.filterMap_append, List.filterMap_cons, hbad] using h2
    · refine ⟨e, newE, he, hE1, ?_⟩
      rw [hurls] at hE2
      simp only [List.filterMap_append, List.filterMap_cons, he] at hE2 ⊢
      exact hE2.trans List.perm_middle
  · intro a
    constructor
    · intro e hp
      simp [parsed, recordedError, gatheredRecords, hp]
    · intro u hp
      refine ⟨by simp [parsed, hp], fun acc' => ?_⟩
      simp only [recordedError, gatheredRecords, hp]
      exact gatherURL_append w u acc'
  · intro hc e he schedule s h
    exact guard_failed_run w check acc e hc he schedule s h

theorem Gather_spec_witness :
    (exampleCheck.hasClient = true ∨ ∃ u, exampleWorld.tlsConfig = Except.ok u) ∧
    ∃ s, Gather exampleWorld exampleCheck emptyAccumulator exampleSchedule = some s ∧
      s.main = Main.returned none ∧
      exampleCheck.Urls.filterMap (parsed exampleWorld)
        = [⟨"http://x"⟩, ⟨"http://localhost/status?format=json"⟩] ∧
      s.invoked = [⟨"http://localhost/status?format=json"⟩, ⟨"http://x"⟩] ∧
      s.invoked.Perm (exampleCheck.Urls.filterMap (parsed exampleWorld)) ∧
      exampleCheck.Urls.filterMap (recordedError exampleWorld)
        = ["error making HTTP request to http://x: connection refused",
           "Unable to parse address '<nil>': parse :foo: missing protocol scheme"] ∧
      s.acc.errors
        = ["Unable to parse address '<nil>': parse :foo: missing protocol scheme",
           "error making HTTP request to http://x: connection refused"] ∧
      (∃ new, s.acc.errors = emptyAccumulator.errors ++ new ∧
        new.Perm (exampleCheck.Urls.filterMap (recordedError exampleWorld))) ∧
      s.acc.metrics.length = 1 := by
  have hc : exampleCheck.hasClient = true ∨ ∃ u, exampleWorld.tlsConfig = Except.ok u :=
    Or.inr ⟨(), rfl⟩
  refine ⟨hc, ?_⟩
  have hrun : Gather exampleWorld exampleCheck emptyAccumulator exampleSchedule
      = some ⟨Main.returned none,
          [Goroutine.ended, Goroutine.ended], 0,
          [⟨"http://localhost/status?format=json"⟩, ⟨"http://x"⟩],
          ⟨[⟨"nginx_upstream_check", getFields exampleServer,
              getTags exampleServer ⟨"http://localhost/status?format=json"⟩⟩],
           ["Unable to parse address '<nil>': parse :foo: missing protocol scheme",
            "error making HTTP request to http://x: connection refused"]⟩⟩ := by
    decide
  have h := (Gather_spec exampleWorld exampleCheck emptyAccumulator).2.1 hc
    exampleSchedule _ none hrun rfl
  exact ⟨_, hrun, rfl, by decide, rfl, h.2.1, by decide, rfl, h.2.2.1, rfl⟩

end NginxUpstreamCheck

namespace NginxUpstreamCheck

theorem beforeSemicolon_of_not_mem (s : String) (h : ';' ∉ s.toList) :
    beforeSemicolon s = s := by
  apply String.ext
  show s.toList.takeWhile (fun c => c != ';') = s.toList
  apply List.takeWhile_eq_self_iff.mpr
  intro c hc
  simp only [bne_iff_ne, ne_eq]
  intro hcs
  exact h (hcs ▸ hc)

theorem beforeSemicolon_append (a b : String) (h : ';' ∉ a.toList) :
    beforeSemicolon (a ++ ";" ++ b) = a := by
  apply String.ext
  show (a ++ ";" ++ b).data.takeWhile (fun c => c != ';') = a.data
  simp only [String.data_append, List.append_assoc]
  rw [List.takeWhile_append_of_pos]
  · simp [List.takeWhile]
  · intro c hc
    simp only [bne_iff_ne, ne_eq]
    intro hcs
    exact h (hcs ▸ hc)

/-- C15: `gatherURL` returns nil exactly when the request succeeded, the status is 200, the
part of the `Content-Type` header before the first `;` is `application/json` and the body
decodes; in every other case it returns an error and leaves the accumulator as it was. The
part before the first `;` is the whole header when it has no `;`. -/
theorem gatherURL_nil_iff (w : World) (address : URL) (acc : Accumulator) :
    ((gatherURL w address acc).1 = none ↔
      ∃ response, w.get address.text = Except.ok response ∧ response.StatusCode = 200 ∧
        beforeSemicolon response.ContentType = "application/json" ∧
        (w.decode response.Body).isSome = true) ∧
    ((gatherURL w address acc).1 ≠ none → (gatherURL w address acc).2 = acc) ∧
    (∀ s : String, ';' ∉ s.toList → beforeSemicolon s = s) ∧
    (∀ a b : String, ';' ∉ a.toList → beforeSemicolon (a ++ ";" ++ b) = a) ∧
    beforeSemicolon "application/json; charset=utf-8" = "application/json" ∧
    beforeSemicolon "text/html" = "text/html" := by
  refine ⟨?_, ?_, beforeSemicolon_of_not_mem, beforeSemicolon_append, by decide, by decide⟩
  · unfold gatherURL
    cases hget : w.get address.text with
    | error e => simp
    | ok r =>
      simp only
      by_cases hs : r.StatusCode = 200
      · by_cases hct : beforeSemicolon r.ContentType = "application/json"
        · simp only [hs, ne_eq, not_true_eq_false, if_false, hct, if_true, gatherStatusURL]
          cases hd : w.decode r.Body with
          | none => simp [hs, hct, hd]
          | some d =>
            simp only [true_iff]
            exact ⟨r, rfl, hs, hct, by simp [hd]⟩
        · simp only [hs, ne_eq, not_true_eq_false, if_false, hct]
          constructor
          · intro h; cases h
          · rintro ⟨r', hr', _, h3, _⟩
            cases hr'
            exact absurd h3 hct
      · simp only [ne_eq, hs, not_false_eq_true, if_true]
        constructor
        · intro h; cases h
        · rintro ⟨r', hr', h2, _, _⟩
          cases hr'
          exact absurd h2 hs
  · unfold gatherURL
    cases hget : w.get address.text with
    | error e => simp
    | ok r =>
      simp only
      split_ifs
      · simp
      · unfold gatherStatusURL
        cases hd : w.decode r.Body with
        | none => simp
        | some d => simp
      · simp

theorem gatherURL_nil_iff_witness :
    (gatherURL exampleWorld ⟨"http://localhost/status?format=json"⟩ emptyAccumulator).1 = none ∧
    (gatherURL exampleWorld ⟨"http://x"⟩ emptyAccumulator).2 = emptyAccumulator :=
  ⟨(gatherURL_nil_iff exampleWorld ⟨"http://localhost/status?format=json"⟩
      emptyAccumulator).1.mpr ⟨⟨200, "200 OK", "application/json; charset=utf-8", "body"⟩,
        rfl, by decide, by decide, by decide⟩,
   (gatherURL_nil_iff exampleWorld ⟨"http://x"⟩ emptyAccumulator).2.1 (by decide)⟩

/-- C16: for a body that decodes, `gatherStatusURL` returns nil and adds exactly one record
per entry of `servers.server`, in order; every record is named `nginx_upstream_check`, has
exactly the four fields `status`, `status_code`, `rise` and `fall`, with `status` the raw
status and `status_code` its `statusCode`, and exactly the five tags `upstream`, `type`,
`name`, `port` and `url`, with `port` the decimal rendering of the port. -/
theorem gatherStatusURL_records (w : World) (body : String) (address : URL)
    (acc : Accumulator) (checkData : NginxUpstreamCheckData)
    (hdecode : w.decode body = some checkData) :
    ∃ record : NginxUpstreamCheckServer → Burrow.Metric,
      gatherStatusURL w body address acc
        = (none, { acc with
            metrics := acc.metrics ++ checkData.Servers.Server.map record }) ∧
      ((gatherStatusURL w body address acc).2.metrics.length
        = acc.metrics.length + checkData.Servers.Server.length) ∧
      (∀ server : NginxUpstreamCheckServer,
        (record server).name = "nginx_upstream_check" ∧
        (Burrow.keys (record server).fields).Perm ["status", "status_code", "rise", "fall"] ∧
        (Burrow.keys (record server).fields).Nodup ∧
        (record server).fields.lookup "status" = some (Burrow.FieldValue.str server.Status) ∧
        (record server).fields.lookup "status_code"
          = some (Burrow.FieldValue.int (statusCode server.Status)) ∧
        (record server).fields.lookup "rise" = some (Burrow.FieldValue.int server.Rise) ∧
        (record server).fields.lookup "fall" = some (Burrow.FieldValue.int server.Fall) ∧
        (Burrow.keys (record server).tags).Perm ["upstream", "type", "name", "port", "url"] ∧
        (Burrow.keys (record server).tags).Nodup ∧
        (record server).tags.lookup "upstream" = some server.Upstream ∧
        (record server).tags.lookup "type" = some server.Type' ∧
        (record server).tags.lookup "name" = some server.Name ∧
        (record server).tags.lookup "port" = some (String.mk (Burrow.formatNat server.Port)) ∧
        (record server).tags.lookup "url" = some address.text) ∧
      String.mk (Burrow.formatNat 8080) = "8080" ∧ String.mk (Burrow.formatNat 0) = "0" := by
  refine ⟨fun server => ⟨"nginx_upstream_check", getFields server, getTags server address⟩,
    ?_, ?_, ?_, by decide, by decide⟩
  · simp only [gatherStatusURL, hdecode, foldl_AddFields]
  · simp only [gatherStatusURL, hdecode, foldl_AddFields, List.length_append, List.length_map]
  · intro server
    refine ⟨rfl, ?_, ?_, ?_, ?_, ?_, ?_, ?_, ?_, ?_, ?_, ?_, ?_, ?_⟩ <;>
      simp [getFields, getTags, Burrow.keys, Burrow.mapLit, Burrow.setKey, List.lookup]

theorem gatherStatusURL_records_witness :
    ∃ record : NginxUpstreamCheckServer → Burrow.Metric,
      gatherStatusURL exampleWorld "body" ⟨"http://localhost/status?format=json"⟩
          emptyAccumulator
        = (none, { emptyAccumulator with
            metrics := emptyAccumulator.metrics ++ [exampleServer].map record }) ∧
      (record exampleServer).tags.lookup "port" = some "0" := by
  obtain ⟨record, h1, _, h3, _⟩ := gatherStatusURL_records exampleWorld "body"
    ⟨"http://localhost/status?format=json"⟩ emptyAccumulator ⟨⟨1, 1, [exampleServer]⟩⟩ rfl
  refine ⟨record, h1, ?_⟩
  rw [(h3 exampleServer).2.2.2.2.2.2.2.2.2.2.2.2.1]
  decide

end NginxUpstreamCheck

namespace NginxUpstreamCheck

/-- C20 on the code: the message recorded for an address that fails to parse names, between
its quotes, the nil result of the parse and not the configured address; the address occurs
in it only as far as the error of `url.Parse` repeats it. For the configured address
`:foo#bar`, whose parse error names `:foo`, the recorded message does not contain the
configured address. -/
theorem Gather_parse_error_message :
    (∀ (w : World) (a e : String) (acc : Accumulator) (schedule : List Event) (s : Run)
        (err : Option String),
      w.parse a = Except.error e → Gather w ⟨[a], true⟩ acc schedule = some s →
      s.main = Main.returned err →
      s.acc.errors = acc.errors ++ ["Unable to parse address '<nil>': " ++ e]) ∧
    Gather exampleWorld ⟨[":foo#bar"], true⟩ emptyAccumulator
        [Event.main, Event.main, Event.main]
      = some ⟨Main.returned none, [], 0, [],
          ⟨[], ["Unable to parse address '<nil>': parse :foo: missing protocol scheme"]⟩⟩ ∧
    (∀ (schedule : List Event) (s : Run) (err : Option String),
      Gather exampleWorld ⟨[":foo#bar"], true⟩ emptyAccumulator schedule = some s →
      s.main = Main.returned err →
      s.acc.errors
        = ["Unable to parse address '<nil>': parse :foo: missing protocol scheme"]) ∧
    containsText "Unable to parse address '<nil>': parse :foo: missing protocol scheme"
      ":foo#bar" = false := by
  have hgen : ∀ (w : World) (a e : String) (acc : Accumulator) (schedule : List Event)
      (s : Run) (err : Option String),
      w.parse a = Except.error e → Gather w ⟨[a], true⟩ acc schedule = some s →
      s.main = Main.returned err →
      s.acc.errors = acc.errors ++ ["Unable to parse address '<nil>': " ++ e] := by
    intro w a e acc schedule s err hp h hret
    have hinv := RunInv_run w ⟨[a], true⟩ acc (Or.inl rfl) schedule (initRun acc) s
      (RunInv_init w ⟨[a], true⟩ acc) h
    obtain ⟨_, _, ⟨newE, hE1, hE2⟩, _, _⟩ := RunInv_returned w _ acc s err hinv hret
    have hr : recordedError w a = some ("Unable to parse address '<nil>': " ++ e) := by
      simp [recordedError, hp]
    simp only [List.filterMap_cons, hr, List.filterMap_nil] at hE2
    rw [hE1, List.perm_singleton.mp hE2]
  refine ⟨hgen, by decide, ?_, by decide⟩
  intro schedule s err h hret
  have := hgen exampleWorld ":foo#bar" "parse :foo: missing protocol scheme" emptyAccumulator
    schedule s err rfl h hret
  simpa [emptyAccumulator] using this

end NginxUpstreamCheck

namespace Burrow

/-! ### The cluster and group tags -/

theorem mem_publishGroupSummary (api : apiClient) (res : apiResponse) (uri : String)
    (m : Metric) (h : m ∈ publishGroupSummary api res uri []) :
    m.name = "burrow_group_summary" ∧ m.tags.lookup "cluster" = some res.Status.Cluster ∧
      m.tags.lookup "group" = some res.Status.Group := by
  unfold publishGroupSummary at h
  cases hd : api.disableGroupSummary with
  | true => simp [hd] at h
  | false =>
    simp only [hd, Bool.false_eq_true, if_false, AddFields, List.nil_append,
      List.mem_singleton] at h
    subst h
    refine ⟨rfl, ?_, ?_⟩ <;> simp [mapLit, setKey, List.lookup]

theorem mem_publishGroupTopicStep (res : apiResponse) (p : apiStatusResponseLag) (m : Metric)
    (h : m ∈ publishGroupTopicStep res [] p) :
    m.name = "burrow_group_topic" ∧ m.tags.lookup "cluster" = some res.Request.Cluster ∧
      m.tags.lookup "group" = some res.Request.Group := by
  simp only [publishGroupTopicStep, AddFields, List.nil_append, List.mem_singleton] at h
  subst h
  refine ⟨rfl, ?_, ?_⟩ <;> simp [mapLit, setKey, List.lookup]

theorem mem_groupHandler (api : apiClient) (res : apiResponse) (uri : String) (m : Metric)
    (h : m ∈ groupHandler api res uri []) :
    m ∈ publishGroupSummary api res uri [] ∨
      ∃ p ∈ res.Status.Partitions, m ∈ publishGroupTopicStep res [] p := by
  unfold groupHandler publishGroupTopic at h
  cases hd : api.disableGroupTopics with
  | true => rw [hd] at h; exact Or.inl (by simpa using h)
  | false =>
    simp only [hd, Bool.false_eq_true, if_false, foldl_publishGroupTopicStep,
      List.mem_append, List.mem_flatMap] at h
    rcases h with h | ⟨p, hp, hm⟩
    · exact Or.inl h
    · exact Or.inr ⟨p, hp, hm⟩

/-- C19, as stated, fails: for a response whose `request` part names another cluster and
group than its `status` part, the summary record and the topic record carry different
cluster and group tags. -/
theorem groupHandler_tags_counterexample :
    (groupHandler exampleClient mismatchResponse "uri" []).map
        (fun m => (m.name, m.tags.lookup "cluster", m.tags.lookup "group"))
      = [("burrow_group_summary", some "clusterB", some "groupB"),
         ("burrow_group_topic", some "clusterA", some "groupA")] := by
  decide

/-- C19, amended: of the records emitted for one group response, the summary record takes
its cluster and group tags from `res.Status` and every topic record takes them from
`res.Request`; when the two parts of the response name the same cluster and the same group,
all these records carry the same cluster tag and the same group tag. -/
theorem groupHandler_tags (api : apiClient) (res : apiResponse) (uri : String) :
    (∀ m ∈ groupHandler api res uri [], m.name = "burrow_group_summary" →
      m.tags.lookup "cluster" = some res.Status.Cluster ∧
      m.tags.lookup "group" = some res.Status.Group) ∧
    (∀ m ∈ groupHandler api res uri [], m.name = "burrow_group_topic" →
      m.tags.lookup "cluster" = some res.Request.Cluster ∧
      m.tags.lookup "group" = some res.Request.Group) ∧
    (res.Request.Cluster = res.Status.Cluster → res.Request.Group = res.Status.Group →
      ∀ m ∈ groupHandler api res uri [], ∀ m' ∈ groupHandler api res uri [],
        m.tags.lookup "cluster" = m'.tags.lookup "cluster" ∧
        m.tags.lookup "group" = m'.tags.lookup "group") := by
  have key : ∀ m ∈ groupHandler api res uri [],
      (m.name = "burrow_group_summary" ∧ m.tags.lookup "cluster" = some res.Status.Cluster ∧
        m.tags.lookup "group" = some res.Status.Group) ∨
      (m.name = "burrow_group_topic" ∧ m.tags.lookup "cluster" = some res.Request.Cluster ∧
        m.tags.lookup "group" = some res.Request.Group) := by
    intro m hm
    rcases mem_groupHandler api res uri m hm with h | ⟨p, _, h⟩
    · exact Or.inl (mem_publishGroupSummary api res uri m h)
    · exact Or.inr (mem_publishGroupTopicStep res p m h)
  refine ⟨?_, ?_, ?_⟩
  · intro m hm hname
    rcases key m hm with h | h
    · exact h.2
    · rw [h.1] at hname; exact absurd hname (by decide)
  · intro m hm hname
    rcases key m hm with h | h
    · rw [h.1] at hname; exact absurd hname (by decide)
    · exact h.2
  · intro hc hg m hm m' hm'
    have h1 : m.tags.lookup "cluster" = some res.Status.Cluster ∧
        m.tags.lookup "group" = some res.Status.Group := by
      rcases key m hm with h | h
      · exact h.2
      · rw [← hc, ← hg]; exact h.2
    have h2 : m'.tags.lookup "cluster" = some res.Status.Cluster ∧
        m'.tags.lookup "group" = some res.Status.Group := by
      rcases key m' hm' with h | h
      · exact h.2
      · rw [← hc, ← hg]; exact h.2
    exact ⟨h1.1.trans h2.1.symm, h1.2.trans h2.2.symm⟩

theorem groupHandler_tags_witness :
    exampleResponse.Request.Cluster = exampleResponse.Status.Cluster ∧
    exampleResponse.Request.Group = exampleResponse.Status.Group ∧
    ∀ m ∈ groupHandler exampleClient exampleResponse "uri" [],
      ∀ m' ∈ groupHandler exampleClient exampleResponse "uri" [],
        m.tags.lookup "cluster" = m'.tags.lookup "cluster" ∧
        m.tags.lookup "group" = m'.tags.lookup "group" :=
  ⟨rfl, rfl, (groupHandler_tags exampleClient exampleResponse "uri").2.2 rfl rfl⟩

end Burrow

namespace Filebeat

/-- C18 on the code: `NewFilebeat` sets the address, the three other collection switches and
the timeout of five seconds as the sample configuration shows them, but it sets
`CollectSystemStats` to true, where the sample configuration shows
`collect_system_stats = false`. -/
theorem NewFilebeat_values :
    NewFilebeat.URL = "http://127.0.0.1:5066" ∧
    NewFilebeat.CollectBeatStats = true ∧
    NewFilebeat.CollectLibbeatStats = true ∧
    NewFilebeat.CollectFilebeatStats = true ∧
    NewFilebeat.Timeout = 5 * Second ∧
    NewFilebeat.CollectSystemStats = true ∧
    sampleConfigSettings.lookup "collect_system_stats" = some "false" ∧
    sampleConfigSettings.lookup "collect_beat_stats" = some "true" ∧
    sampleConfigSettings.lookup "collect_libbeat_stats" = some "true" ∧
    sampleConfigSettings.lookup "collect_filebeat_stats" = some "true" ∧
    sampleConfigSettings.lookup "url" = some "\"http://127.0.0.1:5066\"" ∧
    sampleConfigSettings.lookup "timeout" = some "\"5s\"" := by
  decide

end Filebeat

namespace Logstash

/-! ### logstash: the plugin records of `gatherPipelinesStats` -/

mutual
theorem flattenValue_ok : ∀ (v : Json) (fieldname : String) (fields : List (String × Float64)),
    ∃ out, flattenValue fieldname v fields = Except.ok out
  | Json.null, _, fields => ⟨fields, by simp [flattenValue]⟩
  | Json.bool _, _, fields => ⟨fields, by simp [flattenValue]⟩
  | Json.str _, _, fields => ⟨fields, by simp [flattenValue]⟩
  | Json.num x, fieldname, fields => ⟨Burrow.setKey fields fieldname x, by simp [flattenValue]⟩
  | Json.arr items, fieldname, fields => by
    simp only [flattenValue]
    exact flattenItems_ok items fieldname 0 fields
  | Json.obj members, fieldname, fields => by
    simp only [flattenValue]
    exact flattenMembers_ok members fieldname fields
theorem flattenItems_ok : ∀ (items : List Json) (fieldname : String) (i : Nat)
    (fields : List (String × Float64)), ∃ out, flattenItems fieldname i items fields = Except.ok out
  | [], _, _, fields => ⟨fields, by simp [flattenItems]⟩
  | v :: rest, fieldname, i, fields => by
    obtain ⟨out, h⟩ := flattenValue_ok v (joinKey fieldname (String.mk (Burrow.formatNat i))) fields
    simp only [flattenItems, h]
    exact flattenItems_ok rest fieldname (i + 1) out
theorem flattenMembers_ok : ∀ (members : List (String × Json)) (fieldname : String)
    (fields : List (String × Float64)), ∃ out, flattenMembers fieldname members fields = Except.ok out
  | [], _, fields => ⟨fields, by simp [flattenMembers]⟩
  | (k, v) :: rest, fieldname, fields => by
    obtain ⟨out, h⟩ := flattenValue_ok v (joinKey fieldname k) fields
    simp only [flattenMembers, h]
    exact flattenMembers_ok rest fieldname out
end

/-- Flattening a decoded value never fails. -/
theorem FlattenJSON_ok (fieldname : String) (v : Json) :
    ∃ fields, FlattenJSON fieldname v = Except.ok fields :=
  flattenValue_ok v fieldname []

theorem foldl_append_singleton {α : Type} (f : α → Metric) (l : List α) :
    ∀ acc : List Metric, l.foldl (fun acc x => acc ++ [f x]) acc = acc ++ l.map f := by
  induction l with
  | nil => intro acc; simp
  | cons x rest ih => intro acc; rw [List.foldl_cons, ih]; simp

theorem addPlugins_eq (stats : PipelinesStats) (pipelineName : String) (pipeline : Pipeline)
    (acc : List Metric) :
    addPlugins stats pipelineName pipeline acc
      = acc ++ pluginRecords stats (pipelineName, pipeline) := by
  simp only [addPlugins, pluginRecords, foldl_append_singleton, List.append_assoc]

theorem name_of_mem_pluginRecords (stats : PipelinesStats) (e : String × Pipeline)
    (m : Metric) (h : m ∈ pluginRecords stats e) : m.name = "logstash_plugins" := by
  simp only [pluginRecords, List.mem_append, List.mem_map] at h
  rcases h with (⟨p, _, hp⟩ | ⟨p, _, hp⟩) | ⟨p, _, hp⟩ <;> rw [← hp]

theorem filter_pluginRecords (stats : PipelinesStats) (e : String × Pipeline) :
    (pluginRecords stats e).filter (fun m => decide (m.name = "logstash_plugins"))
      = pluginRecords stats e := by
  apply List.filter_eq_self.mpr
  intro m hm
  simp [name_of_mem_pluginRecords stats e m hm]

theorem length_pluginRecords (stats : PipelinesStats) (e : String × Pipeline) :
    (pluginRecords stats e).length
      = e.2.Plugins.Inputs.length + e.2.Plugins.Filters.length + e.2.Plugins.Outputs.length := by
  simp only [pluginRecords, List.length_append, List.length_map]

theorem pipelinesLoop_spec (logstash : Logstash) (stats : PipelinesStats)
    (pipelines : List (String × Pipeline)) :
    ∀ acc : List Metric, ∃ out : List Metric,
      pipelinesLoop logstash stats pipelines acc = (none, acc ++ out) ∧
      out.filter (fun m => decide (m.name = "logstash_plugins"))
        = (if logstash.CollectPluginsStats = true then pipelines.flatMap (pluginRecords stats)
           else []) := by
  induction pipelines with
  | nil => intro acc; exact ⟨[], by simp [pipelinesLoop], by simp⟩
  | cons e rest ih =>
    intro acc
    obtain ⟨pipelineName, pipeline⟩ := e
    obtain ⟨fields, hf⟩ := FlattenJSON_ok "" pipeline.Events
    have hname : ¬ ("logstash_" ++ "events" = "logstash_plugins") := by decide
    generalize hev : (⟨"logstash_" ++ "events", fields,
        Burrow.mapLit [("node_id", stats.ID), ("node_name", stats.Name),
          ("node_host", stats.Host), ("node_version", stats.Version),
          ("pipeline", pipelineName)]⟩ : Metric) = ev
    have hevname : ¬ (ev.name = "logstash_plugins") := by rw [← hev]; exact hname
    cases hc : logstash.CollectPluginsStats with
    | true =>
      simp only [pipelinesLoop, hf, hc, if_true, addPlugins_eq, hev]
      obtain ⟨out, h1, h2⟩ := ih (acc ++ [ev] ++ pluginRecords stats (pipelineName, pipeline))
      refine ⟨ev :: (pluginRecords stats (pipelineName, pipeline) ++ out), ?_, ?_⟩
      · rw [h1]; simp
      · rw [List.filter_cons]
        simp only [hevname, decide_False, Bool.false_eq_true, if_false, List.filter_append,
          filter_pluginRecords, h2, hc, if_true, List.flatMap_cons]
    | false =>
      simp only [pipelinesLoop, hf, hc, Bool.false_eq_true, if_false, hev]
      obtain ⟨out, h1, h2⟩ := ih (acc ++ [ev])
      refine ⟨ev :: out, ?_, ?_⟩
      · rw [h1]; simp
      · rw [List.filter_cons]
        simp only [hevname, decide_False, Bool.false_eq_true, if_false, h2, hc]

theorem length_flatMap_pluginRecords (stats : PipelinesStats)
    (pipelines : List (String × Pipeline)) :
    (pipelines.flatMap (pluginRecords stats)).length
      = (pipelines.map (fun e => e.2.Plugins.Inputs.length + e.2.Plugins.Filters.length
          + e.2.Plugins.Outputs.length)).sum := by
  induction pipelines with
  | nil => rfl
  | cons e rest ih =>
    rw [List.flatMap_cons, List.length_append, ih, length_pluginRecords, List.map_cons,
      List.sum_cons]

/-- C17: for a response that was decoded, `gatherPipelinesStats` returns nil, and the records
named `logstash_plugins` that it adds are, when `collect_plugins_stats` is true, for every
pipeline the records of its input plugins, of its filter plugins and of its output plugins,
so their number is the sum over the pipelines of the lengths of the three lists; when it is
false there is none. The record of a plugin carries the plugin type `input`, `filter` or
`output` of the list the plugin came from, and as pipeline tag the name of its pipeline. -/
theorem gatherPipelinesStats_plugins (fetch : String → Except String PipelinesStats)
    (logstash : Logstash) (url : String) (requests : List String) (acc : List Metric)
    (stats : PipelinesStats) (hfetch : fetch url = Except.ok stats) :
    ∃ out : List Metric,
      gatherPipelinesStats fetch logstash url requests acc
        = (none, requests ++ [url], acc ++ out) ∧
      out.filter (fun m => decide (m.name = "logstash_plugins"))
        = (if logstash.CollectPluginsStats = true then
            stats.Pipelines.flatMap (pluginRecords stats)
           else []) ∧
      (out.filter (fun m => decide (m.name = "logstash_plugins"))).length
        = (if logstash.CollectPluginsStats = true then
            (stats.Pipelines.map (fun e => e.2.Plugins.Inputs.length
              + e.2.Plugins.Filters.length + e.2.Plugins.Outputs.length)).sum
           else 0) ∧
      (∀ e : String × Pipeline, ∃ input filter output : Plugin → Metric,
        pluginRecords stats e = e.2.Plugins.Inputs.map input
          ++ e.2.Plugins.Filters.map filter ++ e.2.Plugins.Outputs.map output ∧
        ∀ plugin : Plugin,
          ((input plugin).name = "logstash_plugins" ∧
            (input plugin).tags.lookup "plugin_type" = some "input" ∧
            (input plugin).tags.lookup "pipeline" = some e.1 ∧
            (input plugin).tags.lookup "plugin_id" = some plugin.ID) ∧
          ((filter plugin).name = "logstash_plugins" ∧
            (filter plugin).tags.lookup "plugin_type" = some "filter" ∧
            (filter plugin).tags.lookup "pipeline" = some e.1 ∧
            (filter plugin).tags.lookup "plugin_id" = some plugin.ID) ∧
          ((output plugin).name = "logstash_plugins" ∧
            (output plugin).tags.lookup "plugin_type" = some "output" ∧
            (output plugin).tags.lookup "pipeline" = some e.1 ∧
            (output plugin).tags.lookup "plugin_id" = some plugin.ID)) := by
  obtain ⟨out, h1, h2⟩ := pipelinesLoop_spec logstash stats stats.Pipelines acc
  refine ⟨out, by simp only [gatherPipelinesStats, gatherJsonData, hfetch, h1], h2, ?_, ?_⟩
  · rw [h2]
    cases logstash.CollectPluginsStats with
    | true => simp only [if_true]; exact length_flatMap_pluginRecords stats _
    | false => simp
  · intro e
    refine ⟨_, _, _, rfl, fun plugin => ⟨⟨rfl, ?_, ?_, ?_⟩, ⟨rfl, ?_, ?_, ?_⟩,
      ⟨rfl, ?_, ?_, ?_⟩⟩⟩ <;>
      simp [pluginTags, Burrow.mapLit, Burrow.setKey, List.lookup]

theorem gatherPipelinesStats_plugins_witness :
    ∃ out : List Metric,
      gatherPipelinesStats (fun _ => Except.ok exampleStats) exampleLogstash "u" [] []
        = (none, [] ++ ["u"], [] ++ out) ∧
      (out.filter (fun m => decide (m.name = "logstash_plugins"))).length = 5 := by
  obtain ⟨out, h1, _, h3, _⟩ := gatherPipelinesStats_plugins (fun _ => Except.ok exampleStats)
    exampleLogstash "u" [] [] exampleStats rfl
  refine ⟨out, h1, ?_⟩
  rw [h3]
  decide

end Logstash

namespace Logstash

/-! ### logstash: the stages of `Gather` -/

theorem name_jvm : "logstash_" ++ "jvm" = "logstash_jvm" := by decide

theorem name_process : "logstash_" ++ "process" = "logstash_process" := by decide

theorem name_events : "logstash_" ++ "events" = "logstash_events" := by decide

theorem mapLit_nodeTags (id name host version : String) :
    Burrow.mapLit [("node_id", id), ("node_name", name), ("node_host", host),
      ("node_version", version)] = nodeTags id name host version := by
  simp [Burrow.mapLit, Burrow.setKey, nodeTags]

theorem mapLit_pipelineTags (id name host version pipelineName : String) :
    Burrow.mapLit [("node_id", id), ("node_name", name), ("node_host", host),
      ("node_version", version), ("pipeline", pipelineName)]
      = nodeTags id name host version ++ [("pipeline", pipelineName)] := by
  simp [Burrow.mapLit, Burrow.setKey, nodeTags]

theorem pipelinePluginTags_eq (stats : PipelineStats) (plugin : Plugin) (pluginType : String) :
    pipelinePluginTags stats plugin pluginType
      = nodeTags stats.ID stats.Name stats.Host stats.Version
          ++ [("plugin_name", plugin.Name), ("plugin_id", plugin.ID),
              ("plugin_type", pluginType)] := by
  simp [pipelinePluginTags, Burrow.mapLit, Burrow.setKey, nodeTags]

theorem flattened_eq (v : Json) (fields : List (String × Float64))
    (h : FlattenJSON "" v = Except.ok fields) : flattened v = fields := by
  simp [flattened, h]

theorem addPipelinePlugins_eq (stats : PipelineStats) (acc : List Metric) :
    addPipelinePlugins stats acc
      = acc ++ (stats.Pipeline.Plugins.Inputs.map (pipelinePluginRecord stats "input" inputFields)
          ++ stats.Pipeline.Plugins.Filters.map
              (pipelinePluginRecord stats "filter" filterFields)
          ++ stats.Pipeline.Plugins.Outputs.map
              (pipelinePluginRecord stats "output" filterFields)) := by
  simp only [addPipelinePlugins, foldl_append_singleton, List.append_assoc,
    pipelinePluginTags_eq]
  rfl

theorem pipelinesLoop_eq (logstash : Logstash) (stats : PipelinesStats)
    (pipelines : List (String × Pipeline)) :
    ∀ acc : List Metric, pipelinesLoop logstash stats pipelines acc
      = (none, acc ++ pipelines.flatMap (fun entry =>
          ⟨"logstash_events", flattened entry.2.Events,
           nodeTags stats.ID stats.Name stats.Host stats.Version ++ [("pipeline", entry.1)]⟩
            :: (if logstash.CollectPluginsStats = true then pluginRecords stats entry
                else []))) := by
  induction pipelines with
  | nil => intro acc; simp [pipelinesLoop]
  | cons e rest ih =>
    intro acc
    obtain ⟨pipelineName, pipeline⟩ := e
    obtain ⟨fields, hf⟩ := FlattenJSON_ok "" pipeline.Events
    simp only [pipelinesLoop, hf, ih, name_events, mapLit_pipelineTags, addPlugins_eq,
      flattened_eq _ _ hf, List.flatMap_cons]
    cases logstash.CollectPluginsStats <;> simp

/-- The function `gatherJVMStats` sends the one request of its stage and does what the
description of the stage says: on an error of the request it returns the error and adds
nothing, on an answer it returns nil and adds the records of the answer. -/
theorem gatherJVMStats_eq (world : World) (logstash : Logstash) (url : String)
    (requests : List String) (acc : List Metric) :
    gatherJVMStats world.jvm url requests acc
      = (match Stage.records world logstash Stage.jvm url with
         | Except.error err => (some err, requests ++ [url], acc)
         | Except.ok records => (none, requests ++ [url], acc ++ records)) := by
  simp only [gatherJVMStats, gatherJsonData, Stage.records]
  cases h : world.jvm url with
  | error e => rfl
  | ok stats =>
    obtain ⟨fields, hf⟩ := FlattenJSON_ok "" stats.JVM
    simp only [hf, name_jvm, mapLit_nodeTags, flattened_eq _ _ hf]

theorem gatherProcessStats_eq (world : World) (logstash : Logstash) (url : String)
    (requests : List String) (acc : List Metric) :
    gatherProcessStats world.process url requests acc
      = (match Stage.records world logstash Stage.process url with
         | Except.error err => (some err, requests ++ [url], acc)
         | Except.ok records => (none, requests ++ [url], acc ++ records)) := by
  simp only [gatherProcessStats, gatherJsonData, Stage.records]
  cases h : world.process url with
  | error e => rfl
  | ok stats =>
    obtain ⟨fields, hf⟩ := FlattenJSON_ok "" stats.Process
    simp only [hf, name_process, mapLit_nodeTags, flattened_eq _ _ hf]

theorem gatherPipelinesStats_eq (world : World) (logstash : Logstash)
    (hm : logstash.MultiPipeline = true) (url : String) (requests : List String)
    (acc : List Metric) :
    gatherPipelinesStats world.pipelines logstash url requests acc
      = (match Stage.records world logstash Stage.pipelines url with
         | Except.error err => (some err, requests ++ [url], acc)
         | Except.ok records => (none, requests ++ [url], acc ++ records)) := by
  simp only [gatherPipelinesStats, gatherJsonData, Stage.records, hm, if_true]
  cases h : world.pipelines url with
  | error e => rfl
  | ok stats => simp only [pipelinesLoop_eq]

theorem gatherPipelineStats_eq (world : World) (logstash : Logstash)
    (hm : logstash.MultiPipeline = false) (url : String) (requests : List String)
    (acc : List Metric) :
    gatherPipelineStats world.pipeline logstash url requests acc
      = (match Stage.records world logstash Stage.pipelines url with
         | Except.error err => (some err, requests ++ [url], acc)
         | Except.ok records => (none, requests ++ [url], acc ++ records)) := by
  simp only [gatherPipelineStats, gatherJsonData, Stage.records, hm, Bool.false_eq_true,
    if_false]
  cases h : world.pipeline url with
  | error e => rfl
  | ok stats =>
    obtain ⟨fields, hf⟩ := FlattenJSON_ok "" stats.Pipeline.Events
    simp only [hf, name_events, mapLit_nodeTags, flattened_eq _ _ hf, addPipelinePlugins_eq]
    cases logstash.CollectPluginsStats <;> simp

/-- With a client, `Gather` is the sequence of its three stages that stops at the first
error. -/
theorem Gather_eq (world : World) (logstash : Logstash) (client : Bool) (acc : List Metric)
    (hclient : client = true ∨ createHTTPClient world = none) :
    Gather world logstash client acc
      = match (Stage.jvm.outcome world logstash).err with
        | some err => ⟨some err, (Stage.jvm.outcome world logstash).fetched,
            acc ++ (Stage.jvm.outcome world logstash).records⟩
        | none =>
          match (Stage.process.outcome world logstash).err with
          | some err => ⟨some err,
              (Stage.jvm.outcome world logstash).fetched
                ++ (Stage.process.outcome world logstash).fetched,
              acc ++ (Stage.jvm.outcome world logstash).records
                ++ (Stage.process.outcome world logstash).records⟩
          | none => ⟨(Stage.pipelines.outcome world logstash).err,
              (Stage.jvm.outcome world logstash).fetched
                ++ (Stage.process.outcome world logstash).fetched
                ++ (Stage.pipelines.outcome world logstash).fetched,
              acc ++ (Stage.jvm.outcome world logstash).records
                ++ (Stage.process.outcome world logstash).records
                ++ (Stage.pipelines.outcome world logstash).records⟩ := by
  have hg : (if client = false then createHTTPClient world else none) = none := by
    rcases hclient with h | h <;> simp [h]
  unfold Gather
  rw [hg]
  simp only [Stage.outcome, Stage.enabled, Stage.path, jvmStats, processStats,
    pipelineStats, pipelinesStats, gatherJVMStats_eq world logstash,
    gatherProcessStats_eq world logstash]
  cases hj : logstash.CollectJVMStats <;> cases hp : logstash.CollectProcessStats <;>
    cases hq : logstash.CollectPipelinesStats <;> cases hm : logstash.MultiPipeline <;>
    simp only [Bool.false_eq_true, if_false, if_true, hm,
      gatherPipelinesStats_eq world logstash, gatherPipelineStats_eq world logstash] <;>
    (try cases h1 : world.parse (logstash.URL ++ "/_node/stats/jvm") <;> simp only []) <;>
    (try cases he1 : Stage.records world logstash Stage.jvm _ <;> simp only []) <;>
    (try cases h2 : world.parse (logstash.URL ++ "/_node/stats/process") <;> simp only []) <;>
    (try cases he2 : Stage.records world logstash Stage.process _ <;> simp only []) <;>
    (try cases h3 : world.parse (logstash.URL ++ "/_node/stats/pipelines") <;> simp only []) <;>
    (try cases h4 : world.parse (logstash.URL ++ "/_node/stats/pipeline") <;> simp only []) <;>
    (try cases he3 : Stage.records world logstash Stage.pipelines _ <;> simp only []) <;>
    (try simp)

/-- C21: `Gather` is fail-fast over its stages in the order JVM, process, pipelines. When a
client is set or can be created: if the JVM stage fails, `Gather` returns its error, and only
what the JVM stage requested and emitted has happened; if the JVM stage succeeds and the
process stage fails, `Gather` returns the error of the process stage, the requests are those
of these two stages, and the records of the JVM stage are kept; if both succeed, `Gather`
returns what the pipelines stage returns, after the requests and the records of all three.
`Gather` returns nil only if every stage succeeded. A disabled stage succeeds without a
request or a record; an enabled stage whose address does not parse fails with the error of
the parse, without a request; otherwise it sends exactly one request, to the parsed form of
the configured URL followed by the path of its endpoint, fails with the error of that request
without a record, or succeeds with the records of the answer. The request of the JVM stage
goes to `/_node/stats/jvm`, that of the process stage to `/_node/stats/process`, and that of
the pipelines stage to `/_node/stats/pipelines` when `multi_pipeline` is true and to
`/_node/stats/pipeline` otherwise; a stage fails exactly when its request does. When no
client is set and none can be created, `Gather` returns the error of the creation before any
stage. -/
theorem Gather_fail_fast (world : World) (logstash : Logstash) (client : Bool)
    (acc : List Metric) :
    ((client = true ∨ createHTTPClient world = none) →
      (∀ err, (Stage.jvm.outcome world logstash).err = some err →
        Gather world logstash client acc
          = ⟨some err, (Stage.jvm.outcome world logstash).fetched,
             acc ++ (Stage.jvm.outcome world logstash).records⟩) ∧
      (∀ err, (Stage.jvm.outcome world logstash).err = none →
        (Stage.process.outcome world logstash).err = some err →
        Gather world logstash client acc
          = ⟨some err,
             (Stage.jvm.outcome world logstash).fetched
               ++ (Stage.process.outcome world logstash).fetched,
             acc ++ (Stage.jvm.outcome world logstash).records
               ++ (Stage.process.outcome world logstash).records⟩) ∧
      ((Stage.jvm.outcome world logstash).err = none →
        (Stage.process.outcome world logstash).err = none →
        Gather world logstash client acc
          = ⟨(Stage.pipelines.outcome world logstash).err,
             (Stage.jvm.outcome world logstash).fetched
               ++ (Stage.process.outcome world logstash).fetched
               ++ (Stage.pipelines.outcome world logstash).fetched,
             acc ++ (Stage.jvm.outcome world logstash).records
               ++ (Stage.process.outcome world logstash).records
               ++ (Stage.pipelines.outcome world logstash).records⟩)) ∧
    ((Gather world logstash client acc).err = none →
      ∀ stage : Stage, (stage.outcome world logstash).err = none) ∧
    (∀ stage : Stage, stage.enabled logstash = false →
      stage.outcome world logstash = ⟨none, [], []⟩) ∧
    (∀ (stage : Stage) (err : String), stage.enabled logstash = true →
      world.parse (logstash.URL ++ stage.path logstash) = Except.error err →
      stage.outcome world logstash = ⟨some err, [], []⟩) ∧
    (∀ (stage : Stage) (u : URL) (err : String), stage.enabled logstash = true →
      world.parse (logstash.URL ++ stage.path logstash) = Except.ok u →
      stage.records world logstash u.String = Except.error err →
      stage.outcome world logstash = ⟨some err, [u.String], []⟩) ∧
    (∀ (stage : Stage) (u : URL) (records : List Metric), stage.enabled logstash = true →
      world.parse (logstash.URL ++ stage.path logstash) = Except.ok u →
      stage.records world logstash u.String = Except.ok records →
      stage.outcome world logstash = ⟨none, [u.String], records⟩) ∧
    (Stage.path logstash Stage.jvm = jvmStats ∧ jvmStats = "/_node/stats/jvm" ∧
      Stage.path logstash Stage.process = processStats ∧
      processStats = "/_node/stats/process" ∧
      Stage.path logstash Stage.pipelines
        = (if logstash.MultiPipeline = true then pipelinesStats else pipelineStats) ∧
      pipelinesStats = "/_node/stats/pipelines" ∧ pipelineStats = "/_node/stats/pipeline") ∧
    (∀ url : String,
      (∀ err, Stage.records world logstash Stage.jvm url = Except.error err
        ↔ world.jvm url = Except.error err) ∧
      (∀ err, Stage.records world logstash Stage.process url = Except.error err
        ↔ world.process url = Except.error err) ∧
      (logstash.MultiPipeline = true →
        ∀ err, Stage.records world logstash Stage.pipelines url = Except.error err
          ↔ world.pipelines url = Except.error err) ∧
      (logstash.MultiPipeline = false →
        ∀ err, Stage.records world logstash Stage.pipelines url = Except.error err
          ↔ world.pipeline url = Except.error err)) ∧
    (∀ err, client = false → createHTTPClient world = some err →
      Gather world logstash client acc = ⟨some err, [], acc⟩) := by
  refine ⟨fun hclient => ⟨?_, ?_, ?_⟩, ?_, ?_, ?_, ?_, ?_, ?_, ?_, ?_⟩
  · intro err hj
    rw [Gather_eq world logstash client acc hclient, hj]
  · intro err hj hp
    rw [Gather_eq world logstash client acc hclient, hj, hp]
  · intro hj hp
    rw [Gather_eq world logstash client acc hclient, hj, hp]
  · intro hnil
    have hclient : client = true ∨ createHTTPClient world = none := by
      cases hc : client with
      | true => exact Or.inl rfl
      | false =>
        right
        cases hw : createHTTPClient world with
        | none => rfl
        | some err =>
          rw [hc] at hnil
          simp [Gather, hw] at hnil
    rw [Gather_eq world logstash client acc hclient] at hnil
    cases hj : (Stage.jvm.outcome world logstash).err with
    | some err => rw [hj] at hnil; simp at hnil
    | none =>
      cases hp : (Stage.process.outcome world logstash).err with
      | some err => rw [hj, hp] at hnil; simp at hnil
      | none =>
        rw [hj, hp] at hnil
        intro stage
        cases stage with
        | jvm => exact hj
        | process => exact hp
        | pipelines => exact hnil
  · intro stage hd
    simp [Stage.outcome, hd]
  · intro stage err he hparse
    simp [Stage.outcome, he, hparse]
  · intro stage u err he hparse hrec
    simp [Stage.outcome, he, hparse, hrec]
  · intro stage u records he hparse hrec
    simp [Stage.outcome, he, hparse, hrec]
  · refine ⟨rfl, rfl, rfl, rfl, ?_, rfl, rfl⟩
    cases hm : logstash.MultiPipeline <;> simp [Stage.path, hm, pipelinesStats, pipelineStats]
  · intro url
    refine ⟨fun err => ?_, fun err => ?_, fun hm err => ?_, fun hm err => ?_⟩
    · simp only [Stage.records]
      cases world.jvm url <;> simp
    · simp only [Stage.records]
      cases world.process url <;> simp
    · simp only [Stage.records, hm, if_true]
      cases world.pipelines url <;> simp
    · simp only [Stage.records, hm, Bool.false_eq_true, if_false]
      cases world.pipeline url <;> simp
  · intro err hc hw
    simp [Gather, hc, hw]

theorem Gather_fail_fast_witness :
    ((false = true ∨ createHTTPClient processDownWorld = none) ∧
      (Stage.jvm.outcome processDownWorld exampleLogstash).err = none ∧
      (Stage.process.outcome processDownWorld exampleLogstash).err = some "unexpected EOF" ∧
      Gather processDownWorld exampleLogstash false []
        = ⟨some "unexpected EOF",
           (Stage.jvm.outcome processDownWorld exampleLogstash).fetched
             ++ (Stage.process.outcome processDownWorld exampleLogstash).fetched,
           [] ++ (Stage.jvm.outcome processDownWorld exampleLogstash).records
             ++ (Stage.process.outcome processDownWorld exampleLogstash).records⟩ ∧
      (Stage.jvm.outcome processDownWorld exampleLogstash).fetched
          ++ (Stage.process.outcome processDownWorld exampleLogstash).fetched
        = ["http://127.0.0.1:9600/_node/stats/jvm",
           "http://127.0.0.1:9600/_node/stats/process"] ∧
      ((Stage.jvm.outcome processDownWorld exampleLogstash).records
          ++ (Stage.process.outcome processDownWorld exampleLogstash).records).map
            (fun m => m.name)
        = ["logstash_jvm"]) ∧
    ((Stage.jvm.outcome exampleWorld exampleLogstash).err = none ∧
      (Stage.process.outcome exampleWorld exampleLogstash).err = none ∧
      (Stage.pipelines.outcome exampleWorld exampleLogstash).err = none ∧
      Gather exampleWorld exampleLogstash false []
        = ⟨(Stage.pipelines.outcome exampleWorld exampleLogstash).err,
           (Stage.jvm.outcome exampleWorld exampleLogstash).fetched
             ++ (Stage.process.outcome exampleWorld exampleLogstash).fetched
             ++ (Stage.pipelines.outcome exampleWorld exampleLogstash).fetched,
           [] ++ (Stage.jvm.outcome exampleWorld exampleLogstash).records
             ++ (Stage.process.outcome exampleWorld exampleLogstash).records
             ++ (Stage.pipelines.outcome exampleWorld exampleLogstash).records⟩ ∧
      (Stage.jvm.outcome exampleWorld exampleLogstash).fetched
          ++ (Stage.process.outcome exampleWorld exampleLogstash).fetched
          ++ (Stage.pipelines.outcome exampleWorld exampleLogstash).fetched
        = ["http://127.0.0.1:9600/_node/stats/jvm",
           "http://127.0.0.1:9600/_node/stats/process",
           "http://127.0.0.1:9600/_node/stats/pipelines"]) ∧
    ((Stage.jvm.outcome pipelineDownWorld singlePipelineLogstash).err = none ∧
      (Stage.process.outcome pipelineDownWorld singlePipelineLogstash).err = none ∧
      (Stage.pipelines.outcome pipelineDownWorld singlePipelineLogstash).err
        = some "connection reset" ∧
      Gather pipelineDownWorld singlePipelineLogstash false []
        = ⟨(Stage.pipelines.outcome pipelineDownWorld singlePipelineLogstash).err,
           (Stage.jvm.outcome pipelineDownWorld singlePipelineLogstash).fetched
             ++ (Stage.process.outcome pipelineDownWorld singlePipelineLogstash).fetched
             ++ (Stage.pipelines.outcome pipelineDownWorld singlePipelineLogstash).fetched,
           [] ++ (Stage.jvm.outcome pipelineDownWorld singlePipelineLogstash).records
             ++ (Stage.process.outcome pipelineDownWorld singlePipelineLogstash).records
             ++ (Stage.pipelines.outcome pipelineDownWorld singlePipelineLogstash).records⟩ ∧
      (Stage.jvm.outcome pipelineDownWorld singlePipelineLogstash).fetched
          ++ (Stage.process.outcome pipelineDownWorld singlePipelineLogstash).fetched
          ++ (Stage.pipelines.outcome pipelineDownWorld singlePipelineLogstash).fetched
        = ["http://127.0.0.1:9600/_node/stats/jvm",
           "http://127.0.0.1:9600/_node/stats/process",
           "http://127.0.0.1:9600/_node/stats/pipeline"]) ∧
    (noProcessLogstash.CollectProcessStats = false ∧
      Stage.outcome exampleWorld noProcessLogstash Stage.process = ⟨none, [], []⟩) ∧
    (createHTTPClient brokenTLSWorld = some "could not load keypair" ∧
      Gather brokenTLSWorld exampleLogstash false []
        = ⟨some "could not load keypair", [], []⟩) :=
  ⟨⟨Or.inr (by decide), by decide, by decide,
    ((Gather_fail_fast processDownWorld exampleLogstash false []).1 (Or.inr (by decide))).2.1
      "unexpected EOF" (by decide) (by decide),
    by decide, by decide⟩,
   ⟨by decide, by decide, by decide,
    ((Gather_fail_fast exampleWorld exampleLogstash false []).1 (Or.inr (by decide))).2.2
      (by decide) (by decide),
    by decide⟩,
   ⟨by decide, by decide, by decide,
    ((Gather_fail_fast pipelineDownWorld singlePipelineLogstash false []).1
      (Or.inr (by decide))).2.2 (by decide) (by decide),
    by decide⟩,
   ⟨by decide,
    (Gather_fail_fast exampleWorld noProcessLogstash false []).2.2.1 Stage.process
      (by decide)⟩,
   ⟨by decide,
    (Gather_fail_fast brokenTLSWorld exampleLogstash false []).2.2.2.2.2.2.2.2
      "could not load keypair" rfl (by decide)⟩⟩

end Logstash
